import Mathlib

/-!
Verification of the early-memory subsystem of the `walden` LoongArch64 kernel
(`rocinante`): the physical memory manager (`pmm.cpp`), the software page-table
builder and walker (`paging.cpp`), the page-walker CSR configuration
(`paging_hw.cpp`), and the boot memory map / FDT parser
(`boot_memory_map.cpp`).

Modelling conventions:
* Machine integers (`std::uint64_t`, `std::uintptr_t`, `std::size_t`) are
  modelled as `Nat`; wherever overflow is observable in the C++ (wrap-around
  additions, 64-bit bitwise complement) the model computes the same value via
  explicit masking with `2 ^ 64 - 1` or `% 2 ^ 64`.
* Physical memory holding page-table pages is modelled as a word-addressed
  map `Mem : Nat → Nat` (the key is the byte address of an aligned 64-bit
  entry, exactly the addresses the C++ reads and writes).  The PMM bitmap
  bytes, which the C++ stores at `m_bitmap_physical_base`, are modelled as
  a `List Nat` field of the PMM state; the PMM marks its own storage pages
  used, so in the executions modelled here the two never alias.
* Functions that mutate an object and return `bool` are modelled as functions
  returning a pair of the `Bool` result and the updated state.
-/

namespace Rocinante

/-! ## Paging constants (`paging.h`) -/

def kPageSizeBytes : Nat := 4096

def kPageShiftBits : Nat := 12

def kEntriesPerTable : Nat := 512

def kIndexBitsPerLevel : Nat := 9

def kPageOffsetMask : Nat := (1 <<< kPageShiftBits) - 1

/-- In the C++ this is the 64-bit complement `~kPageOffsetMask`. -/
def kPageBaseMask : Nat := (2 ^ 64 - 1) ^^^ kPageOffsetMask

namespace PteBits

def kValid : Nat := 1 <<< 0

def kDirty : Nat := 1 <<< 1

def kPrivilegeLevelShift : Nat := 2

def kPrivilegeLevelMask : Nat := 3 <<< kPrivilegeLevelShift

def kCacheShift : Nat := 4

def kCacheMask : Nat := 3 <<< kCacheShift

def kGlobal : Nat := 1 <<< 6

def kPresent : Nat := 1 <<< 7

def kWrite : Nat := 1 <<< 8

/-- Modelled from the spec: `PteBits::kModified` is referenced by
`LeafFlagsForPermissions` in `paging.cpp` but its definition is not among the
provided sources (the provided `paging.h` omits it).  The spec's PTE-layout
invariant requires every flag bit to be disjoint from the PALEN-masked
physical page base (bits 60:12); the header cites the Linux LoongArch page
table bits as a cross-check, whose software Modified bit is bit 9, directly
above `kWrite` (bit 8). -/
def kModified : Nat := 1 <<< 9

def kNoRead : Nat := 1 <<< 61

def kNoExecute : Nat := 1 <<< 62

def kRestrictPrivilegeLevel : Nat := 1 <<< 63

end PteBits

inductive CacheMode where
  | StrongUncached
  | CoherentCached
  | WeakUncached
deriving DecidableEq, Repr

/-- The `std::uint8_t` value of a `CacheMode` (its enum value). -/
def CacheMode.toNat : CacheMode → Nat
  | .StrongUncached => 0
  | .CoherentCached => 1
  | .WeakUncached => 2

inductive AccessPermissions where
  | ReadOnly
  | ReadWrite
deriving DecidableEq, Repr

inductive ExecutePermissions where
  | Executable
  | NoExecute
deriving DecidableEq, Repr

structure PagePermissions where
  access : AccessPermissions
  execute : ExecutePermissions
  cache : CacheMode
  global : Bool
deriving DecidableEq, Repr

structure PageTableRoot where
  root_physical_address : Nat
deriving DecidableEq, Repr

structure AddressSpaceBits where
  virtual_address_bits : Nat
  physical_address_bits : Nat
deriving DecidableEq, Repr

/-! ## Pure helpers of `paging.cpp` -/

def kMaxSupportedLevelCount : Nat := 6

/-- The C++ scans upward for the set bit of a one-bit mask; for `Nat` this is
the number of trailing zero bits, computed here with explicit fuel (the C++
loop index is bounded by the 64-bit width for the masks it is applied to). -/
def bitIndexAux (mask : Nat) : Nat → Nat
  | 0 => 0
  | fuel + 1 => if mask &&& 1 = 1 then 0 else bitIndexAux (mask >>> 1) fuel + 1

def BitIndexFromSingleBitMask (mask : Nat) : Nat := bitIndexAux mask 64

def kLowestHighFlagBit : Nat :=
  if BitIndexFromSingleBitMask PteBits.kNoRead < BitIndexFromSingleBitMask PteBits.kNoExecute
  then BitIndexFromSingleBitMask PteBits.kNoRead
  else BitIndexFromSingleBitMask PteBits.kNoExecute

def kMaxEncodablePhysicalAddressBits : Nat := kLowestHighFlagBit

def MaskFromBits (bits : Nat) : Nat :=
  if bits ≥ 64 then 2 ^ 64 - 1
  else if bits = 0 then 0
  else (1 <<< bits) - 1

def LevelCountFromVirtualAddressBits (virtual_address_bits : Nat) : Nat :=
  let offset_bits := kPageShiftBits
  let index_bits_per_level := kIndexBitsPerLevel
  let indexable_bits := if virtual_address_bits > offset_bits then virtual_address_bits - offset_bits else 0
  let level_count := (indexable_bits + index_bits_per_level - 1) / index_bits_per_level
  let level_count := if level_count = 0 then 1 else level_count
  if level_count > kMaxSupportedLevelCount then 0 else level_count

def PhysicalPageBaseMaskFromBits (physical_address_bits : Nat) : Nat :=
  if physical_address_bits > kMaxEncodablePhysicalAddressBits then 0
  else if physical_address_bits < kPageShiftBits then 0
  else MaskFromBits physical_address_bits &&& kPageBaseMask

def IndexMaskForLevel : Nat := (1 <<< kIndexBitsPerLevel) - 1

def IndexFromVirtualAddress (virtual_address shift_bits : Nat) : Nat :=
  (virtual_address >>> shift_bits) &&& IndexMaskForLevel

def IsPageAligned (address : Nat) : Bool := address &&& kPageOffsetMask = 0

def ShiftBitsForLevel (level : Nat) : Nat := kPageShiftBits + level * kIndexBitsPerLevel

def IndexFromVirtualAddressAtLevel (virtual_address level : Nat) : Nat :=
  IndexFromVirtualAddress virtual_address (ShiftBitsForLevel level)

def CacheBitsForMode (mode : CacheMode) : Nat :=
  (mode.toNat <<< PteBits.kCacheShift) &&& PteBits.kCacheMask

def PrivilegeLevelKernelBits : Nat :=
  (0 <<< PteBits.kPrivilegeLevelShift) &&& PteBits.kPrivilegeLevelMask

def LeafFlagsForPermissions (permissions : PagePermissions) : Nat :=
  let flags := 0
  let flags := flags ||| PteBits.kPresent
  let flags := flags ||| PteBits.kValid
  let flags := flags ||| PrivilegeLevelKernelBits
  let flags := flags ||| CacheBitsForMode permissions.cache
  let flags := if permissions.global then flags ||| PteBits.kGlobal else flags
  let flags :=
    if permissions.access = AccessPermissions.ReadWrite then
      flags ||| PteBits.kWrite ||| PteBits.kDirty ||| PteBits.kModified
    else flags
  let flags :=
    if permissions.execute = ExecutePermissions.NoExecute then
      flags ||| PteBits.kNoExecute
    else flags
  flags

def EncodeLeafEntry (physical_page_base physical_page_base_mask : Nat)
    (permissions : PagePermissions) : Nat :=
  (physical_page_base &&& physical_page_base_mask) ||| LeafFlagsForPermissions permissions

def EncodeTablePointer (physical_page_base physical_page_base_mask : Nat) : Nat :=
  (physical_page_base &&& physical_page_base_mask) ||| PteBits.kPresent ||| PteBits.kValid

def EntryIsPresent (entry : Nat) : Bool := entry &&& PteBits.kPresent ≠ 0

def EntryPhysicalPageBase (entry physical_page_base_mask : Nat) : Nat :=
  entry &&& physical_page_base_mask

structure Layout where
  virtual_address_bits : Nat
  physical_address_bits : Nat
  level_count : Nat
  virtual_address_low_mask : Nat
  physical_address_mask : Nat
  physical_page_base_mask : Nat
deriving DecidableEq, Repr

def BuildLayout (address_bits : AddressSpaceBits) : Option Layout :=
  if address_bits.virtual_address_bits = 0 then none
  else if address_bits.physical_address_bits = 0 then none
  else if address_bits.virtual_address_bits > 64 then none
  else if address_bits.physical_address_bits > 64 then none
  else if LevelCountFromVirtualAddressBits address_bits.virtual_address_bits = 0 then none
  else if PhysicalPageBaseMaskFromBits address_bits.physical_address_bits = 0 then none
  else some {
    virtual_address_bits := address_bits.virtual_address_bits
    physical_address_bits := address_bits.physical_address_bits
    level_count := LevelCountFromVirtualAddressBits address_bits.virtual_address_bits
    virtual_address_low_mask := MaskFromBits address_bits.virtual_address_bits
    physical_address_mask := MaskFromBits address_bits.physical_address_bits
    physical_page_base_mask := PhysicalPageBaseMaskFromBits address_bits.physical_address_bits
  }

/-- Canonical virtual address validation; virtual addresses are 64-bit values
in the C++, so the model applies to `va < 2 ^ 64`. -/
def ValidateVirtualAddress (virtual_address : Nat) (layout : Layout) : Bool :=
  if layout.virtual_address_bits = 0 then false
  else if layout.virtual_address_bits ≥ 64 then true
  else
    let low_mask := layout.virtual_address_low_mask
    let upper_mask := (2 ^ 64 - 1) ^^^ low_mask
    let sign_bit := 1 <<< (layout.virtual_address_bits - 1)
    let sign := virtual_address &&& sign_bit ≠ 0
    let upper := virtual_address &&& upper_mask
    if sign then upper = upper_mask else upper = 0

def ValidatePhysicalAddress (physical_address : Nat) (layout : Layout) : Bool :=
  physical_address &&& ((2 ^ 64 - 1) ^^^ layout.physical_address_mask) = 0

end Rocinante

namespace Rocinante

/-! ## Boot memory map data model (`boot_memory_map.h`) -/

inductive RegionType where
  | UsableRAM
  | Reserved
deriving DecidableEq, Repr

structure BootMemoryRegion where
  physical_base : Nat
  size_bytes : Nat
  type : RegionType
deriving DecidableEq, Repr

def kMaxRegions : Nat := 64

/-- The fixed-capacity array together with `region_count` is modelled as a
list of the populated entries `regions[0], ..., regions[region_count - 1]`. -/
structure BootMemoryMap where
  regions : List BootMemoryRegion
deriving DecidableEq, Repr

def BootMemoryMap.region_count (m : BootMemoryMap) : Nat := m.regions.length

def BootMemoryMap.Clear : BootMemoryMap := ⟨[]⟩

/-! ## PMM helpers (`pmm.cpp`, anonymous namespace) -/

/-- C++ `value & ~(alignment - 1)` at `uintptr_t` width. -/
def AlignDown (value alignment : Nat) : Nat :=
  value &&& ((2 ^ 64 - 1) ^^^ (alignment - 1))

/-- C++ `(value + (alignment - 1)) & ~(alignment - 1)` at `uintptr_t` width;
the addition may wrap modulo `2 ^ 64`, which the mask reproduces. -/
def AlignUp (value alignment : Nat) : Nat :=
  (value + (alignment - 1)) &&& ((2 ^ 64 - 1) ^^^ (alignment - 1))

/-- C++ computes `a + b` in `uintptr_t` (wrapping) and tests `sum < a`. -/
def AddOverflows (a b : Nat) : Bool := (a + b) % 2 ^ 64 < a

def RangesOverlap (a_base a_size b_base b_size : Nat) : Bool :=
  if a_size = 0 ∨ b_size = 0 then false
  else if AddOverflows a_base a_size then true
  else if AddOverflows b_base b_size then true
  else
    let a_end := a_base + a_size
    let b_end := b_base + b_size
    a_base < b_end ∧ b_base < a_end

/-! ## PMM state (`pmm.h`)

The bitmap bytes stored at `m_bitmap_physical_base` are carried as the
`bitmap` field (index `i` holds the byte at physical address
`m_bitmap_physical_base + i`); the model corresponds to direct-address mode,
where `_bitmap_ptr` returns the physical base itself. -/

structure PmmState where
  bitmap_physical_base : Nat
  bitmap_size_bytes : Nat
  tracked_physical_base : Nat
  tracked_physical_limit : Nat
  page_count : Nat
  free_page_count : Nat
  next_search_index : Nat
  initialized : Bool
  bitmap : List Nat
deriving DecidableEq, Repr

namespace PmmState

def reset_state : PmmState :=
  { bitmap_physical_base := 0, bitmap_size_bytes := 0, tracked_physical_base := 0
    tracked_physical_limit := 0, page_count := 0, free_page_count := 0
    next_search_index := 0, initialized := false, bitmap := [] }

/-- C++ `_bitmap_ptr()` returns null iff base or size is zero. -/
def bitmap_is_null (s : PmmState) : Bool :=
  s.bitmap_physical_base = 0 ∨ s.bitmap_size_bytes = 0

def is_page_used (s : PmmState) (page_index : Nat) : Bool :=
  let byte_index := page_index / 8
  let bit_index := page_index % 8
  if s.bitmap_is_null then true
  else (s.bitmap.getD byte_index 0) &&& (1 <<< bit_index) ≠ 0

def set_page_used (s : PmmState) (page_index : Nat) : PmmState :=
  let byte_index := page_index / 8
  let bit_index := page_index % 8
  if s.bitmap_is_null then s
  else { s with bitmap := s.bitmap.set byte_index ((s.bitmap.getD byte_index 0) ||| (1 <<< bit_index)) }

/-- C++ clears the bit with `&= ~(1u << bit_index)` at byte width. -/
def set_page_free (s : PmmState) (page_index : Nat) : PmmState :=
  let byte_index := page_index / 8
  let bit_index := page_index % 8
  if s.bitmap_is_null then s
  else { s with bitmap := s.bitmap.set byte_index ((s.bitmap.getD byte_index 0) &&& (255 ^^^ (1 <<< bit_index))) }

def page_index_to_physical (s : PmmState) (page_index : Nat) : Nat :=
  s.tracked_physical_base + page_index * kPageSizeBytes

def physical_to_page_index (s : PmmState) (physical_address : Nat) : Nat :=
  (physical_address - s.tracked_physical_base) / kPageSizeBytes

/-- The `clamped_begin` local of `_physical_range_to_page_indices`. -/
def clampBegin (s : PmmState) (physical_base : Nat) : Nat :=
  if physical_base < s.tracked_physical_base then s.tracked_physical_base else physical_base

/-- The `clamped_end` local of `_physical_range_to_page_indices`. -/
def clampEnd (s : PmmState) (physical_end : Nat) : Nat :=
  if physical_end > s.tracked_physical_limit then s.tracked_physical_limit else physical_end

/-- The `aligned_begin` local of `_physical_range_to_page_indices`. -/
def alignedBegin (s : PmmState) (physical_base : Nat) : Nat :=
  AlignDown (s.clampBegin physical_base) kPageSizeBytes

/-- The `aligned_end` local of `_physical_range_to_page_indices`. -/
def alignedEnd (s : PmmState) (physical_end : Nat) : Nat :=
  AlignUp (s.clampEnd physical_end) kPageSizeBytes

def physical_range_to_page_indices (s : PmmState) (physical_base size_bytes : Nat) :
    Option (Nat × Nat) :=
  if size_bytes = 0 then none
  else if AddOverflows physical_base size_bytes then none
  else if physical_base + size_bytes ≤ s.tracked_physical_base then none
  else if physical_base ≥ s.tracked_physical_limit then none
  else if s.clampEnd (physical_base + size_bytes) ≤ s.clampBegin physical_base then none
  else if s.alignedEnd (physical_base + size_bytes) ≤ s.alignedBegin physical_base then none
  else if s.physical_to_page_index (s.alignedEnd (physical_base + size_bytes)) ≤
      s.physical_to_page_index (s.alignedBegin physical_base) then none
  else if s.physical_to_page_index (s.alignedEnd (physical_base + size_bytes)) > s.page_count then none
  else some (s.physical_to_page_index (s.alignedBegin physical_base),
    s.physical_to_page_index (s.alignedEnd (physical_base + size_bytes)))

/-- The `for (i = index_begin; i < index_end; i++)` marking loops. -/
def set_range_used_loop (s : PmmState) : Nat → Nat → PmmState
  | _, 0 => s
  | i, n + 1 => set_range_used_loop (s.set_page_used i) (i + 1) n

def set_range_free_loop (s : PmmState) : Nat → Nat → PmmState
  | _, 0 => s
  | i, n + 1 => set_range_free_loop (s.set_page_free i) (i + 1) n

/-- `_mark_range_free`: returns `true` in the C++ in all cases (a range that
does not intersect the tracked span is silently ignored). -/
def mark_range_free (s : PmmState) (physical_base size_bytes : Nat) : PmmState :=
  match s.physical_range_to_page_indices physical_base size_bytes with
  | none => s
  | some (index_begin, index_end) => s.set_range_free_loop index_begin (index_end - index_begin)

def mark_range_used (s : PmmState) (physical_base size_bytes : Nat) : PmmState :=
  match s.physical_range_to_page_indices physical_base size_bytes with
  | none => s
  | some (index_begin, index_end) => s.set_range_used_loop index_begin (index_end - index_begin)

end PmmState

/-! ## PMM operations (`pmm.cpp`) -/

/-- The rotating scan inside `AllocatePage`: `scan` counts completed probes,
`remaining` the probes still allowed (`m_page_count` in total). -/
def findFreeScan (s : PmmState) : Nat → Nat → Option Nat
  | _, 0 => none
  | scan, remaining + 1 =>
    let index := (s.next_search_index + scan) % s.page_count
    if s.is_page_used index then findFreeScan s (scan + 1) remaining
    else some index

def AllocatePage (s : PmmState) : Option Nat × PmmState :=
  if ¬ s.initialized then (none, s)
  else if s.free_page_count = 0 then (none, s)
  else
    match findFreeScan s 0 s.page_count with
    | none => (none, s)
    | some index =>
      let s' := s.set_page_used index
      let s' := { s' with
        free_page_count := s'.free_page_count - 1
        next_search_index := (index + 1) % s'.page_count }
      (some (s.page_index_to_physical index), s')

def FreePage (s : PmmState) (physical_address : Nat) : Bool × PmmState :=
  if ¬ s.initialized then (false, s)
  else if physical_address % kPageSizeBytes ≠ 0 then (false, s)
  else if physical_address < s.tracked_physical_base then (false, s)
  else if physical_address ≥ s.tracked_physical_limit then (false, s)
  else
    let index := s.physical_to_page_index physical_address
    if index ≥ s.page_count then (false, s)
    else if ¬ s.is_page_used index then (false, s)
    else
      let s' := s.set_page_free index
      let s' := { s' with free_page_count := s'.free_page_count + 1 }
      let s' := if index < s'.next_search_index then { s' with next_search_index := index } else s'
      (true, s')

/-- The reserve loop decrements the free count once per page that was free. -/
def reserveLoop (s : PmmState) : Nat → Nat → PmmState
  | _, 0 => s
  | i, n + 1 =>
    if s.is_page_used i then reserveLoop s (i + 1) n
    else reserveLoop { s.set_page_used i with free_page_count := s.free_page_count - 1 } (i + 1) n

def ReserveRange (s : PmmState) (physical_base size_bytes : Nat) : Bool × PmmState :=
  if ¬ s.initialized then (false, s)
  else
    match s.physical_range_to_page_indices physical_base size_bytes with
    | none => (true, s)
    | some (index_begin, index_end) => (true, reserveLoop s index_begin (index_end - index_begin))

end Rocinante

namespace Rocinante

/-! ## Physical memory holding page tables

`Mem` maps the byte address of each aligned 64-bit page-table entry to its
value; `memset(page, 0, 4096)` clears every entry of the page. -/

def Mem : Type := Nat → Nat

def readEntry (m : Mem) (table index : Nat) : Nat := m (table + 8 * index)

def writeEntry (m : Mem) (table index value : Nat) : Mem :=
  fun a => if a = table + 8 * index then value else m a

def zeroPage (m : Mem) (base : Nat) : Mem :=
  fun a => if base ≤ a ∧ a < base + kPageSizeBytes then 0 else m a

/-! ## Page-table walking (`paging.cpp`) -/

/-- `EnsureNextLevelTable`: returns the next table's physical base, or `none`
where the C++ returns `false` (the possibly-mutated PMM state and memory are
returned in either case, matching the C++, whose failure paths may leak an
allocated page). -/
def EnsureNextLevelTable (pmm : PmmState) (m : Mem) (table index physical_page_base_mask : Nat) :
    Option Nat × PmmState × Mem :=
  let entry := readEntry m table index
  if EntryIsPresent entry then
    (some (EntryPhysicalPageBase entry physical_page_base_mask), pmm, m)
  else
    match AllocatePage pmm with
    | (none, pmm') => (none, pmm', m)
    | (some new_table_physical_base, pmm') =>
      if ¬ IsPageAligned new_table_physical_base then (none, pmm', m)
      else
        let m := zeroPage m new_table_physical_base
        let m := writeEntry m table index
          (EncodeTablePointer new_table_physical_base physical_page_base_mask)
        (some new_table_physical_base, pmm', m)

/-- The descending `for (level = level_count - 1; level > 0; level--)` loop of
`MapPage4KiB`; `level` is the current level, counting down to the leaf. The
`none` result corresponds to `return false` (with the state mutated so far),
`some t` to reaching the leaf table `t`. -/
def mapWalk (pmm : PmmState) (m : Mem) (table virtual_address physical_page_base_mask : Nat) :
    Nat → Option Nat × PmmState × Mem
  | 0 => (some table, pmm, m)
  | level + 1 =>
    let index := IndexFromVirtualAddressAtLevel virtual_address (level + 1)
    match EnsureNextLevelTable pmm m table index physical_page_base_mask with
    | (none, pmm', m') => (none, pmm', m')
    | (some next_table, pmm', m') =>
      if next_table = 0 then (none, pmm', m')
      else mapWalk pmm' m' next_table virtual_address physical_page_base_mask level

def MapPage4KiB (pmm : PmmState) (m : Mem) (root : PageTableRoot)
    (virtual_address physical_address : Nat) (permissions : PagePermissions)
    (address_bits : AddressSpaceBits) : Bool × PmmState × Mem :=
  match BuildLayout address_bits with
  | none => (false, pmm, m)
  | some layout =>
    if root.root_physical_address = 0 then (false, pmm, m)
    else if ¬ ValidateVirtualAddress virtual_address layout then (false, pmm, m)
    else if ¬ ValidatePhysicalAddress physical_address layout then (false, pmm, m)
    else if ¬ IsPageAligned virtual_address then (false, pmm, m)
    else if ¬ IsPageAligned physical_address then (false, pmm, m)
    else
      match mapWalk pmm m root.root_physical_address virtual_address
          layout.physical_page_base_mask (layout.level_count - 1) with
      | (none, pmm', m') => (false, pmm', m')
      | (some table, pmm', m') =>
        if EntryIsPresent (readEntry m' table (IndexFromVirtualAddressAtLevel virtual_address 0)) then
          (false, pmm', m')
        else
          (true, pmm',
            writeEntry m' table (IndexFromVirtualAddressAtLevel virtual_address 0)
              (EncodeLeafEntry physical_address layout.physical_page_base_mask permissions))

/-- The read-only descent shared verbatim by the loops of `UnmapPage4KiB` and
`Translate` (both read the entry, require it present, and follow the masked
base, requiring a non-null table pointer). -/
def walkToLeafTable (m : Mem) (table virtual_address physical_page_base_mask : Nat) :
    Nat → Option Nat
  | 0 => some table
  | level + 1 =>
    let index := IndexFromVirtualAddressAtLevel virtual_address (level + 1)
    let entry := readEntry m table index
    if ¬ EntryIsPresent entry then none
    else
      let next_table := EntryPhysicalPageBase entry physical_page_base_mask
      if next_table = 0 then none
      else walkToLeafTable m next_table virtual_address physical_page_base_mask level

def UnmapPage4KiB (m : Mem) (root : PageTableRoot) (virtual_address : Nat)
    (address_bits : AddressSpaceBits) : Bool × Mem :=
  match BuildLayout address_bits with
  | none => (false, m)
  | some layout =>
    if root.root_physical_address = 0 then (false, m)
    else if ¬ ValidateVirtualAddress virtual_address layout then (false, m)
    else if ¬ IsPageAligned virtual_address then (false, m)
    else
      match walkToLeafTable m root.root_physical_address virtual_address
          layout.physical_page_base_mask (layout.level_count - 1) with
      | none => (false, m)
      | some table =>
        if ¬ EntryIsPresent (readEntry m table (IndexFromVirtualAddressAtLevel virtual_address 0)) then
          (false, m)
        else (true, writeEntry m table (IndexFromVirtualAddressAtLevel virtual_address 0) 0)

def Translate (m : Mem) (root : PageTableRoot) (virtual_address : Nat)
    (address_bits : AddressSpaceBits) : Option Nat :=
  match BuildLayout address_bits with
  | none => none
  | some layout =>
    if root.root_physical_address = 0 then none
    else if ¬ ValidateVirtualAddress virtual_address layout then none
    else
      match walkToLeafTable m root.root_physical_address virtual_address
          layout.physical_page_base_mask (layout.level_count - 1) with
      | none => none
      | some table =>
        if ¬ EntryIsPresent (readEntry m table (IndexFromVirtualAddressAtLevel virtual_address 0)) then
          none
        else some (EntryPhysicalPageBase
          (readEntry m table (IndexFromVirtualAddressAtLevel virtual_address 0))
          layout.physical_page_base_mask + (virtual_address &&& kPageOffsetMask))

/-- The striding loop of `MapRange4KiB`, by remaining page count. -/
def mapRangeLoop (pmm : PmmState) (m : Mem) (root : PageTableRoot)
    (virtual_base physical_base : Nat) (permissions : PagePermissions)
    (address_bits : AddressSpaceBits) (offset : Nat) : Nat → Bool × PmmState × Mem
  | 0 => (true, pmm, m)
  | pages + 1 =>
    match MapPage4KiB pmm m root (virtual_base + offset) (physical_base + offset)
        permissions address_bits with
    | (false, pmm', m') => (false, pmm', m')
    | (true, pmm', m') =>
      mapRangeLoop pmm' m' root virtual_base physical_base permissions address_bits
        (offset + kPageSizeBytes) pages

def MapRange4KiB (pmm : PmmState) (m : Mem) (root : PageTableRoot)
    (virtual_base physical_base size_bytes : Nat) (permissions : PagePermissions)
    (address_bits : AddressSpaceBits) : Bool × PmmState × Mem :=
  match BuildLayout address_bits with
  | none => (false, pmm, m)
  | some layout =>
    if ¬ IsPageAligned virtual_base then (false, pmm, m)
    else if ¬ IsPageAligned physical_base then (false, pmm, m)
    else if size_bytes % kPageSizeBytes ≠ 0 then (false, pmm, m)
    else if ¬ ValidateVirtualAddress virtual_base layout then (false, pmm, m)
    else if ¬ ValidatePhysicalAddress physical_base layout then (false, pmm, m)
    else mapRangeLoop pmm m root virtual_base physical_base permissions address_bits
      0 (size_bytes / kPageSizeBytes)

end Rocinante

namespace Rocinante

/-! ## Page-walker CSR configuration (`paging_hw.cpp`) -/

structure PageWalkerConfig where
  pwcl : Nat
  pwch : Nat
deriving DecidableEq, Repr

/-- The `while (remaining > 0)` splitting loop of `Make4KiBPageWalkerConfig`:
`slots` is the number of index levels still available (the C++ fails once
`level_count` reaches `kMaxIndexLevels = 5`). -/
def splitIndexWidths (remaining : Nat) : Nat → Option (List Nat)
  | 0 => if remaining = 0 then some [] else none
  | slots + 1 =>
    if remaining = 0 then some []
    else
      let w := if remaining ≥ kIndexBitsPerLevel then kIndexBitsPerLevel else remaining
      match splitIndexWidths (remaining - w) slots with
      | none => none
      | some ws => some (w :: ws)

/-- Index start bit per level: `bases[0] = 12`, `bases[i] = bases[i-1] + widths[i-1]`. -/
def indexBases (base : Nat) : List Nat → List (Nat × Nat)
  | [] => []
  | w :: ws => (base, w) :: indexBases (base + w) ws

def Make4KiBPageWalkerConfig (address_bits : AddressSpaceBits) : Option PageWalkerConfig :=
  if address_bits.virtual_address_bits ≤ kPageShiftBits then none
  else
    match splitIndexWidths (address_bits.virtual_address_bits - kPageShiftBits) 5 with
    | none => none
    | some widths =>
      let levels := indexBases kPageShiftBits widths
      let lv := fun i => levels.getD i (0, 0)
      let level_count := levels.length
      let pwcl := ((lv 0).1 &&& 31) ||| (((lv 0).2 &&& 31) <<< 5)
      let pwcl :=
        if level_count ≥ 2 then pwcl ||| (((lv 1).1 &&& 31) <<< 10) ||| (((lv 1).2 &&& 31) <<< 15)
        else pwcl
      let pwcl :=
        if level_count ≥ 3 then pwcl ||| (((lv 2).1 &&& 31) <<< 20) ||| (((lv 2).2 &&& 31) <<< 25)
        else pwcl
      let pwch := 0
      let pwch :=
        if level_count ≥ 4 then pwch ||| ((lv 3).1 &&& 63) ||| (((lv 3).2 &&& 63) <<< 6)
        else pwch
      let pwch :=
        if level_count ≥ 5 then pwch ||| (((lv 4).1 &&& 63) <<< 12) ||| (((lv 4).2 &&& 63) <<< 18)
        else pwch
      some { pwcl := pwcl, pwch := pwch }

/-! ## PMM initialization (`pmm.cpp`) -/

/-- The UsableRAM span scan at the top of `InitializeFromBootMemoryMap`
(`saw_usable`, `usable_min`, `usable_max`). -/
def computeUsableSpan (regions : List BootMemoryRegion) : Option (Nat × Nat) :=
  regions.foldl
    (fun acc r =>
      if r.type ≠ RegionType.UsableRAM then acc
      else if r.size_bytes = 0 then acc
      else if AddOverflows r.physical_base r.size_bytes then acc
      else
        let b := r.physical_base
        let e := b + r.size_bytes
        match acc with
        | none => some (b, e)
        | some (usable_min, usable_max) =>
          some ((if b < usable_min then b else usable_min),
            (if e > usable_max then e else usable_max)))
    none

/-- The inner `for (bump = 0; bump < 4; bump++)` loop of `_allocate_bitmap`;
`none` means the loop ended without choosing a candidate in this region. -/
def bitmapBumpLoop (region_begin region_end byte_count_aligned kb ke db dsz : Nat) :
    Nat → Nat → Option Nat
  | _, 0 => none
  | candidate, fuel + 1 =>
    if candidate < region_begin then none
    else if AddOverflows candidate byte_count_aligned then none
    else if candidate + byte_count_aligned > region_end then none
    else if ke > kb ∧ RangesOverlap candidate byte_count_aligned kb (ke - kb) then
      bitmapBumpLoop region_begin region_end byte_count_aligned kb ke db dsz (AlignUp ke 16) fuel
    else if db ≠ 0 ∧ dsz ≠ 0 ∧ RangesOverlap candidate byte_count_aligned db dsz then
      if AddOverflows db dsz then none
      else bitmapBumpLoop region_begin region_end byte_count_aligned kb ke db dsz
        (AlignUp (db + dsz) 16) fuel
    else some candidate

/-- The region loop of `_allocate_bitmap`.  A candidate equal to 0 leaves the
C++ `chosen_base` sentinel unset, so the search moves to the next region. -/
def bitmapSearchRegions (byte_count_aligned kb ke db dsz : Nat) :
    List BootMemoryRegion → Option Nat
  | [] => none
  | r :: rest =>
    if r.type ≠ RegionType.UsableRAM then bitmapSearchRegions byte_count_aligned kb ke db dsz rest
    else if r.size_bytes = 0 then bitmapSearchRegions byte_count_aligned kb ke db dsz rest
    else if AddOverflows r.physical_base r.size_bytes then
      bitmapSearchRegions byte_count_aligned kb ke db dsz rest
    else if AlignUp r.physical_base 16 < r.physical_base then
      bitmapSearchRegions byte_count_aligned kb ke db dsz rest
    else
      match bitmapBumpLoop r.physical_base (r.physical_base + r.size_bytes)
          byte_count_aligned kb ke db dsz (AlignUp r.physical_base 16) 4 with
      | none => bitmapSearchRegions byte_count_aligned kb ke db dsz rest
      | some chosen =>
        if chosen ≠ 0 then some chosen
        else bitmapSearchRegions byte_count_aligned kb ke db dsz rest

/-- The `byte_count_aligned` local of `_allocate_bitmap` (the bit count is the
page count, rounded up to whole bytes and then to a 16-byte multiple). -/
def bitmapByteCountAligned (page_count : Nat) : Nat :=
  ((page_count + 7) / 8 + 15) &&& ((2 ^ 64 - 1) ^^^ 15)

def PmmState.allocate_bitmap (s : PmmState) (boot_map : BootMemoryMap) (page_count kb ke db dsz : Nat) :
    Option PmmState :=
  if page_count = 0 then none
  else if (page_count + 7) / 8 = 0 then none
  else
    match bitmapSearchRegions (bitmapByteCountAligned page_count) kb ke db dsz boot_map.regions with
    | none => none
    | some chosen_base =>
      if ({ s with bitmap_physical_base := chosen_base, bitmap_size_bytes := bitmapByteCountAligned page_count } : PmmState).bitmap_is_null then none
      else some { s with bitmap_physical_base := chosen_base, bitmap_size_bytes := bitmapByteCountAligned page_count, bitmap := List.replicate (bitmapByteCountAligned page_count) 255 }

/-- The final free-page count loop: counts indices in `[0, n)` whose bit is clear. -/
def PmmState.countFreeLoop (s : PmmState) : Nat → Nat
  | 0 => 0
  | n + 1 => s.countFreeLoop n + (if s.is_page_used n then 0 else 1)

/-- Step 4.1 of initialization: mark every UsableRAM region FREE. -/
def initFreePhase (boot_map : BootMemoryMap) (s : PmmState) : PmmState :=
  boot_map.regions.foldl
    (fun s r =>
      if r.type ≠ RegionType.UsableRAM then s
      else s.mark_range_free r.physical_base r.size_bytes) s

/-- Step 4.2 of initialization: mark every Reserved region USED. -/
def initReservedPhase (boot_map : BootMemoryMap) (s : PmmState) : PmmState :=
  boot_map.regions.foldl
    (fun s r =>
      if r.type ≠ RegionType.Reserved then s
      else s.mark_range_used r.physical_base r.size_bytes) s

/-- Step 4.3 of initialization: mark the kernel image USED. -/
def initKernelPhase (kb ke : Nat) (s : PmmState) : PmmState :=
  if ke > kb then s.mark_range_used kb (ke - kb) else s

/-- Step 4.4 of initialization: mark the DTB blob USED. -/
def initDtbPhase (db dsz : Nat) (s : PmmState) : PmmState :=
  if db ≠ 0 ∧ dsz ≠ 0 then s.mark_range_used db dsz else s

/-- Step 4.5 of initialization: mark the bitmap storage itself USED. -/
def initBitmapPhase (s : PmmState) : PmmState :=
  if s.bitmap_physical_base ≠ 0 ∧ s.bitmap_size_bytes ≠ 0 then
    s.mark_range_used s.bitmap_physical_base s.bitmap_size_bytes
  else s

/-- The whole marking stage of `InitializeFromBootMemoryMap` (steps 4.1-4.6,
ending with physical page 0 marked USED). -/
def initMarkings (boot_map : BootMemoryMap) (kb ke db dsz : Nat) (s : PmmState) : PmmState :=
  (initBitmapPhase (initDtbPhase db dsz (initKernelPhase kb ke
    (initReservedPhase boot_map (initFreePhase boot_map s))))).mark_range_used 0 kPageSizeBytes

/-- `InitializeFromBootMemoryMap`; `none` models `return false` (after which
the C++ object is reset to the uninitialized state).  The C++ checks on the
results of `_mark_range_free` and `_mark_range_used` are dead: those helpers
always return `true`. -/
def InitializeFromBootMemoryMap (boot_map : BootMemoryMap) (kb ke db dsz : Nat) :
    Option PmmState :=
  match computeUsableSpan boot_map.regions with
  | none => none
  | some (usable_min, usable_max) =>
    if AlignUp usable_max kPageSizeBytes ≤ AlignDown usable_min kPageSizeBytes then none
    else if (AlignUp usable_max kPageSizeBytes - AlignDown usable_min kPageSizeBytes) / kPageSizeBytes = 0 then none
    else
      match ({ PmmState.reset_state with tracked_physical_base := AlignDown usable_min kPageSizeBytes, tracked_physical_limit := AlignUp usable_max kPageSizeBytes, page_count := (AlignUp usable_max kPageSizeBytes - AlignDown usable_min kPageSizeBytes) / kPageSizeBytes } : PmmState).allocate_bitmap boot_map ((AlignUp usable_max kPageSizeBytes - AlignDown usable_min kPageSizeBytes) / kPageSizeBytes) kb ke db dsz with
      | none => none
      | some s1 =>
        some { initMarkings boot_map kb ke db dsz s1 with free_page_count := (initMarkings boot_map kb ke db dsz s1).countFreeLoop (initMarkings boot_map kb ke db dsz s1).page_count, next_search_index := 0, initialized := true }

/-! ## `BootMemoryMap::AddRegion` (`boot_memory_map.cpp`) -/

/-- The merge scan of `AddRegion`: try each existing region in order; `some`
returns the updated region list after merging into the first eligible
neighbor, `none` means no merge happened. -/
def addRegionMergeLoop (region : BootMemoryRegion) :
    List BootMemoryRegion → Option (List BootMemoryRegion)
  | [] => none
  | existing :: rest =>
    let keep := (addRegionMergeLoop region rest).map (existing :: ·)
    if existing.type ≠ region.type then keep
    else if AddOverflows existing.physical_base existing.size_bytes then keep
    else
      let existing_end := existing.physical_base + existing.size_bytes
      let new_end := region.physical_base + region.size_bytes
      if existing_end = region.physical_base then
        some ({ existing with size_bytes := new_end - existing.physical_base } :: rest)
      else if new_end = existing.physical_base then
        some ({ existing with
          physical_base := region.physical_base
          size_bytes := existing_end - region.physical_base } :: rest)
      else keep

def BootMemoryMap.AddRegion (m : BootMemoryMap) (region : BootMemoryRegion) :
    Bool × BootMemoryMap :=
  if region.size_bytes = 0 then (false, m)
  else if AddOverflows region.physical_base region.size_bytes then (false, m)
  else
    match addRegionMergeLoop region m.regions with
    | some updated => (true, ⟨updated⟩)
    | none =>
      if m.regions.length ≥ kMaxRegions then (false, m)
      else (true, ⟨m.regions ++ [region]⟩)

end Rocinante

namespace Rocinante

/-! ## FDT parsing (`boot_memory_map.cpp`)

The device tree blob is modelled as a byte map `Nat → Nat` from offsets
into the blob.  Cursors hold offsets; `CursorAlignTo(4)` aligns the absolute
address in the C++, which coincides with aligning the offset because the
bring-up driver locates the DTB on a 4-byte-strided scan, so the blob base is
4-byte aligned. -/

def Blob : Type := Nat → Nat

def ReadBe32 (blob : Blob) (off : Nat) : Nat :=
  (blob off <<< 24) ||| (blob (off + 1) <<< 16) ||| (blob (off + 2) <<< 8) ||| blob (off + 3)

def ReadBe64 (blob : Blob) (off : Nat) : Nat :=
  (blob off <<< 56) ||| (blob (off + 1) <<< 48) ||| (blob (off + 2) <<< 40) |||
  (blob (off + 3) <<< 32) ||| (blob (off + 4) <<< 24) ||| (blob (off + 5) <<< 16) |||
  (blob (off + 6) <<< 8) ||| blob (off + 7)

/-- `IsNullTerminatedStringWithin`, returning the string length when a NUL
byte occurs within `max_len` bytes of `off`. -/
def findNul (blob : Blob) : Nat → Nat → Option Nat
  | _, 0 => none
  | off, max_len + 1 =>
    if blob off = 0 then some 0
    else (findNul blob (off + 1) max_len).map (· + 1)

/-- The bytes of the string of length `len` at `off` (its NUL excluded). -/
def readBytes (blob : Blob) (off len : Nat) : List Nat :=
  (List.range len).map (fun i => blob (off + i))

/-- C++ `StartsWith(str, prefix)` on a string captured as its exact byte
list: the comparison stops at the first mismatch, and a prefix longer than
the string mismatches against its NUL terminator. -/
def startsWithBytes (str : List Nat) (p : List Nat) : Bool := p.isPrefixOf str

def strBytes (s : String) : List Nat := s.toList.map Char.toNat

def kFdtMagic : Nat := 0xd00dfeed

def kFdtHeaderSizeBytes : Nat := 40

structure FdtView where
  total_size_bytes : Nat
  structure_offset_bytes : Nat
  structure_size_bytes : Nat
  strings_offset_bytes : Nat
  strings_size_bytes : Nat
  mem_rsvmap_offset_bytes : Nat
deriving DecidableEq, Repr

def TryMakeFdtView (blob : Blob) : Option FdtView :=
  let magic := ReadBe32 blob 0
  if magic ≠ kFdtMagic then none
  else
    let total_size_bytes := ReadBe32 blob 4
    if total_size_bytes < kFdtHeaderSizeBytes then none
    else
      let off_dt_struct := ReadBe32 blob 8
      let off_dt_strings := ReadBe32 blob 12
      let off_mem_rsvmap := ReadBe32 blob 16
      let size_dt_strings := ReadBe32 blob 32
      let size_dt_struct := ReadBe32 blob 36
      if off_dt_struct ≥ total_size_bytes then none
      else if off_dt_strings ≥ total_size_bytes then none
      else if off_mem_rsvmap ≥ total_size_bytes then none
      else if off_dt_struct + size_dt_struct > total_size_bytes then none
      else if off_dt_strings + size_dt_strings > total_size_bytes then none
      else some {
        total_size_bytes := total_size_bytes
        structure_offset_bytes := off_dt_struct
        structure_size_bytes := size_dt_struct
        strings_offset_bytes := off_dt_strings
        strings_size_bytes := size_dt_strings
        mem_rsvmap_offset_bytes := off_mem_rsvmap
      }

/-- Offset alignment to a 4-byte boundary (`CursorAlignTo`). -/
def alignUp4 (off : Nat) : Nat := ((off + 3) / 4) * 4

/-- The tuple loop of `TryReadAddressSizePairs`. -/
def pairsLoop (blob : Blob) (value_off address_cells size_cells tuple_size_bytes : Nat)
    (type : RegionType) (map : BootMemoryMap) : Nat → Nat → Bool × BootMemoryMap
  | _, 0 => (true, map)
  | offset, count + 1 =>
    let tuple := value_off + offset
    let address := if address_cells = 1 then ReadBe32 blob tuple else ReadBe64 blob tuple
    let size_ptr := tuple + address_cells * 4
    let size := if size_cells = 1 then ReadBe32 blob size_ptr else ReadBe64 blob size_ptr
    if size = 0 then
      pairsLoop blob value_off address_cells size_cells tuple_size_bytes type map
        (offset + tuple_size_bytes) count
    else
      match map.AddRegion { physical_base := address, size_bytes := size, type := type } with
      | (false, map') => (false, map')
      | (true, map') =>
        pairsLoop blob value_off address_cells size_cells tuple_size_bytes type map'
          (offset + tuple_size_bytes) count

def TryReadAddressSizePairs (blob : Blob) (value_off reg_size_bytes address_cells size_cells : Nat)
    (map : BootMemoryMap) (type : RegionType) : Bool × BootMemoryMap :=
  if address_cells = 0 ∨ size_cells = 0 then (false, map)
  else if address_cells > 2 ∨ size_cells > 2 then (false, map)
  else
    let tuple_size_bytes := (address_cells + size_cells) * 4
    if reg_size_bytes % tuple_size_bytes ≠ 0 then (false, map)
    else pairsLoop blob value_off address_cells size_cells tuple_size_bytes type map
      0 (reg_size_bytes / tuple_size_bytes)

/-- The memreserve loop; each iteration consumes 16 bytes, so the fuel
`total_size_bytes` used by `TryParseFromDeviceTree` can never run out before
the cursor bound check fails. -/
def parseMemReserveLoop (blob : Blob) (stop : Nat) (map : BootMemoryMap) :
    Nat → Nat → Bool × BootMemoryMap
  | _, 0 => (false, map)
  | off, fuel + 1 =>
    if off + 16 > stop then (false, map)
    else
      let address := ReadBe64 blob off
      let size := ReadBe64 blob (off + 8)
      if address = 0 ∧ size = 0 then (true, map)
      else if size = 0 then parseMemReserveLoop blob stop map (off + 16) fuel
      else
        match map.AddRegion { physical_base := address, size_bytes := size, type := RegionType.Reserved } with
        | (false, map') => (false, map')
        | (true, map') => parseMemReserveLoop blob stop map' (off + 16) fuel

def ParseMemReserveTable (blob : Blob) (view : FdtView) (map : BootMemoryMap) :
    Bool × BootMemoryMap :=
  parseMemReserveLoop blob view.total_size_bytes map view.mem_rsvmap_offset_bytes
    view.total_size_bytes

structure NodeContext where
  address_cells : Nat
  size_cells : Nat
deriving DecidableEq, Repr

structure FdtParseState where
  ctx_stack : List NodeContext
  name_stack : List (List Nat)
  depth : Nat
  reserved_memory_ctx : NodeContext
  in_reserved_memory_node : Bool

/-- BEGIN_NODE handling: read the node name, push inherited context.
Returns the cursor offset after the name together with the new state. -/
def handleBeginNode (blob : Blob) (stop off : Nat) (st : FdtParseState) :
    Option (Nat × FdtParseState) :=
  match findNul blob off (stop - off) with
  | none => none
  | some len =>
    let node_name := readBytes blob off len
    if off + (len + 1) > stop then none
    else
      let off := alignUp4 (off + (len + 1))
      if off > stop then none
      else if st.depth + 1 ≥ 32 then none
      else
        let inherited := st.ctx_stack.getD st.depth ⟨0, 0⟩
        let st := { st with
          ctx_stack := st.ctx_stack.set (st.depth + 1) inherited
          name_stack := st.name_stack.set (st.depth + 1) node_name
          depth := st.depth + 1 }
        let st :=
          if st.depth = 2 ∧ startsWithBytes node_name (strBytes "reserved-memory") then
            { st with
              in_reserved_memory_node := true
              reserved_memory_ctx := st.ctx_stack.getD st.depth ⟨0, 0⟩ }
          else st
        some (off, st)

/-- PROP handling.  `Except` carries the (possibly already extended) map out
of a failing `TryReadAddressSizePairs`. -/
def handleProp (blob : Blob) (strings_off strings_size stop off : Nat)
    (st : FdtParseState) (map : BootMemoryMap) :
    Except BootMemoryMap (Nat × FdtParseState × BootMemoryMap) :=
  if off + 4 > stop then .error map
  else
    let len_bytes := ReadBe32 blob off
    let off := off + 4
    if off + 4 > stop then .error map
    else
      let nameoff := ReadBe32 blob off
      let off := off + 4
      if off + len_bytes > stop then .error map
      else if nameoff ≥ strings_size then .error map
      else
        match findNul blob (strings_off + nameoff) (strings_size - nameoff) with
        | none => .error map
        | some name_len =>
          let prop_name := readBytes blob (strings_off + nameoff) name_len
          let value_off := off
          let off := alignUp4 (off + len_bytes)
          if off > stop then .error map
          else
            let u32 : Option Nat := if len_bytes = 4 then some (ReadBe32 blob value_off) else none
            let st :=
              if st.depth = 1 ∧ startsWithBytes prop_name (strBytes "#address-cells") then
                match u32 with
                | some v =>
                  let ctx := st.ctx_stack.getD st.depth ⟨0, 0⟩
                  { st with ctx_stack := st.ctx_stack.set st.depth { ctx with address_cells := v } }
                | none => st
              else st
            let st :=
              if st.depth = 1 ∧ startsWithBytes prop_name (strBytes "#size-cells") then
                match u32 with
                | some v =>
                  let ctx := st.ctx_stack.getD st.depth ⟨0, 0⟩
                  { st with ctx_stack := st.ctx_stack.set st.depth { ctx with size_cells := v } }
                | none => st
              else st
            let st :=
              if st.depth = 2 ∧ st.in_reserved_memory_node ∧
                  startsWithBytes prop_name (strBytes "#address-cells") then
                match u32 with
                | some v => { st with reserved_memory_ctx := { st.reserved_memory_ctx with address_cells := v } }
                | none => st
              else st
            let st :=
              if st.depth = 2 ∧ st.in_reserved_memory_node ∧
                  startsWithBytes prop_name (strBytes "#size-cells") then
                match u32 with
                | some v => { st with reserved_memory_ctx := { st.reserved_memory_ctx with size_cells := v } }
                | none => st
              else st
            if st.depth = 2 ∧ startsWithBytes prop_name (strBytes "reg") then
              let node_name := st.name_stack.getD st.depth []
              let looks_like_memory_node :=
                startsWithBytes node_name (strBytes "memory@") ∨
                (node_name.getD 0 0 = 109 ∧ startsWithBytes node_name (strBytes "memory"))
              if looks_like_memory_node then
                let ctx := st.ctx_stack.getD st.depth ⟨0, 0⟩
                match TryReadAddressSizePairs blob value_off len_bytes ctx.address_cells
                    ctx.size_cells map RegionType.UsableRAM with
                | (false, map') => .error map'
                | (true, map') => .ok (off, st, map')
              else .ok (off, st, map)
            else if st.in_reserved_memory_node ∧ st.depth ≥ 3 ∧ startsWithBytes prop_name (strBytes "reg") then
              match TryReadAddressSizePairs blob value_off len_bytes
                  st.reserved_memory_ctx.address_cells st.reserved_memory_ctx.size_cells
                  map RegionType.Reserved with
              | (false, map') => .error map'
              | (true, map') => .ok (off, st, map')
            else .ok (off, st, map)

/-- The token loop of `ParseStructureBlockWithNodeNames`.  Every iteration
consumes at least the 4 token bytes and requires them to lie below `stop`,
so the fuel `total_size_bytes` passed by the entry point cannot run out
before a bounds check fails. -/
def parseStructLoop (blob : Blob) (strings_off strings_size stop : Nat) :
    Nat → FdtParseState → BootMemoryMap → Nat → Bool × BootMemoryMap
  | _, _, map, 0 => (false, map)
  | off, st, map, fuel + 1 =>
    if off + 4 > stop then (false, map)
    else
      let token := ReadBe32 blob off
      let off := off + 4
      if token = 1 then
        match handleBeginNode blob stop off st with
        | none => (false, map)
        | some (off', st') => parseStructLoop blob strings_off strings_size stop off' st' map fuel
      else if token = 2 then
        if st.depth = 0 then (false, map)
        else
          let st :=
            if st.depth = 2 ∧ st.in_reserved_memory_node then
              { st with in_reserved_memory_node := false }
            else st
          parseStructLoop blob strings_off strings_size stop off
            { st with depth := st.depth - 1 } map fuel
      else if token = 3 then
        match handleProp blob strings_off strings_size stop off st map with
        | .error map' => (false, map')
        | .ok (off', st', map') =>
          parseStructLoop blob strings_off strings_size stop off' st' map' fuel
      else if token = 4 then
        parseStructLoop blob strings_off strings_size stop off st map fuel
      else if token = 9 then (true, map)
      else (false, map)

def fdtInitialParseState : FdtParseState :=
  { ctx_stack := (List.replicate 32 ⟨0, 0⟩).set 0 ⟨2, 1⟩
    name_stack := (List.replicate 32 []).set 0 []
    depth := 0
    reserved_memory_ctx := ⟨2, 1⟩
    in_reserved_memory_node := false }

def ParseStructureBlockWithNodeNames (blob : Blob) (view : FdtView) (map : BootMemoryMap) :
    Bool × BootMemoryMap :=
  parseStructLoop blob view.strings_offset_bytes view.strings_size_bytes
    (view.structure_offset_bytes + view.structure_size_bytes)
    view.structure_offset_bytes fdtInitialParseState map view.total_size_bytes

/-- `TryParseFromDeviceTree`: clears the map, validates the header, then
parses the memreserve table and the structure block.  The inherited map
contents `m0` are discarded by the leading `Clear()`. -/
def TryParseFromDeviceTree (m0 : BootMemoryMap) (blob : Blob) : Bool × BootMemoryMap :=
  let map := BootMemoryMap.Clear
  match TryMakeFdtView blob with
  | none => (false, map)
  | some view =>
    match ParseMemReserveTable blob view map with
    | (false, map) => (false, map)
    | (true, map) =>
      match ParseStructureBlockWithNodeNames blob view map with
      | (false, map) => (false, map)
      | (true, map) => (true, map)

end Rocinante

namespace Rocinante

/-! ## Spec-side definitions and proof-side predicates -/

/-- Spec wording for canonical virtual addresses: bits `[63:N]` equal the
sign extension of bit `[N-1]`. -/
def SpecCanonicalVA (va N : Nat) : Prop :=
  ∀ k, k < 64 → N ≤ k → va.testBit k = va.testBit (N - 1)

instance (va N : Nat) : Decidable (SpecCanonicalVA va N) := by
  unfold SpecCanonicalVA; infer_instance

/-- Spec wording for the PWCL/PWCH split: the `valen - 12` index bits are cut
into consecutive slices of at most 9 bits, lowest slice first.  Each step
removes at least one bit, so the fuel of 64 can never run out for a 64-bit
address width. -/
def specSplitWidthsAux : Nat → Nat → List Nat
  | _, 0 => []
  | n, fuel + 1 =>
    if n = 0 then []
    else (if n ≥ 9 then 9 else n) :: specSplitWidthsAux (n - (if n ≥ 9 then 9 else n)) fuel

def specSplitWidths (n : Nat) : List Nat := specSplitWidthsAux n 64

/-- Start bits of the slices: slice `i` starts where slice `i - 1` ends,
slice 0 at bit 12. -/
def specSliceBases (base : Nat) : List Nat → List Nat
  | [] => []
  | w :: ws => base :: specSliceBases (base + w) ws

/-- Spec wording of the PWCL packing: PTbase[4:0], PTwidth[9:5],
Dir1_base[14:10], Dir1_width[19:15], Dir2_base[24:20], Dir2_width[29:25],
PTEWidth[31:30] = 0. -/
def specPWCL (valen : Nat) : Nat :=
  let ws := specSplitWidths (valen - 12)
  let bs := specSliceBases 12 ws
  (bs.getD 0 0) ||| (ws.getD 0 0 <<< 5) |||
  (bs.getD 1 0 <<< 10) ||| (ws.getD 1 0 <<< 15) |||
  (bs.getD 2 0 <<< 20) ||| (ws.getD 2 0 <<< 25)

/-- Spec wording of the PWCH packing: Dir3_base[5:0], Dir3_width[11:6],
Dir4_base[17:12], Dir4_width[23:18], upper bits zero. -/
def specPWCH (valen : Nat) : Nat :=
  let ws := specSplitWidths (valen - 12)
  let bs := specSliceBases 12 ws
  (bs.getD 3 0) ||| (ws.getD 3 0 <<< 6) |||
  (bs.getD 4 0 <<< 12) ||| (ws.getD 4 0 <<< 18)

/-- A region whose fields fit the C++ `uint64_t` type. -/
def RegionU64 (r : BootMemoryRegion) : Prop :=
  r.physical_base < 2 ^ 64 ∧ r.size_bytes < 2 ^ 64

instance (r : BootMemoryRegion) : Decidable (RegionU64 r) := by
  unfold RegionU64; infer_instance

/-- The per-region invariant of the spec: positive size and a non-wrapping
end. -/
def RegionWF (r : BootMemoryRegion) : Prop :=
  0 < r.size_bytes ∧ r.physical_base + r.size_bytes < 2 ^ 64

instance (r : BootMemoryRegion) : Decidable (RegionWF r) := by
  unfold RegionWF; infer_instance

/-- The boot-map invariant of the spec: every region present satisfies
`RegionWF`. -/
def MapWF (m : BootMemoryMap) : Prop :=
  ∀ r ∈ m.regions, RegionWF r

instance (m : BootMemoryMap) : Decidable (MapWF m) := by
  unfold MapWF; infer_instance

/-- Fold a sequence of insertions (failed insertions leave the map unchanged,
as in the C++). -/
def addAll (m : BootMemoryMap) (rs : List BootMemoryRegion) : BootMemoryMap :=
  rs.foldl (fun m r => (m.AddRegion r).2) m

/-- PMM operation requests for the allocation/free counting property. -/
inductive PmmOp where
  | alloc
  | free (physical_address : Nat)

/-- Run a list of operations; returns the final state, the number of
successful allocations and the number of successful frees. -/
def runPmmOps (s : PmmState) : List PmmOp → PmmState × Nat × Nat
  | [] => (s, 0, 0)
  | PmmOp.alloc :: ops =>
    let (result, s') := AllocatePage s
    let (s'', n, m) := runPmmOps s' ops
    (s'', n + (if result.isSome then 1 else 0), m)
  | PmmOp.free addr :: ops =>
    let (result, s') := FreePage s addr
    let (s'', n, m) := runPmmOps s' ops
    (s'', n, m + (if result then 1 else 0))

/-- Iterate `AllocatePage`, discarding the results. -/
def allocIter (s : PmmState) : Nat → PmmState
  | 0 => s
  | n + 1 => allocIter (AllocatePage s).2 n

/-- Iterate `AllocatePage`, collecting the returned page bases (stops adding
once allocation fails). -/
def allocCollect (s : PmmState) : Nat → List Nat
  | 0 => []
  | n + 1 =>
    match AllocatePage s with
    | (none, _) => []
    | (some a, s') => a :: allocCollect s' n

/-- Proof-side: the page-table pages reachable from `t` in `l` descent steps
all belong to `S` (a present entry may also carry a null base, on which every
walk fails).  Mirrors the closure the map/translate walks rely on. -/
def subTree (m : Mem) (mask : Nat) : Nat → Nat → List Nat → Bool
  | t, 0, S => S.contains t
  | t, l + 1, S =>
    S.contains t &&
      (List.range kEntriesPerTable).all fun i =>
        let e := readEntry m t i
        !EntryIsPresent e ||
          (let nt := EntryPhysicalPageBase e mask
           nt == 0 || subTree m mask nt l S)

/-- Proof-side: every page the PMM can still hand out is page-aligned, fits
under the physical mask, is non-null and does not overlap any current
page-table page. -/
def freshOK (s : PmmState) (mask : Nat) (S : List Nat) : Bool :=
  (List.range s.page_count).all fun i =>
    s.is_page_used i ||
      (!(S.contains (s.page_index_to_physical i)) &&
       (s.page_index_to_physical i != 0) &&
       (s.page_index_to_physical i &&& mask == s.page_index_to_physical i))

/-- Well-formedness of a paging state `(pmm, m, root)` with table-page set
`S`: the table pages are non-null and mask-clean, the table graph from the
root is closed under `S`, allocatable pages are fresh, and the PMM bitmap
covers its page range. -/
def MapInv (pmm : PmmState) (m : Mem) (mask root levels : Nat) (S : List Nat) : Prop :=
  (∀ t ∈ S, t ≠ 0 ∧ t &&& mask = t) ∧
  subTree m mask root levels S = true ∧
  freshOK pmm mask S = true ∧
  pmm.page_count ≤ 8 * pmm.bitmap.length

instance (pmm : PmmState) (m : Mem) (mask root levels : Nat) (S : List Nat) :
    Decidable (MapInv pmm m mask root levels S) := by
  unfold MapInv; exact instDecidableAnd

end Rocinante

namespace Rocinante

/-! ## Concrete states used by counterexamples and witnesses -/

/-- A one-level page table (valen 13) with a single leaf entry for virtual
page 0 mapping physical page `0x1000` (`P|V` plus the base). -/
def exLeafMem : Mem := fun a => if a = 0x1000 then 0x1081 else 0

/-- The boot map of the PMM reservation scenario: UsableRAM
`[0x00100000, 0x00110000)`, Reserved `[0x00108000, 0x0010A000)`. -/
def scenarioBootMap : BootMemoryMap :=
  let m := BootMemoryMap.Clear
  let m := (m.AddRegion ⟨0x00100000, 16 * 4096, RegionType.UsableRAM⟩).2
  (m.AddRegion ⟨0x00108000, 2 * 4096, RegionType.Reserved⟩).2

/-- PMM initialization of the reservation scenario (kernel
`[0x00100000, 0x00104000)`, DTB `[0x0010C000, 0x0010D000)`). -/
def scenarioInit : Option PmmState :=
  InitializeFromBootMemoryMap scenarioBootMap 0x00100000 0x00104000 0x0010C000 0x1000

/-- The PMM state the scenario initialization produces. -/
def scenarioS0 : PmmState := scenarioInit.getD PmmState.reset_state

/-- The page bases the scenario's allocation loop returns, in order. -/
def scenarioPages : List Nat :=
  [0x105000, 0x106000, 0x107000, 0x10A000, 0x10B000, 0x10D000, 0x10E000, 0x10F000]

/-- A DTB whose header is valid and whose memreserve table holds one nonzero
pair but no terminating zero pair: `ParseMemReserveTable` adds one Reserved
region and then fails its bounds check. -/
def truncatedMemreserveBlobBytes : List Nat :=
  [0xd0, 0x0d, 0xfe, 0xed,  0, 0, 0, 56,  0, 0, 0, 40,  0, 0, 0, 40,  0, 0, 0, 40,
   0, 0, 0, 17,  0, 0, 0, 16,  0, 0, 0, 0,  0, 0, 0, 0,  0, 0, 0, 0,
   0, 0, 0, 0, 0, 0, 0x10, 0,
   0, 0, 0, 0, 0, 0, 0x10, 0]

def truncatedMemreserveBlob : Blob := fun i => truncatedMemreserveBlobBytes.getD i 0

/-- The all-zero blob: its magic is wrong, so the header probe rejects it. -/
def zeroBlob : Blob := fun _ => 0

/-- Three insertions that leave two exactly-adjacent same-typed regions: the
third region merges into the first, producing `[0, 0x2000)` right next to
`[0x2000, 0x3000)`. -/
def adjacencyTriple : List BootMemoryRegion :=
  [⟨0, 0x1000, RegionType.UsableRAM⟩, ⟨0x2000, 0x1000, RegionType.UsableRAM⟩,
   ⟨0x1000, 0x1000, RegionType.UsableRAM⟩]

/-- The layout the walker derives for `valen = palen = 48`. -/
def layout48 : Layout :=
  ⟨48, 48, 4, 281474976710655, 281474976710655, 281474976706560⟩

/-- A small initialized PMM: two tracked pages at `0x1000` and `0x2000`,
page 0 used and page 1 free, bitmap byte stored at `0x4000`. -/
def exPmm : PmmState :=
  { bitmap_physical_base := 0x4000, bitmap_size_bytes := 16
    tracked_physical_base := 0x1000, tracked_physical_limit := 0x3000
    page_count := 2, free_page_count := 1, next_search_index := 1
    initialized := true, bitmap := [253] }

end Rocinante

namespace Rocinante

/-! ## General lemmas -/

theorem one_shiftLeft_eq (n : Nat) : 1 <<< n = 2 ^ n := by
  rw [Nat.shiftLeft_eq, one_mul]

theorem and_two_pow_ne_zero_iff (x k : Nat) : x &&& 2 ^ k ≠ 0 ↔ x.testBit k := by
  rw [Nat.and_two_pow]
  cases h : x.testBit k <;> simp [h, Nat.pos_iff_ne_zero.symm, Nat.pos_pow_of_pos]

theorem kPageBaseMask_testBit (k : Nat) :
    kPageBaseMask.testBit k = (decide (12 ≤ k) && decide (k < 64)) := by
  have h : kPageBaseMask = (2 ^ 64 - 1) ^^^ (2 ^ 12 - 1) := by
    unfold kPageBaseMask kPageOffsetMask kPageShiftBits
    norm_num [Nat.shiftLeft_eq]
  rw [h, Nat.testBit_xor, Nat.testBit_two_pow_sub_one, Nat.testBit_two_pow_sub_one]
  by_cases h1 : k < 12 <;> by_cases h2 : k < 64 <;>
    simp [h1, h2] <;> omega

theorem maskFromBits_testBit (b k : Nat) (hb : b ≤ 64) :
    (MaskFromBits b).testBit k = decide (k < b) := by
  unfold MaskFromBits
  rcases Nat.eq_or_lt_of_le hb with h64 | hlt
  · subst h64
    rw [if_pos le_rfl, Nat.testBit_two_pow_sub_one]
  · rw [if_neg (by omega)]
    by_cases h0 : b = 0
    · subst h0; simp [Nat.zero_testBit]
    · rw [if_neg h0, one_shiftLeft_eq, Nat.testBit_two_pow_sub_one]

theorem isPageAligned_iff (a : Nat) : IsPageAligned a = true ↔ a % 4096 = 0 := by
  unfold IsPageAligned kPageOffsetMask kPageShiftBits
  rw [decide_eq_true_iff]
  rw [show ((1 : Nat) <<< 12 - 1) = 2 ^ 12 - 1 by norm_num [Nat.shiftLeft_eq]]
  rw [Nat.and_pow_two_sub_one_eq_mod]

/-! ## C10: operations before initialization -/

/-- C10: before `InitializeFromBootMemoryMap` has succeeded
(`initialized = false`), `AllocatePage` returns no page, `FreePage` and
`ReserveRange` return `false`, and each leaves the PMM state unchanged. -/
theorem pmm_uninitialized_ops_fail (s : PmmState) (addr base size : Nat)
    (h : s.initialized = false) :
    AllocatePage s = (none, s) ∧ FreePage s addr = (false, s) ∧
    ReserveRange s base size = (false, s) := by
  refine ⟨?_, ?_, ?_⟩ <;> simp [AllocatePage, FreePage, ReserveRange, h]

/-- Witness: the reset state is uninitialized and all three operations fail
on it without changing it. -/
theorem pmm_uninitialized_ops_fail_witness :
    AllocatePage PmmState.reset_state = (none, PmmState.reset_state) ∧
    FreePage PmmState.reset_state 4096 = (false, PmmState.reset_state) ∧
    ReserveRange PmmState.reset_state 0 4096 = (false, PmmState.reset_state) :=
  pmm_uninitialized_ops_fail PmmState.reset_state 4096 0 4096 rfl

end Rocinante

namespace Rocinante

/-! ## C5: PALEN acceptance -/

theorem levelCount_ne_zero (v : Nat) (h1 : 1 ≤ v) (h2 : v ≤ 64) :
    LevelCountFromVirtualAddressBits v ≠ 0 :=
  (by decide : ∀ v, v < 65 → 1 ≤ v → LevelCountFromVirtualAddressBits v ≠ 0)
    v (by omega) h1

theorem physMask_eq_zero_iff (p : Nat) :
    PhysicalPageBaseMaskFromBits p = 0 ↔ (p < 13 ∨ 61 < p) := by
  unfold PhysicalPageBaseMaskFromBits
  have hk : kMaxEncodablePhysicalAddressBits = 61 := by decide
  have hs : kPageShiftBits = 12 := rfl
  rw [hk, hs]
  by_cases h61 : p > 61
  · rw [if_pos h61]
    exact ⟨fun _ => Or.inr h61, fun _ => rfl⟩
  · rw [if_neg h61]
    by_cases h12 : p < 12
    · rw [if_pos h12]
      exact ⟨fun _ => Or.inl (by omega), fun _ => rfl⟩
    · rw [if_neg h12]
      by_cases hp12 : p = 12
      · subst hp12
        constructor
        · intro _; left; omega
        · intro _; decide
      · have h13 : 13 ≤ p := by omega
        constructor
        · intro h0
          exfalso
          have hbit : (MaskFromBits p &&& kPageBaseMask).testBit 12 = true := by
            rw [Nat.testBit_and, maskFromBits_testBit p 12 (by omega),
              kPageBaseMask_testBit]
            simp
            omega
          rw [h0] at hbit
          simp [Nat.zero_testBit] at hbit
        · intro hor; omega

theorem buildLayout_isSome_iff (valen palen : Nat) (h1 : 1 ≤ valen) (h2 : valen ≤ 64) :
    (BuildLayout ⟨valen, palen⟩).isSome = true ↔ (13 ≤ palen ∧ palen ≤ 61) := by
  unfold BuildLayout
  rw [if_neg (by simpa using Nat.pos_iff_ne_zero.mp h1)]
  by_cases hp0 : palen = 0
  · subst hp0; simp
  · rw [if_neg (by simpa using hp0)]
    rw [if_neg (by simpa using Nat.not_lt.mpr h2)]
    by_cases hp64 : palen > 64
    · rw [if_pos (by simpa using hp64)]
      simp; omega
    · rw [if_neg (by simpa using hp64)]
      rw [if_neg (levelCount_ne_zero valen h1 h2)]
      by_cases hzm : PhysicalPageBaseMaskFromBits palen = 0
      · rw [if_pos hzm]
        have := (physMask_eq_zero_iff palen).mp hzm
        simp; omega
      · rw [if_neg hzm]
        have hnot : ¬ (palen < 13 ∨ 61 < palen) :=
          fun h => hzm ((physMask_eq_zero_iff palen).mpr h)
        push_neg at hnot
        simp only [Option.isSome_some]
        exact ⟨fun _ => hnot, fun _ => trivial⟩

theorem ops_reject_of_buildLayout_none (pmm : PmmState) (m : Mem) (root : PageTableRoot)
    (va pa size : Nat) (perms : PagePermissions) (ab : AddressSpaceBits)
    (h : BuildLayout ab = none) :
    MapPage4KiB pmm m root va pa perms ab = (false, pmm, m) ∧
    UnmapPage4KiB m root va ab = (false, m) ∧
    Translate m root va ab = none ∧
    MapRange4KiB pmm m root va pa size perms ab = (false, pmm, m) := by
  refine ⟨?_, ?_, ?_, ?_⟩ <;>
    simp [MapPage4KiB, UnmapPage4KiB, Translate, MapRange4KiB, h]

/-- C5 (amended): the paging operations accept the physical address width
exactly when `13 ≤ palen ≤ 61` (the C++ rejects `palen = 12` because the
masked page base `MaskFromBits 12 &&& kPageBaseMask` collapses to zero); for
`palen` outside `[13, 61]` the layout is rejected and every operation fails
regardless of its other arguments. -/
theorem paging_palen_acceptance (valen palen : Nat) (pmm : PmmState) (m : Mem)
    (root : PageTableRoot) (va pa size : Nat) (perms : PagePermissions)
    (h1 : 1 ≤ valen) (h2 : valen ≤ 64) :
    ((BuildLayout ⟨valen, palen⟩).isSome = true ↔ (13 ≤ palen ∧ palen ≤ 61)) ∧
    (¬ (13 ≤ palen ∧ palen ≤ 61) →
      MapPage4KiB pmm m root va pa perms ⟨valen, palen⟩ = (false, pmm, m) ∧
      UnmapPage4KiB m root va ⟨valen, palen⟩ = (false, m) ∧
      Translate m root va ⟨valen, palen⟩ = none ∧
      MapRange4KiB pmm m root va pa size perms ⟨valen, palen⟩ = (false, pmm, m)) := by
  refine ⟨buildLayout_isSome_iff valen palen h1 h2, fun hout => ?_⟩
  have hnone : BuildLayout ⟨valen, palen⟩ = none := by
    have := buildLayout_isSome_iff valen palen h1 h2
    cases hB : BuildLayout ⟨valen, palen⟩ with
    | none => rfl
    | some l => rw [hB] at this; simp at this; exact absurd this hout
  exact ops_reject_of_buildLayout_none pmm m root va pa size perms _ hnone

/-- Counterexample to C5 as stated: the claim admits `palen = 12`, but the
code rejects it; with identical other arguments `palen = 13` translates
successfully while `palen = 12` makes every operation fail. -/
theorem paging_palen_boundary_counterexample :
    ((12 : Nat) ≥ 12 ∧ (12 : Nat) ≤ 61) ∧
    Translate exLeafMem ⟨0x1000⟩ 0 ⟨13, 13⟩ = some 0x1000 ∧
    Translate exLeafMem ⟨0x1000⟩ 0 ⟨13, 12⟩ = none ∧
    (MapPage4KiB PmmState.reset_state exLeafMem ⟨0x1000⟩ 0 0x1000
      ⟨AccessPermissions.ReadWrite, ExecutePermissions.NoExecute, CacheMode.CoherentCached, true⟩
      ⟨13, 12⟩).1 = false ∧
    (UnmapPage4KiB exLeafMem ⟨0x1000⟩ 0 ⟨13, 12⟩).1 = false := by
  refine ⟨by decide, by decide, by decide, by decide, by decide⟩

/-- Witness: at `valen = 48`, `palen = 62` is rejected by every operation and
the acceptance equivalence holds. -/
theorem paging_palen_acceptance_witness :
    ((BuildLayout ⟨48, 62⟩).isSome = true ↔ (13 ≤ 62 ∧ 62 ≤ 61)) ∧
    (¬ ((13 : Nat) ≤ 62 ∧ (62 : Nat) ≤ 61) →
      MapPage4KiB PmmState.reset_state exLeafMem ⟨0x1000⟩ 0 0x1000
        ⟨AccessPermissions.ReadWrite, ExecutePermissions.NoExecute, CacheMode.CoherentCached, true⟩
        ⟨48, 62⟩ = (false, PmmState.reset_state, exLeafMem) ∧
      UnmapPage4KiB exLeafMem ⟨0x1000⟩ 0 ⟨48, 62⟩ = (false, exLeafMem) ∧
      Translate exLeafMem ⟨0x1000⟩ 0 ⟨48, 62⟩ = none ∧
      MapRange4KiB PmmState.reset_state exLeafMem ⟨0x1000⟩ 0 0x1000 4096
        ⟨AccessPermissions.ReadWrite, ExecutePermissions.NoExecute, CacheMode.CoherentCached, true⟩
        ⟨48, 62⟩ = (false, PmmState.reset_state, exLeafMem)) :=
  paging_palen_acceptance 48 62 PmmState.reset_state exLeafMem ⟨0x1000⟩ 0 0x1000 4096
    ⟨AccessPermissions.ReadWrite, ExecutePermissions.NoExecute, CacheMode.CoherentCached, true⟩
    (by decide) (by decide)

end Rocinante

namespace Rocinante

/-! ## C9: page-walker CSR packing -/

set_option maxRecDepth 40000 in
/-- C9: for `12 < valen ≤ 57`, `Make4KiBPageWalkerConfig` splits the
`valen - 12` index bits into at most 5 slices of at most 9 bits each (lowest
slice first, starting at bit 12, summing to `valen - 12`) and packs PWCL as
PTbase[4:0], PTwidth[9:5], Dir1_base[14:10], Dir1_width[19:15],
Dir2_base[24:20], Dir2_width[29:25] with PTEWidth[31:30] = 0, and PWCH as
Dir3_base[5:0], Dir3_width[11:6], Dir4_base[17:12], Dir4_width[23:18] with
the upper bits zero; for `valen > 57` (more than 5 levels) it returns no
configuration. -/
theorem make4kib_pwc_packing (valen palen : Nat) (h : valen < 256) :
    (12 < valen → valen ≤ 57 →
      (specSplitWidths (valen - 12)).length ≤ 5 ∧
      (specSplitWidths (valen - 12)).all (· ≤ 9) = true ∧
      (specSplitWidths (valen - 12)).sum = valen - 12 ∧
      Make4KiBPageWalkerConfig ⟨valen, palen⟩ = some ⟨specPWCL valen, specPWCH valen⟩ ∧
      specPWCL valen >>> 30 = 0 ∧ specPWCH valen >>> 24 = 0) ∧
    (57 < valen → Make4KiBPageWalkerConfig ⟨valen, palen⟩ = none) := by
  have hp : Make4KiBPageWalkerConfig ⟨valen, palen⟩ =
      Make4KiBPageWalkerConfig ⟨valen, 0⟩ := rfl
  rw [hp]
  have key1 := (by decide : ∀ v, v < 256 →
    (12 < v → v ≤ 57 →
      (specSplitWidths (v - 12)).length ≤ 5 ∧
      (specSplitWidths (v - 12)).all (· ≤ 9) = true ∧
      (specSplitWidths (v - 12)).sum = v - 12) ∧
    (57 < v → Make4KiBPageWalkerConfig ⟨v, 0⟩ = none)) valen h
  have key2 := (by decide : ∀ v, v < 256 →
    (12 < v → v ≤ 57 →
      Make4KiBPageWalkerConfig ⟨v, 0⟩ = some ⟨specPWCL v, specPWCH v⟩ ∧
      specPWCL v >>> 30 = 0 ∧ specPWCH v >>> 24 = 0)) valen h
  refine ⟨fun ha hb => ?_, key1.2⟩
  obtain ⟨k1, k2, k3⟩ := key1.1 ha hb
  obtain ⟨k4, k5, k6⟩ := key2 ha hb
  exact ⟨k1, k2, k3, k4, k5, k6⟩

/-- Witness: the packing equalities at `valen = 48` and the unsupported
report at `valen = 58`. -/
theorem make4kib_pwc_packing_witness :
    ((specSplitWidths (48 - 12)).length ≤ 5 ∧
      (specSplitWidths (48 - 12)).all (· ≤ 9) = true ∧
      (specSplitWidths (48 - 12)).sum = 48 - 12 ∧
      Make4KiBPageWalkerConfig ⟨48, 48⟩ = some ⟨specPWCL 48, specPWCH 48⟩ ∧
      specPWCL 48 >>> 30 = 0 ∧ specPWCH 48 >>> 24 = 0) ∧
    Make4KiBPageWalkerConfig ⟨58, 48⟩ = none :=
  ⟨(make4kib_pwc_packing 48 48 (by decide)).1 (by decide) (by decide),
   (make4kib_pwc_packing 58 48 (by decide)).2 (by decide)⟩

end Rocinante


namespace Rocinante

/-! ## C7: `AddRegion` invariants -/

theorem addOverflows_false_iff (a b : Nat) (ha : a < 2 ^ 64) (hb : b < 2 ^ 64) :
    AddOverflows a b = false ↔ a + b < 2 ^ 64 := by
  unfold AddOverflows
  rcases Nat.lt_or_ge (a + b) (2 ^ 64) with h | h
  · rw [Nat.mod_eq_of_lt h]
    simp
    omega
  · have hmod : (a + b) % 2 ^ 64 = a + b - 2 ^ 64 := by
      rw [Nat.mod_eq_sub_mod h, Nat.mod_eq_of_lt (by omega)]
    rw [hmod]
    simp
    omega

theorem mergeLoop_preserves_wf (region : BootMemoryRegion) (l : List BootMemoryRegion)
    (hl : ∀ r ∈ l, RegionWF r) (hr : RegionWF region) :
    ∀ l', addRegionMergeLoop region l = some l' → ∀ r ∈ l', RegionWF r := by
  induction l with
  | nil => intro l' h; simp [addRegionMergeLoop] at h
  | cons existing rest ih =>
    intro l' h
    have hex : RegionWF existing := hl existing (by simp)
    have hrest : ∀ r ∈ rest, RegionWF r := fun r hm => hl r (by simp [hm])
    have hkeep : ∀ l'', (addRegionMergeLoop region rest).map (existing :: ·) = some l'' →
        ∀ r ∈ l'', RegionWF r := by
      intro l'' hmap r hm
      cases hrec : addRegionMergeLoop region rest with
      | none => rw [hrec] at hmap; simp at hmap
      | some rest' =>
        rw [hrec] at hmap
        simp at hmap
        subst hmap
        rcases List.mem_cons.mp hm with hm | hm
        · subst hm; exact hex
        · exact ih hrest rest' hrec r hm
    unfold addRegionMergeLoop at h
    by_cases ht : existing.type ≠ region.type
    · rw [if_pos ht] at h; exact hkeep l' h
    · rw [if_neg ht] at h
      by_cases hov : AddOverflows existing.physical_base existing.size_bytes = true
      · rw [if_pos hov] at h; exact hkeep l' h
      · rw [if_neg hov] at h
        by_cases hadj1 : existing.physical_base + existing.size_bytes = region.physical_base
        · rw [if_pos hadj1] at h
          simp only [Option.some.injEq] at h
          subst h
          intro r hm
          rcases List.mem_cons.mp hm with hm | hm
          · subst hm
            obtain ⟨hex1, hex2⟩ := hex
            obtain ⟨hr1, hr2⟩ := hr
            constructor
            · simp; omega
            · simp; omega
          · exact hrest r hm
        · rw [if_neg hadj1] at h
          by_cases hadj2 : region.physical_base + region.size_bytes = existing.physical_base
          · rw [if_pos hadj2] at h
            simp only [Option.some.injEq] at h
            subst h
            intro r hm
            rcases List.mem_cons.mp hm with hm | hm
            · subst hm
              obtain ⟨hex1, hex2⟩ := hex
              obtain ⟨hr1, hr2⟩ := hr
              constructor
              · simp; omega
              · simp; omega
            · exact hrest r hm
          · rw [if_neg hadj2] at h; exact hkeep l' h

theorem addRegion_preserves_wf (m : BootMemoryMap) (region : BootMemoryRegion)
    (hm : MapWF m) (hreg : RegionU64 region) :
    MapWF (m.AddRegion region).2 := by
  unfold BootMemoryMap.AddRegion
  by_cases hz : region.size_bytes = 0
  · rw [if_pos hz]; exact hm
  · rw [if_neg hz]
    by_cases hov : AddOverflows region.physical_base region.size_bytes = true
    · rw [if_pos hov]; exact hm
    · rw [if_neg hov]
      have hwf : RegionWF region := by
        refine ⟨Nat.pos_of_ne_zero hz, ?_⟩
        exact (addOverflows_false_iff _ _ hreg.1 hreg.2).mp (Bool.not_eq_true _ ▸ (by simpa using hov))
      cases hrec : addRegionMergeLoop region m.regions with
      | some updated =>
        intro r hmem
        exact mergeLoop_preserves_wf region m.regions hm hwf updated hrec r hmem
      | none =>
        by_cases hcap : m.regions.length ≥ kMaxRegions
        · rw [if_pos hcap]; exact hm
        · rw [if_neg hcap]
          intro r hmem
          simp at hmem
          rcases hmem with hmem | hmem
          · exact hm r hmem
          · subst hmem; exact hwf

theorem addAll_preserves_wf (rs : List BootMemoryRegion) (m : BootMemoryMap)
    (hm : MapWF m) (hrs : ∀ r ∈ rs, RegionU64 r) : MapWF (addAll m rs) := by
  induction rs generalizing m with
  | nil => exact hm
  | cons r rest ih =>
    unfold addAll
    simp only [List.foldl_cons]
    exact ih (m.AddRegion r).2
      (addRegion_preserves_wf m r hm (hrs r (by simp)))
      (fun x hx => hrs x (by simp [hx]))

theorem mergeLoop_merges_first_adjacent (region : BootMemoryRegion)
    (l : List BootMemoryRegion)
    (he : ∃ e ∈ l, e.type = region.type ∧
      AddOverflows e.physical_base e.size_bytes = false ∧
      (e.physical_base + e.size_bytes = region.physical_base ∨
       region.physical_base + region.size_bytes = e.physical_base)) :
    ∃ l', addRegionMergeLoop region l = some l' ∧ l'.length = l.length := by
  induction l with
  | nil => obtain ⟨e, hm, _⟩ := he; simp at hm
  | cons existing rest ih =>
    obtain ⟨e, hmem, htype, hov, hadj⟩ := he
    unfold addRegionMergeLoop
    by_cases hmerge : existing.type = region.type ∧
        AddOverflows existing.physical_base existing.size_bytes = false ∧
        (existing.physical_base + existing.size_bytes = region.physical_base ∨
         region.physical_base + region.size_bytes = existing.physical_base)
    · obtain ⟨ht, hv, hj⟩ := hmerge
      rw [if_neg (by simp [ht]), hv]
      simp only [Bool.false_eq_true, if_false]
      rcases hj with hj | hj
      · rw [if_pos hj]
        exact ⟨_, rfl, by simp⟩
      · by_cases hj1 : existing.physical_base + existing.size_bytes = region.physical_base
        · rw [if_pos hj1]
          exact ⟨_, rfl, by simp⟩
        · rw [if_neg hj1, if_pos hj]
          exact ⟨_, rfl, by simp⟩
    · have hne : e ∈ rest := by
        rcases List.mem_cons.mp hmem with hh | hh
        · exfalso; exact hmerge (hh ▸ ⟨htype, hov, hadj⟩)
        · exact hh
      obtain ⟨rest', hrec, hlen⟩ := ih ⟨e, hne, htype, hov, hadj⟩
      by_cases htne : existing.type ≠ region.type
      · rw [if_pos htne, hrec]
        exact ⟨_, rfl, by simp [hlen]⟩
      · push_neg at htne
        rw [if_neg (by simp [htne])]
        by_cases hv : AddOverflows existing.physical_base existing.size_bytes = true
        · rw [if_pos hv, hrec]
          exact ⟨_, rfl, by simp [hlen]⟩
        · have hv' : AddOverflows existing.physical_base existing.size_bytes = false := by
            revert hv; cases AddOverflows existing.physical_base existing.size_bytes <;> simp
          have hnadj1 : ¬ existing.physical_base + existing.size_bytes = region.physical_base :=
            fun hj => hmerge ⟨htne, hv', Or.inl hj⟩
          have hnadj2 : ¬ region.physical_base + region.size_bytes = existing.physical_base :=
            fun hj => hmerge ⟨htne, hv', Or.inr hj⟩
          rw [if_neg hv, if_neg hnadj1, if_neg hnadj2, hrec]
          exact ⟨_, rfl, by simp [hlen]⟩

end Rocinante

namespace Rocinante

/-- C7 (amended): after any sequence of insertions starting from the empty
map, every region present has positive size and non-wrapping end; and an
inserted region that is exactly adjacent to an existing same-typed region is
merged into the first such region (the region count does not grow) rather
than appended.  The merge is not cascaded, so two same-typed exactly-adjacent
regions may both be present afterwards (see the counterexample). -/
theorem addRegion_invariants :
    (∀ rs : List BootMemoryRegion, (∀ r ∈ rs, RegionU64 r) →
      MapWF (addAll BootMemoryMap.Clear rs)) ∧
    (∀ (m : BootMemoryMap) (region : BootMemoryRegion),
      RegionWF region →
      (∃ e ∈ m.regions, e.type = region.type ∧
        AddOverflows e.physical_base e.size_bytes = false ∧
        (e.physical_base + e.size_bytes = region.physical_base ∨
         region.physical_base + region.size_bytes = e.physical_base)) →
      (m.AddRegion region).1 = true ∧
      (m.AddRegion region).2.regions.length = m.regions.length) := by
  constructor
  · intro rs hrs
    exact addAll_preserves_wf rs BootMemoryMap.Clear (by intro r hr; simp [BootMemoryMap.Clear] at hr) hrs
  · intro m region hwf he
    obtain ⟨l', hsome, hlen⟩ := mergeLoop_merges_first_adjacent region m.regions he
    have hz : ¬ region.size_bytes = 0 := by have := hwf.1; omega
    have hov : ¬ AddOverflows region.physical_base region.size_bytes = true := by
      have hlt : region.physical_base + region.size_bytes < 2 ^ 64 := hwf.2
      unfold AddOverflows
      rw [Nat.mod_eq_of_lt hlt]
      simp
    unfold BootMemoryMap.AddRegion
    rw [if_neg hz, if_neg hov, hsome]
    exact ⟨rfl, hlen⟩

/-- Counterexample to C7 as stated: three successful insertions (the third
merging into the first region, without cascade) leave two same-typed,
exactly-adjacent regions both present in the map. -/
theorem addRegion_adjacent_counterexample :
    (BootMemoryMap.Clear.AddRegion ⟨0, 0x1000, RegionType.UsableRAM⟩).1 = true ∧
    (((BootMemoryMap.Clear.AddRegion ⟨0, 0x1000, RegionType.UsableRAM⟩).2.AddRegion
      ⟨0x2000, 0x1000, RegionType.UsableRAM⟩).1 = true) ∧
    ((((BootMemoryMap.Clear.AddRegion ⟨0, 0x1000, RegionType.UsableRAM⟩).2.AddRegion
      ⟨0x2000, 0x1000, RegionType.UsableRAM⟩).2.AddRegion
      ⟨0x1000, 0x1000, RegionType.UsableRAM⟩).1 = true) ∧
    (addAll BootMemoryMap.Clear adjacencyTriple).regions =
      [⟨0, 0x2000, RegionType.UsableRAM⟩, ⟨0x2000, 0x1000, RegionType.UsableRAM⟩] ∧
    ((addAll BootMemoryMap.Clear adjacencyTriple).regions.getD 0 ⟨0, 0, RegionType.Reserved⟩).type =
      ((addAll BootMemoryMap.Clear adjacencyTriple).regions.getD 1 ⟨0, 0, RegionType.Reserved⟩).type ∧
    ((addAll BootMemoryMap.Clear adjacencyTriple).regions.getD 0 ⟨0, 0, RegionType.Reserved⟩).physical_base +
      ((addAll BootMemoryMap.Clear adjacencyTriple).regions.getD 0 ⟨0, 0, RegionType.Reserved⟩).size_bytes =
      ((addAll BootMemoryMap.Clear adjacencyTriple).regions.getD 1 ⟨0, 0, RegionType.Reserved⟩).physical_base := by
  decide

/-- Witness: the invariant after one concrete insertion sequence, and a
merge (length unchanged) of an adjacent region into a singleton map. -/
theorem addRegion_invariants_witness :
    MapWF (addAll BootMemoryMap.Clear adjacencyTriple) ∧
    ((⟨[⟨0, 0x1000, RegionType.UsableRAM⟩]⟩ : BootMemoryMap).AddRegion
      ⟨0x1000, 0x1000, RegionType.UsableRAM⟩).1 = true ∧
    ((⟨[⟨0, 0x1000, RegionType.UsableRAM⟩]⟩ : BootMemoryMap).AddRegion
      ⟨0x1000, 0x1000, RegionType.UsableRAM⟩).2.regions.length = 1 :=
  ⟨addRegion_invariants.1 adjacencyTriple (by decide),
   (addRegion_invariants.2 ⟨[⟨0, 0x1000, RegionType.UsableRAM⟩]⟩
      ⟨0x1000, 0x1000, RegionType.UsableRAM⟩ (by decide) (by decide)).1,
   (addRegion_invariants.2 ⟨[⟨0, 0x1000, RegionType.UsableRAM⟩]⟩
      ⟨0x1000, 0x1000, RegionType.UsableRAM⟩ (by decide) (by decide)).2⟩

end Rocinante

namespace Rocinante

/-! ## C2: the concrete PMM reservation scenario -/

/-- Counterexample to C2 as stated: for the scenario's boot map the
initialization succeeds with `page_count = 16` but `free_page_count = 8`,
not 9: the 16-byte PMM bitmap is placed at `0x104000` (the first 16-aligned
spot past the kernel image) and its page is reserved as bitmap storage. -/
theorem pmm_scenario_counterexample :
    (scenarioBootMap.regions.length = 2) ∧
    scenarioInit.map (fun s => (s.page_count, s.free_page_count)) = some (16, 8) ∧
    (8 : Nat) ≠ 9 ∧
    scenarioInit.map (fun s => (s.bitmap_physical_base, s.bitmap_size_bytes)) =
      some (0x104000, 16) := by
  decide

/-- C2 (amended): for the scenario's boot map, initialization succeeds with
`page_count = 16` and `free_page_count = 8` (the claimed 9 does not count the
bitmap storage page at `0x104000`); exhausting `AllocatePage` yields exactly
the 8 distinct page bases `scenarioPages`, none of which lies in the
Reserved range, the kernel image, the DTB blob, or the bitmap storage. -/
theorem pmm_scenario_allocations :
    scenarioInit.map (fun s => (s.page_count, s.free_page_count)) = some (16, 8) ∧
    scenarioInit.map (fun s => allocCollect s 16) = some scenarioPages ∧
    scenarioPages.Nodup ∧
    scenarioPages.length = 8 ∧
    (scenarioPages.all fun a =>
      decide (a % 4096 = 0) &&
      decide (0x100000 ≤ a) && decide (a < 0x110000) &&
      !(decide (0x108000 ≤ a) && decide (a < 0x10A000)) &&
      !(decide (0x100000 ≤ a) && decide (a < 0x104000)) &&
      !(decide (0x10C000 ≤ a) && decide (a < 0x10D000)) &&
      !(decide (0x104000 ≤ a) && decide (a < 0x104010))) = true ∧
    scenarioInit.map (fun s => (AllocatePage (allocIter s 8)).1) = some none := by
  decide

end Rocinante

namespace Rocinante

/-! ## C8: parse failure and partial maps -/

/-- Counterexample to C8 as stated: a blob with a valid header whose
memreserve table holds one nonzero pair but no terminator makes
`TryParseFromDeviceTree` fail, yet the region added before the failure stays
in the map. -/
theorem parse_failure_partial_map_counterexample :
    (TryParseFromDeviceTree BootMemoryMap.Clear truncatedMemreserveBlob).1 = false ∧
    (TryParseFromDeviceTree BootMemoryMap.Clear truncatedMemreserveBlob).2.regions =
      [⟨0x1000, 0x1000, RegionType.Reserved⟩] ∧
    (TryParseFromDeviceTree BootMemoryMap.Clear truncatedMemreserveBlob).2.region_count ≠ 0 := by
  refine ⟨by decide, by decide, by decide⟩

/-- C8 (amended): a failing `TryParseFromDeviceTree` returns `false`; the map
is cleared on entry, so the result never depends on the previous contents,
and a failure during header validation (bad magic or out-of-range offsets)
leaves the map with no regions.  A failure later in parsing may leave the
regions already added by the failed call (see the counterexample). -/
theorem parse_failure_no_stale_map (blob : Blob) (m0 m1 : BootMemoryMap) :
    TryParseFromDeviceTree m0 blob = TryParseFromDeviceTree m1 blob ∧
    (TryMakeFdtView blob = none →
      TryParseFromDeviceTree m0 blob = (false, BootMemoryMap.Clear)) := by
  constructor
  · rfl
  · intro h
    unfold TryParseFromDeviceTree
    rw [h]

/-- Witness: the all-zero blob fails header validation and the parse leaves
an empty map, independently of the inherited map contents. -/
theorem parse_failure_no_stale_map_witness :
    TryParseFromDeviceTree BootMemoryMap.Clear zeroBlob =
      TryParseFromDeviceTree ⟨[⟨0, 0x1000, RegionType.Reserved⟩]⟩ zeroBlob ∧
    TryParseFromDeviceTree BootMemoryMap.Clear zeroBlob = (false, BootMemoryMap.Clear) :=
  ⟨(parse_failure_no_stale_map zeroBlob BootMemoryMap.Clear
      ⟨[⟨0, 0x1000, RegionType.Reserved⟩]⟩).1,
   (parse_failure_no_stale_map zeroBlob BootMemoryMap.Clear
      ⟨[⟨0, 0x1000, RegionType.Reserved⟩]⟩).2 (by decide)⟩

end Rocinante


namespace Rocinante

/-! ## C4: canonical virtual address validation -/

theorem eq_zero_iff_testBit (x : Nat) : x = 0 ↔ ∀ i, x.testBit i = false :=
  ⟨fun h i => h ▸ Nat.zero_testBit i,
   fun h => Nat.eq_of_testBit_eq (fun i => by rw [h i, Nat.zero_testBit])⟩

theorem buildLayout_fields (ab : AddressSpaceBits) (L : Layout)
    (h : BuildLayout ab = some L) :
    L.virtual_address_bits = ab.virtual_address_bits ∧
    L.physical_address_bits = ab.physical_address_bits ∧
    L.level_count = LevelCountFromVirtualAddressBits ab.virtual_address_bits ∧
    L.virtual_address_low_mask = MaskFromBits ab.virtual_address_bits ∧
    L.physical_address_mask = MaskFromBits ab.physical_address_bits ∧
    L.physical_page_base_mask = PhysicalPageBaseMaskFromBits ab.physical_address_bits := by
  unfold BuildLayout at h
  split at h
  · exact Option.noConfusion h
  split at h
  · exact Option.noConfusion h
  split at h
  · exact Option.noConfusion h
  split at h
  · exact Option.noConfusion h
  split at h
  · exact Option.noConfusion h
  split at h
  · exact Option.noConfusion h
  injection h with h
  subst h
  exact ⟨rfl, rfl, rfl, rfl, rfl, rfl⟩

theorem upperMask_testBit (N k : Nat) (h1 : 0 < N) (h2 : N < 64) :
    ((2 ^ 64 - 1) ^^^ MaskFromBits N).testBit k =
      (decide (N ≤ k) && decide (k < 64)) := by
  rw [Nat.testBit_xor, Nat.testBit_two_pow_sub_one, maskFromBits_testBit N k (by omega)]
  by_cases hk1 : k < N <;> by_cases hk2 : k < 64 <;> simp [hk1, hk2] <;> omega

theorem validateVA_canonical_iff (va N : Nat) (layout : Layout)
    (hvb : layout.virtual_address_bits = N)
    (hlm : layout.virtual_address_low_mask = MaskFromBits N)
    (h1 : 0 < N) (h2 : N < 64) :
    (ValidateVirtualAddress va layout = true ↔ SpecCanonicalVA va N) := by
  unfold ValidateVirtualAddress
  rw [hvb, hlm]
  rw [if_neg (by omega), if_neg (by omega)]
  have hsign : (va &&& 1 <<< (N - 1) ≠ 0) = (va.testBit (N - 1) = true) := by
    rw [one_shiftLeft_eq]
    exact propext (by simpa using and_two_pow_ne_zero_iff va (N - 1))
  by_cases hbit : va.testBit (N - 1) = true
  · rw [if_pos (by rw [hsign]; exact hbit)]
    rw [decide_eq_true_iff]
    constructor
    · intro heq k hk64 hkN
      have hc := congrArg (fun x => x.testBit k) heq
      simp only [Nat.testBit_and, upperMask_testBit N k h1 h2] at hc
      rw [hbit]
      simp [hk64, hkN] at hc
      exact hc
    · intro hs
      apply Nat.eq_of_testBit_eq
      intro j
      rw [Nat.testBit_and, upperMask_testBit N j h1 h2]
      by_cases hjN : N ≤ j
      · by_cases hj64 : j < 64
        · have hsj := hs j hj64 hjN
          rw [hsj, hbit]
          simp [hjN, hj64]
        · simp [hj64]
      · simp [hjN]
  · rw [if_neg (by rw [hsign]; exact hbit)]
    rw [decide_eq_true_iff]
    have hbitf : va.testBit (N - 1) = false := by
      revert hbit; cases va.testBit (N - 1) <;> simp
    constructor
    · intro heq k hk64 hkN
      have hc := (eq_zero_iff_testBit _).mp heq k
      simp only [Nat.testBit_and, upperMask_testBit N k h1 h2] at hc
      simp [hk64, hkN] at hc
      rw [hc, hbitf]
    · intro hs
      apply (eq_zero_iff_testBit _).mpr
      intro j
      rw [Nat.testBit_and, upperMask_testBit N j h1 h2]
      by_cases hjN : N ≤ j
      · by_cases hj64 : j < 64
        · have hsj := hs j hj64 hjN
          rw [hsj, hbitf]
          simp
        · simp [hj64]
      · simp [hjN]

/-- C4: for `0 < valen = N < 64` the canonicity check of the walker accepts a
virtual address exactly when bits `[63:N]` equal the sign extension of bit
`[N-1]` (both halves are accepted); `valen = 64` accepts every address; and a
non-canonical address makes `MapPage4KiB` return `false` with the state
untouched, whatever the other arguments. -/
theorem canonical_va_acceptance (N palen va : Nat) (layout : Layout)
    (hL : BuildLayout ⟨N, palen⟩ = some layout) :
    (0 < N → N < 64 → (ValidateVirtualAddress va layout = true ↔ SpecCanonicalVA va N)) ∧
    (N = 64 → ValidateVirtualAddress va layout = true) ∧
    (ValidateVirtualAddress va layout = false →
      ∀ (pmm : PmmState) (m : Mem) (root : PageTableRoot) (pa : Nat) (perms : PagePermissions),
        MapPage4KiB pmm m root va pa perms ⟨N, palen⟩ = (false, pmm, m)) := by
  obtain ⟨hvb, -, -, hlm, -, -⟩ := buildLayout_fields _ _ hL
  have hvb' : layout.virtual_address_bits = N := hvb
  have hlm' : layout.virtual_address_low_mask = MaskFromBits N := hlm
  refine ⟨fun h1 h2 => validateVA_canonical_iff va N layout hvb' hlm' h1 h2, ?_, ?_⟩
  · intro h64
    unfold ValidateVirtualAddress
    rw [hvb', h64]
    rw [if_neg (by omega), if_pos (by omega)]
  · intro hv pmm m root pa perms
    unfold MapPage4KiB
    rw [hL]
    dsimp only
    by_cases hroot : root.root_physical_address = 0
    · rw [if_pos hroot]
    · rw [if_neg hroot, if_pos (by simp [hv])]

/-- Witness: at `valen = 48` the equivalence holds for the canonical address
`0x1000`, and the non-canonical address `1 <<< 48` is rejected by
`MapPage4KiB`. -/
theorem canonical_va_acceptance_witness :
    ((0 < 48 → 48 < 64 →
      (ValidateVirtualAddress 0x1000 layout48 = true ↔ SpecCanonicalVA 0x1000 48)) ∧
     (48 = 64 → ValidateVirtualAddress 0x1000 layout48 = true) ∧
     (ValidateVirtualAddress 0x1000 layout48 = false →
      ∀ (pmm : PmmState) (m : Mem) (root : PageTableRoot) (pa : Nat) (perms : PagePermissions),
        MapPage4KiB pmm m root 0x1000 pa perms ⟨48, 48⟩ = (false, pmm, m))) ∧
    (∀ (pmm : PmmState) (m : Mem) (root : PageTableRoot) (pa : Nat) (perms : PagePermissions),
      MapPage4KiB pmm m root (1 <<< 48) pa perms ⟨48, 48⟩ = (false, pmm, m)) ∧
    ValidateVirtualAddress (1 <<< 48) layout48 = false :=
  ⟨canonical_va_acceptance 48 48 0x1000 layout48 (by decide),
   (canonical_va_acceptance 48 48 (1 <<< 48) layout48 (by decide)).2.2 (by decide),
   by decide⟩

end Rocinante

namespace Rocinante

/-! ## Bitmap bit-level lemmas -/

theorem is_page_used_eq_testBit (s : PmmState) (i : Nat) (h : s.bitmap_is_null = false) :
    s.is_page_used i = (s.bitmap.getD (i / 8) 0).testBit (i % 8) := by
  unfold PmmState.is_page_used
  rw [h]
  simp only [Bool.false_eq_true, if_false]
  rw [one_shiftLeft_eq, Nat.and_two_pow]
  rcases htb : (s.bitmap.getD (i / 8) 0).testBit (i % 8) with _ | _ <;>
    simp [htb, Nat.pos_iff_ne_zero]

theorem set_page_used_fields (s : PmmState) (j : Nat) :
    (s.set_page_used j).bitmap_physical_base = s.bitmap_physical_base ∧
    (s.set_page_used j).bitmap_size_bytes = s.bitmap_size_bytes ∧
    (s.set_page_used j).tracked_physical_base = s.tracked_physical_base ∧
    (s.set_page_used j).tracked_physical_limit = s.tracked_physical_limit ∧
    (s.set_page_used j).page_count = s.page_count ∧
    (s.set_page_used j).free_page_count = s.free_page_count ∧
    (s.set_page_used j).next_search_index = s.next_search_index ∧
    (s.set_page_used j).initialized = s.initialized ∧
    (s.set_page_used j).bitmap.length = s.bitmap.length ∧
    (s.set_page_used j).bitmap_is_null = s.bitmap_is_null := by
  unfold PmmState.set_page_used
  split <;> simp [PmmState.bitmap_is_null]

theorem set_page_free_fields (s : PmmState) (j : Nat) :
    (s.set_page_free j).bitmap_physical_base = s.bitmap_physical_base ∧
    (s.set_page_free j).bitmap_size_bytes = s.bitmap_size_bytes ∧
    (s.set_page_free j).tracked_physical_base = s.tracked_physical_base ∧
    (s.set_page_free j).tracked_physical_limit = s.tracked_physical_limit ∧
    (s.set_page_free j).page_count = s.page_count ∧
    (s.set_page_free j).free_page_count = s.free_page_count ∧
    (s.set_page_free j).next_search_index = s.next_search_index ∧
    (s.set_page_free j).initialized = s.initialized ∧
    (s.set_page_free j).bitmap.length = s.bitmap.length ∧
    (s.set_page_free j).bitmap_is_null = s.bitmap_is_null := by
  unfold PmmState.set_page_free
  split <;> simp [PmmState.bitmap_is_null]

theorem set_page_used_bitmap (s : PmmState) (j : Nat) (hn : s.bitmap_is_null = false) :
    (s.set_page_used j).bitmap =
      s.bitmap.set (j / 8) ((s.bitmap.getD (j / 8) 0) ||| (1 <<< (j % 8))) := by
  unfold PmmState.set_page_used
  rw [if_neg (by simp [hn])]

theorem set_page_free_bitmap (s : PmmState) (j : Nat) (hn : s.bitmap_is_null = false) :
    (s.set_page_free j).bitmap =
      s.bitmap.set (j / 8) ((s.bitmap.getD (j / 8) 0) &&& (255 ^^^ (1 <<< (j % 8)))) := by
  unfold PmmState.set_page_free
  rw [if_neg (by simp [hn])]

theorem is_used_set_used_self (s : PmmState) (j : Nat) (hj : j / 8 < s.bitmap.length) :
    (s.set_page_used j).is_page_used j = true := by
  by_cases hn : s.bitmap_is_null = true
  · have hs : s.set_page_used j = s := by
      unfold PmmState.set_page_used; rw [if_pos hn]
    rw [hs]
    unfold PmmState.is_page_used
    rw [if_pos hn]
  · have hn' : s.bitmap_is_null = false := by simpa using hn
    rw [is_page_used_eq_testBit _ _ (((set_page_used_fields s j).2.2.2.2.2.2.2.2.2).trans hn')]
    rw [set_page_used_bitmap s j hn']
    rw [List.getD_eq_getElem?_getD, List.getElem?_set_self (by simpa using hj)]
    simp [Nat.testBit_or, one_shiftLeft_eq, Nat.testBit_two_pow]

theorem is_used_set_used_other (s : PmmState) (i j : Nat) (h : i ≠ j) :
    (s.set_page_used j).is_page_used i = s.is_page_used i := by
  by_cases hn : s.bitmap_is_null = true
  · have hs : s.set_page_used j = s := by
      unfold PmmState.set_page_used; rw [if_pos hn]
    rw [hs]
  · have hn' : s.bitmap_is_null = false := by simpa using hn
    rw [is_page_used_eq_testBit _ _ (((set_page_used_fields s j).2.2.2.2.2.2.2.2.2).trans hn')]
    rw [is_page_used_eq_testBit _ _ hn']
    rw [set_page_used_bitmap s j hn']
    by_cases hbyte : i / 8 = j / 8
    · rw [hbyte, List.getD_eq_getElem?_getD, List.getD_eq_getElem?_getD]
      by_cases hr : j / 8 < s.bitmap.length
      · rw [List.getElem?_set_self (by simpa using hr)]
        have hbit : i % 8 ≠ j % 8 := by omega
        simp only [Option.getD_some, Nat.testBit_or, one_shiftLeft_eq, Nat.testBit_two_pow]
        have : decide (j % 8 = i % 8) = false := by
          simp
          omega
        rw [this]
        simp
      · rw [List.set_eq_of_length_le (by omega)]
    · rw [List.getD_eq_getElem?_getD, List.getD_eq_getElem?_getD,
        List.getElem?_set_ne (by omega)]
      simp [List.getD_eq_getElem?_getD]

theorem free_of_set_used_free (s : PmmState) (i j : Nat)
    (h : (s.set_page_used j).is_page_used i = false) : s.is_page_used i = false := by
  by_cases hij : i = j
  · subst hij
    by_cases hr : i / 8 < s.bitmap.length
    · rw [is_used_set_used_self s i hr] at h
      exact absurd h (by simp)
    · by_cases hn : s.bitmap_is_null = true
      · have hs : s.set_page_used i = s := by
          unfold PmmState.set_page_used; rw [if_pos hn]
        rw [hs] at h
        exact h
      · have hn' : s.bitmap_is_null = false := by simpa using hn
        rw [is_page_used_eq_testBit _ _ (((set_page_used_fields s i).2.2.2.2.2.2.2.2.2).trans hn')] at h
        rw [set_page_used_bitmap s i hn'] at h
        rw [is_page_used_eq_testBit _ _ hn']
        rw [List.set_eq_of_length_le (by omega)] at h
        exact h
  · rw [is_used_set_used_other s i j hij] at h
    exact h

theorem is_used_set_free_self (s : PmmState) (j : Nat) (hn : s.bitmap_is_null = false)
    (hj : j / 8 < s.bitmap.length) :
    (s.set_page_free j).is_page_used j = false := by
  rw [is_page_used_eq_testBit _ _ (((set_page_free_fields s j).2.2.2.2.2.2.2.2.2).trans hn)]
  rw [set_page_free_bitmap s j hn]
  rw [List.getD_eq_getElem?_getD, List.getElem?_set_self (by simpa using hj)]
  simp only [Option.getD_some, Nat.testBit_and, Nat.testBit_xor, one_shiftLeft_eq,
    Nat.testBit_two_pow, show (255 : Nat) = 2 ^ 8 - 1 from rfl, Nat.testBit_two_pow_sub_one]
  have hk : decide (j % 8 < 8) = true := by simp [Nat.mod_lt]
  rw [hk]
  simp

theorem is_used_set_free_other (s : PmmState) (i j : Nat) (h : i ≠ j) :
    (s.set_page_free j).is_page_used i = s.is_page_used i := by
  by_cases hn : s.bitmap_is_null = true
  · have hs : s.set_page_free j = s := by
      unfold PmmState.set_page_free; rw [if_pos hn]
    rw [hs]
  · have hn' : s.bitmap_is_null = false := by simpa using hn
    rw [is_page_used_eq_testBit _ _ (((set_page_free_fields s j).2.2.2.2.2.2.2.2.2).trans hn')]
    rw [is_page_used_eq_testBit _ _ hn']
    rw [set_page_free_bitmap s j hn']
    by_cases hbyte : i / 8 = j / 8
    · rw [hbyte, List.getD_eq_getElem?_getD, List.getD_eq_getElem?_getD]
      by_cases hr : j / 8 < s.bitmap.length
      · rw [List.getElem?_set_self (by simpa using hr)]
        have hbit : i % 8 ≠ j % 8 := by omega
        have hmod : i % 8 < 8 := Nat.mod_lt _ (by omega)
        simp only [Option.getD_some, Nat.testBit_and, Nat.testBit_xor, one_shiftLeft_eq,
          Nat.testBit_two_pow, show (255 : Nat) = 2 ^ 8 - 1 from rfl,
          Nat.testBit_two_pow_sub_one]
        have h1 : decide (i % 8 < 8) = true := by simp [hmod]
        have h2 : decide (j % 8 = i % 8) = false := by
          simp
          omega
        rw [h1, h2]
        simp
      · rw [List.set_eq_of_length_le (by omega)]
    · rw [List.getD_eq_getElem?_getD, List.getD_eq_getElem?_getD,
        List.getElem?_set_ne (by omega)]
      simp [List.getD_eq_getElem?_getD]

end Rocinante

namespace Rocinante

/-! ## AllocatePage / FreePage characterization -/

theorem findFreeScan_some_spec (s : PmmState) :
    ∀ remaining scan idx, findFreeScan s scan remaining = some idx →
      s.is_page_used idx = false ∧ (s.page_count ≠ 0 → idx < s.page_count) := by
  intro remaining
  induction remaining with
  | zero => intro scan idx h; simp [findFreeScan] at h
  | succ n ih =>
    intro scan idx h
    unfold findFreeScan at h
    by_cases hu : s.is_page_used ((s.next_search_index + scan) % s.page_count) = true
    · rw [if_pos hu] at h
      exact ih _ _ h
    · rw [if_neg hu] at h
      injection h with h
      subst h
      refine ⟨by simpa using hu, fun hpc => Nat.mod_lt _ (Nat.pos_of_ne_zero hpc)⟩

theorem is_page_used_free_next_update (s : PmmState) (f n j : Nat) :
    ({ s with free_page_count := f, next_search_index := n } : PmmState).is_page_used j =
      s.is_page_used j := rfl

theorem allocatePage_none (s : PmmState) (s' : PmmState)
    (h : AllocatePage s = (none, s')) : s' = s := by
  unfold AllocatePage at h
  by_cases hi : s.initialized = true
  · rw [if_neg (by simp [hi])] at h
    by_cases hf : s.free_page_count = 0
    · rw [if_pos hf] at h
      injection h with _ h
      exact h.symm
    · rw [if_neg hf] at h
      cases hscan : findFreeScan s 0 s.page_count with
      | none => rw [hscan] at h; injection h with _ h; exact h.symm
      | some idx => rw [hscan] at h; exact Option.noConfusion (congrArg Prod.fst h)
  · rw [if_pos (by simpa using hi)] at h
    injection h with _ h
    exact h.symm

theorem allocatePage_some (s : PmmState) (a : Nat) (s' : PmmState)
    (h : AllocatePage s = (some a, s')) :
    s.initialized = true ∧
    s.free_page_count ≠ 0 ∧
    s'.free_page_count = s.free_page_count - 1 ∧
    s'.tracked_physical_base = s.tracked_physical_base ∧
    s'.tracked_physical_limit = s.tracked_physical_limit ∧
    s'.page_count = s.page_count ∧
    s'.bitmap.length = s.bitmap.length ∧
    s'.initialized = s.initialized ∧
    ∃ idx, idx < s.page_count ∧ s.is_page_used idx = false ∧
      a = s.tracked_physical_base + idx * kPageSizeBytes ∧
      (∀ j, j ≠ idx → s'.is_page_used j = s.is_page_used j) ∧
      (idx / 8 < s.bitmap.length → s'.is_page_used idx = true) := by
  unfold AllocatePage at h
  by_cases hi : s.initialized = true
  swap
  · rw [if_pos (by simpa using hi)] at h
    exact Option.noConfusion (congrArg Prod.fst h)
  rw [if_neg (by simp [hi])] at h
  by_cases hf : s.free_page_count = 0
  · rw [if_pos hf] at h
    exact Option.noConfusion (congrArg Prod.fst h)
  rw [if_neg hf] at h
  cases hscan : findFreeScan s 0 s.page_count with
  | none => rw [hscan] at h; exact Option.noConfusion (congrArg Prod.fst h)
  | some idx =>
    rw [hscan] at h
    obtain ⟨hfree, hlt⟩ := findFreeScan_some_spec s s.page_count 0 idx hscan
    have hpc : s.page_count ≠ 0 := by
      intro h0
      rw [h0] at hscan
      simp [findFreeScan] at hscan
    have ha : a = s.page_index_to_physical idx := by
      have := congrArg Prod.fst h
      simpa using this.symm
    have hs' : s' = { s.set_page_used idx with
        free_page_count := (s.set_page_used idx).free_page_count - 1
        next_search_index := (idx + 1) % (s.set_page_used idx).page_count } := by
      have := congrArg Prod.snd h
      simpa using this.symm
    obtain ⟨-, -, htb, htl, hpcn, hfc, -, hin, hblen, -⟩ := set_page_used_fields s idx
    subst hs'
    refine ⟨hi, hf, by simpa [hfc], by simpa [htb], by simpa [htl], by simpa [hpcn],
      by simpa [hblen], by simpa [hin, hi], idx, hlt hpc, hfree, by
        rw [ha]; rfl, ?_, ?_⟩
    · intro j hj
      rw [is_page_used_free_next_update]
      exact is_used_set_used_other s j idx hj
    · intro hr
      rw [is_page_used_free_next_update]
      exact is_used_set_used_self s idx hr

theorem freePage_false (s : PmmState) (addr : Nat) (s' : PmmState)
    (h : FreePage s addr = (false, s')) : s' = s := by
  unfold FreePage at h
  by_cases hi : s.initialized = true
  swap
  · rw [if_pos (by simpa using hi)] at h
    injection h with _ h; exact h.symm
  rw [if_neg (by simp [hi])] at h
  by_cases h1 : addr % kPageSizeBytes ≠ 0
  · rw [if_pos h1] at h; injection h with _ h; exact h.symm
  rw [if_neg h1] at h
  by_cases h2 : addr < s.tracked_physical_base
  · rw [if_pos h2] at h; injection h with _ h; exact h.symm
  rw [if_neg h2] at h
  by_cases h3 : addr ≥ s.tracked_physical_limit
  · rw [if_pos h3] at h; injection h with _ h; exact h.symm
  rw [if_neg h3] at h
  by_cases h4 : s.physical_to_page_index addr ≥ s.page_count
  · rw [if_pos h4] at h; injection h with _ h; exact h.symm
  rw [if_neg h4] at h
  by_cases h5 : ¬ s.is_page_used (s.physical_to_page_index addr) = true
  · rw [if_pos h5] at h; injection h with _ h; exact h.symm
  · rw [if_neg h5] at h
    exact absurd (congrArg Prod.fst h) (by simp)

end Rocinante

namespace Rocinante

theorem is_page_used_next_update (s : PmmState) (n j : Nat) :
    ({ s with next_search_index := n } : PmmState).is_page_used j = s.is_page_used j := rfl

theorem is_page_used_free_update (s : PmmState) (f j : Nat) :
    ({ s with free_page_count := f } : PmmState).is_page_used j = s.is_page_used j := rfl

theorem is_page_used_congr (s1 s2 : PmmState) (j : Nat)
    (h1 : s1.bitmap_physical_base = s2.bitmap_physical_base)
    (h2 : s1.bitmap_size_bytes = s2.bitmap_size_bytes)
    (h3 : s1.bitmap = s2.bitmap) :
    s1.is_page_used j = s2.is_page_used j := by
  unfold PmmState.is_page_used PmmState.bitmap_is_null
  rw [h1, h2, h3]

theorem freePage_true (s : PmmState) (addr : Nat) (s' : PmmState)
    (h : FreePage s addr = (true, s')) :
    s.initialized = true ∧
    addr % kPageSizeBytes = 0 ∧
    s.tracked_physical_base ≤ addr ∧ addr < s.tracked_physical_limit ∧
    s.physical_to_page_index addr < s.page_count ∧
    s.is_page_used (s.physical_to_page_index addr) = true ∧
    s'.free_page_count = s.free_page_count + 1 ∧
    s'.next_search_index = min s.next_search_index (s.physical_to_page_index addr) ∧
    (∀ j, j ≠ s.physical_to_page_index addr → s'.is_page_used j = s.is_page_used j) ∧
    (s.bitmap_is_null = false → s.physical_to_page_index addr / 8 < s.bitmap.length →
      s'.is_page_used (s.physical_to_page_index addr) = false) := by
  unfold FreePage at h
  by_cases hi : s.initialized = true
  swap
  · rw [if_pos (by simpa using hi)] at h
    exact absurd (congrArg Prod.fst h) (by simp)
  rw [if_neg (by simp [hi])] at h
  by_cases h1 : addr % kPageSizeBytes ≠ 0
  · rw [if_pos h1] at h
    exact absurd (congrArg Prod.fst h) (by simp)
  rw [if_neg h1] at h
  push_neg at h1
  by_cases h2 : addr < s.tracked_physical_base
  · rw [if_pos h2] at h
    exact absurd (congrArg Prod.fst h) (by simp)
  rw [if_neg h2] at h
  push_neg at h2
  by_cases h3 : addr ≥ s.tracked_physical_limit
  · rw [if_pos h3] at h
    exact absurd (congrArg Prod.fst h) (by simp)
  rw [if_neg h3] at h
  push_neg at h3
  by_cases h4 : s.physical_to_page_index addr ≥ s.page_count
  · rw [if_pos h4] at h
    exact absurd (congrArg Prod.fst h) (by simp)
  rw [if_neg h4] at h
  push_neg at h4
  by_cases h5 : ¬ s.is_page_used (s.physical_to_page_index addr) = true
  · rw [if_pos h5] at h
    exact absurd (congrArg Prod.fst h) (by simp)
  rw [if_neg h5] at h
  push_neg at h5
  have hs' := (congrArg Prod.snd h).symm
  simp only [] at hs'
  obtain ⟨-, -, -, -, -, hfc, hni, -, hblen, hbn⟩ :=
    set_page_free_fields s (s.physical_to_page_index addr)
  refine ⟨hi, h1, h2, h3, h4, h5, ?_, ?_, ?_, ?_⟩
  · rw [hs']
    split <;> dsimp only <;> rw [hfc]
  · rw [hs']
    split
    · rename_i hlt
      dsimp only
      rw [hni] at hlt
      omega
    · rename_i hlt
      dsimp only
      rw [hni] at hlt ⊢
      omega
  · intro j hj
    rw [hs']
    split <;>
      exact (is_page_used_congr _ _ j rfl rfl rfl).trans (is_used_set_free_other s j _ hj)
  · intro hn hr
    rw [hs']
    split <;>
      exact (is_page_used_congr _ _ _ rfl rfl rfl).trans (is_used_set_free_self s _ hn hr)

theorem freePage_result_char (s : PmmState) (addr : Nat)
    (hinit : s.initialized = true)
    (hcoh : s.tracked_physical_limit = s.tracked_physical_base + s.page_count * kPageSizeBytes) :
    (FreePage s addr).1 = true ↔
      (addr % kPageSizeBytes = 0 ∧ s.tracked_physical_base ≤ addr ∧
       addr < s.tracked_physical_limit ∧
       s.is_page_used (s.physical_to_page_index addr) = true) := by
  constructor
  · intro h
    cases hF : FreePage s addr with
    | mk r s' =>
      rw [hF] at h
      simp only [] at h
      subst h
      obtain ⟨-, c1, c2, c3, -, c5, -⟩ := freePage_true s addr s' hF
      exact ⟨c1, c2, c3, c5⟩
  · rintro ⟨c1, c2, c3, c5⟩
    unfold FreePage
    rw [if_neg (by simp [hinit])]
    rw [if_neg (by simpa using c1)]
    rw [if_neg (by omega)]
    rw [if_neg (by omega)]
    have h4 : ¬ s.physical_to_page_index addr ≥ s.page_count := by
      unfold PmmState.physical_to_page_index
      have hlt : addr - s.tracked_physical_base < s.page_count * kPageSizeBytes := by
        have : kPageSizeBytes = 4096 := rfl
        omega
      have : (addr - s.tracked_physical_base) / kPageSizeBytes < s.page_count := by
        have hk : kPageSizeBytes = 4096 := rfl
        rw [hk] at hlt ⊢
        omega
      omega
    rw [if_neg h4]
    rw [if_neg (by simp [c5])]

theorem runPmmOps_free_count (ops : List PmmOp) : ∀ (s : PmmState),
    ((runPmmOps s ops).1.free_page_count : Int) =
      (s.free_page_count : Int) + ((runPmmOps s ops).2.2 : Int) -
        ((runPmmOps s ops).2.1 : Int) := by
  induction ops with
  | nil => intro s; simp [runPmmOps]
  | cons op rest ih =>
    intro s
    cases op with
    | alloc =>
      cases hA : AllocatePage s with
      | mk r s1 =>
        cases hR : runPmmOps s1 rest with
        | mk s2 nm =>
          obtain ⟨n, m⟩ := nm
          have hrun : runPmmOps s (PmmOp.alloc :: rest) =
              (s2, n + (if r.isSome then 1 else 0), m) := by
            unfold runPmmOps
            rw [hA]
            dsimp only
            rw [hR]
          rw [hrun]
          have := ih s1
          rw [hR] at this
          simp only [] at this ⊢
          cases r with
          | none =>
            rw [allocatePage_none s s1 hA] at this
            simp only [Option.isSome_none, Bool.false_eq_true, if_false]
            omega
          | some a =>
            obtain ⟨-, hnz, hfc, -⟩ := allocatePage_some s a s1 hA
            rw [hfc] at this
            simp only [Option.isSome_some, if_true]
            omega
    | free fa =>
      cases hF : FreePage s fa with
      | mk r s1 =>
        cases hR : runPmmOps s1 rest with
        | mk s2 nm =>
          obtain ⟨n, m⟩ := nm
          have hrun : runPmmOps s (PmmOp.free fa :: rest) =
              (s2, n, m + (if r then 1 else 0)) := by
            unfold runPmmOps
            rw [hF]
            dsimp only
            rw [hR]
          rw [hrun]
          have := ih s1
          rw [hR] at this
          simp only [] at this ⊢
          cases r with
          | false =>
            rw [freePage_false s fa s1 hF] at this
            simp only [Bool.false_eq_true, if_false]
            omega
          | true =>
            obtain ⟨-, -, -, -, -, -, hfc, -⟩ := freePage_true s fa s1 hF
            rw [hfc] at this
            simp only [if_true]
            omega

end Rocinante

namespace Rocinante

/-! ## C6: `FreePage` behavior and free-count accounting -/

/-- C6: on an initialized PMM, `FreePage` fails exactly on a misaligned,
out-of-range, or currently-free page, and a failing call leaves the state
unchanged; a successful call flips the page USED to FREE, touches no other
page, increments the free count by one and lowers `next_search_index` to the
freed index if that is smaller; and over any operation sequence with N
successful allocations and M successful frees the free count is
`initial + M - N`. -/
theorem freePage_spec (s : PmmState) (addr : Nat)
    (hinit : s.initialized = true)
    (hcoh : s.tracked_physical_limit = s.tracked_physical_base + s.page_count * kPageSizeBytes)
    (hlen : s.page_count ≤ 8 * s.bitmap.length)
    (hnull : s.bitmap_is_null = false) :
    ((FreePage s addr).1 = false ↔
      (addr % kPageSizeBytes ≠ 0 ∨ addr < s.tracked_physical_base ∨
       s.tracked_physical_limit ≤ addr ∨
       s.is_page_used (s.physical_to_page_index addr) = false)) ∧
    ((FreePage s addr).1 = false → (FreePage s addr).2 = s) ∧
    ((FreePage s addr).1 = true →
      s.is_page_used (s.physical_to_page_index addr) = true ∧
      (FreePage s addr).2.is_page_used (s.physical_to_page_index addr) = false ∧
      (∀ j, j ≠ s.physical_to_page_index addr →
        (FreePage s addr).2.is_page_used j = s.is_page_used j) ∧
      (FreePage s addr).2.free_page_count = s.free_page_count + 1 ∧
      (FreePage s addr).2.next_search_index =
        min s.next_search_index (s.physical_to_page_index addr)) ∧
    (∀ ops : List PmmOp,
      ((runPmmOps s ops).1.free_page_count : Int) =
        (s.free_page_count : Int) + ((runPmmOps s ops).2.2 : Int) -
          ((runPmmOps s ops).2.1 : Int)) := by
  have hchar := freePage_result_char s addr hinit hcoh
  refine ⟨?_, ?_, ?_, fun ops => runPmmOps_free_count ops s⟩
  · constructor
    · intro hres
      by_contra hcon
      push_neg at hcon
      obtain ⟨c1, c2, c3, c4⟩ := hcon
      have hc4 : s.is_page_used (s.physical_to_page_index addr) = true := by
        revert c4
        cases s.is_page_used (s.physical_to_page_index addr) <;> simp
      have htrue : (FreePage s addr).1 = true :=
        hchar.mpr ⟨c1, by omega, by omega, hc4⟩
      rw [htrue] at hres
      exact Bool.noConfusion hres
    · intro hcon
      cases hres : (FreePage s addr).1 with
      | false => rfl
      | true =>
        obtain ⟨d1, d2, d3, d4⟩ := hchar.mp hres
        rcases hcon with c | c | c | c
        · exact absurd d1 c
        · omega
        · omega
        · rw [d4] at c
          exact Bool.noConfusion c
  · intro hres
    cases hF : FreePage s addr with
    | mk r s' =>
      rw [hF] at hres
      simp only [] at hres
      subst hres
      exact freePage_false s addr s' hF
  · intro hres
    cases hF : FreePage s addr with
    | mk r s' =>
      rw [hF] at hres
      simp only [] at hres
      subst hres
      obtain ⟨-, -, -, -, hidx, hused, hfc, hmin, hother, hflip⟩ :=
        freePage_true s addr s' hF
      refine ⟨hused, ?_, fun j hj => hother j hj, hfc, hmin⟩
      exact hflip hnull (by omega)

/-- Witness for C6: on the concrete example PMM, freeing the USED page at
physical address 0x1000 succeeds, flips it to FREE and raises the free count
from 1 to 2. -/
theorem freePage_spec_witness :
    exPmm.is_page_used (exPmm.physical_to_page_index 4096) = true ∧
    (FreePage exPmm 4096).2.is_page_used (exPmm.physical_to_page_index 4096) = false ∧
    (FreePage exPmm 4096).2.free_page_count = exPmm.free_page_count + 1 := by
  have h := freePage_spec exPmm 4096 (by decide) (by decide) (by decide) (by decide)
  obtain ⟨hused, hflip, -, hfc, -⟩ := h.2.2.1 (by decide)
  exact ⟨hused, hflip, hfc⟩

end Rocinante

namespace Rocinante

/-! ## C3: allocations respect the boot-map reservations -/

theorem and_notMask_eq (y k : Nat) (hk : k ≤ 64) :
    y &&& ((2 ^ 64 - 1) ^^^ (2 ^ k - 1)) = y % 2 ^ 64 / 2 ^ k * 2 ^ k := by
  have h : y % 2 ^ 64 / 2 ^ k * 2 ^ k = ((y % 2 ^ 64) >>> k) <<< k := by
    rw [Nat.shiftRight_eq_div_pow, Nat.shiftLeft_eq]
  rw [h]
  apply Nat.eq_of_testBit_eq
  intro j
  rw [Nat.testBit_and, Nat.testBit_xor, Nat.testBit_two_pow_sub_one,
    Nat.testBit_two_pow_sub_one, Nat.testBit_shiftLeft, Nat.testBit_shiftRight,
    Nat.testBit_mod_two_pow]
  by_cases h1 : j < k
  · have h2 : j < 64 := by omega
    have h3 : ¬ j ≥ k := by omega
    simp [h1, h2, h3]
  · have h3 : j ≥ k := by omega
    have h4 : k + (j - k) = j := by omega
    by_cases h2 : j < 64 <;> simp [h1, h2, h3, h4]

theorem alignDown_4096_eq (y : Nat) :
    AlignDown y 4096 = y % 2 ^ 64 / 4096 * 4096 := by
  have h : AlignDown y 4096 = y &&& ((2 ^ 64 - 1) ^^^ (2 ^ 12 - 1)) := rfl
  rw [h, and_notMask_eq y 12 (by omega)]
  norm_num

theorem alignUp_4096_eq (y : Nat) :
    AlignUp y 4096 = (y + 4095) % 2 ^ 64 / 4096 * 4096 := by
  have h : AlignUp y 4096 = (y + 4095) &&& ((2 ^ 64 - 1) ^^^ (2 ^ 12 - 1)) := rfl
  rw [h, and_notMask_eq (y + 4095) 12 (by omega)]
  norm_num

theorem align16_eq (y : Nat) :
    (y + 15) &&& ((2 ^ 64 - 1) ^^^ 15) = (y + 15) % 2 ^ 64 / 16 * 16 := by
  show (y + 15) &&& ((2 ^ 64 - 1) ^^^ (2 ^ 4 - 1)) = (y + 15) % 2 ^ 64 / 2 ^ 4 * 2 ^ 4
  exact and_notMask_eq (y + 15) 4 (by omega)

theorem bitmapBumpLoop_no_overflow (rb re bca kb ke db dsz : Nat) :
    ∀ fuel cand c, bitmapBumpLoop rb re bca kb ke db dsz cand fuel = some c →
      AddOverflows c bca = false := by
  intro fuel
  induction fuel with
  | zero => intro cand c h; exact Option.noConfusion h
  | succ n ih =>
    intro cand c h
    unfold bitmapBumpLoop at h
    split at h
    · exact Option.noConfusion h
    · split at h
      · exact Option.noConfusion h
      · split at h
        · exact Option.noConfusion h
        · rename_i hov hre
          split at h
          · exact ih _ _ h
          · split at h
            · split at h
              · exact Option.noConfusion h
              · exact ih _ _ h
            · injection h with h
              subst h
              simpa using hov

theorem bitmapSearchRegions_no_overflow (bca kb ke db dsz : Nat) :
    ∀ l c, bitmapSearchRegions bca kb ke db dsz l = some c →
      AddOverflows c bca = false := by
  intro l
  induction l with
  | nil => intro c h; exact Option.noConfusion h
  | cons r rest ih =>
    intro c h
    unfold bitmapSearchRegions at h
    split at h
    · exact ih _ h
    · split at h
      · exact ih _ h
      · split at h
        · exact ih _ h
        · split at h
          · exact ih _ h
          · split at h
            · exact ih _ h
            · rename_i hbl
              split at h
              · injection h with h
                subst h
                exact bitmapBumpLoop_no_overflow _ _ _ _ _ _ _ _ _ _ hbl
              · exact ih _ h

end Rocinante

namespace Rocinante

theorem set_range_used_loop_fields :
    ∀ (n : Nat) (s : PmmState) (start : Nat),
      (s.set_range_used_loop start n).bitmap_physical_base = s.bitmap_physical_base ∧
      (s.set_range_used_loop start n).bitmap_size_bytes = s.bitmap_size_bytes ∧
      (s.set_range_used_loop start n).tracked_physical_base = s.tracked_physical_base ∧
      (s.set_range_used_loop start n).tracked_physical_limit = s.tracked_physical_limit ∧
      (s.set_range_used_loop start n).page_count = s.page_count ∧
      (s.set_range_used_loop start n).bitmap.length = s.bitmap.length := by
  intro n
  induction n with
  | zero => intro s start; exact ⟨rfl, rfl, rfl, rfl, rfl, rfl⟩
  | succ m ih =>
    intro s start
    obtain ⟨h1, h2, h3, h4, h5, -, -, -, h9, -⟩ := set_page_used_fields s start
    obtain ⟨g1, g2, g3, g4, g5, g6⟩ := ih (s.set_page_used start) (start + 1)
    exact ⟨g1.trans h1, g2.trans h2, g3.trans h3, g4.trans h4, g5.trans h5, g6.trans h9⟩

theorem set_range_free_loop_fields :
    ∀ (n : Nat) (s : PmmState) (start : Nat),
      (s.set_range_free_loop start n).bitmap_physical_base = s.bitmap_physical_base ∧
      (s.set_range_free_loop start n).bitmap_size_bytes = s.bitmap_size_bytes ∧
      (s.set_range_free_loop start n).tracked_physical_base = s.tracked_physical_base ∧
      (s.set_range_free_loop start n).tracked_physical_limit = s.tracked_physical_limit ∧
      (s.set_range_free_loop start n).page_count = s.page_count ∧
      (s.set_range_free_loop start n).bitmap.length = s.bitmap.length := by
  intro n
  induction n with
  | zero => intro s start; exact ⟨rfl, rfl, rfl, rfl, rfl, rfl⟩
  | succ m ih =>
    intro s start
    obtain ⟨h1, h2, h3, h4, h5, -, -, -, h9, -⟩ := set_page_free_fields s start
    obtain ⟨g1, g2, g3, g4, g5, g6⟩ := ih (s.set_page_free start) (start + 1)
    exact ⟨g1.trans h1, g2.trans h2, g3.trans h3, g4.trans h4, g5.trans h5, g6.trans h9⟩

theorem loop_free_mono :
    ∀ (n : Nat) (s : PmmState) (start j : Nat),
      (s.set_range_used_loop start n).is_page_used j = false → s.is_page_used j = false := by
  intro n
  induction n with
  | zero => intro s start j h; exact h
  | succ m ih =>
    intro s start j h
    exact free_of_set_used_free s j start (ih (s.set_page_used start) (start + 1) j h)

theorem loop_sets :
    ∀ (n : Nat) (s : PmmState) (start i : Nat), start ≤ i → i < start + n →
      i / 8 < s.bitmap.length →
      (s.set_range_used_loop start n).is_page_used i = true := by
  intro n
  induction n with
  | zero => intro s start i h1 h2 _; omega
  | succ m ih =>
    intro s start i h1 h2 hlen
    by_cases he : start = i
    · subst he
      have hset : (s.set_page_used start).is_page_used start = true :=
        is_used_set_used_self s start hlen
      cases hres : ((s.set_page_used start).set_range_used_loop (start + 1) m).is_page_used start with
      | true => exact hres
      | false =>
        have hbase := loop_free_mono m (s.set_page_used start) (start + 1) start hres
        rw [hbase] at hset
        exact Bool.noConfusion hset
    · have hlen' : i / 8 < (s.set_page_used start).bitmap.length := by
        have h9 := (set_page_used_fields s start).2.2.2.2.2.2.2.2.1
        omega
      exact ih (s.set_page_used start) (start + 1) i (by omega) (by omega) hlen'

theorem mark_range_used_fields (s : PmmState) (pb sz : Nat) :
    (s.mark_range_used pb sz).bitmap_physical_base = s.bitmap_physical_base ∧
    (s.mark_range_used pb sz).bitmap_size_bytes = s.bitmap_size_bytes ∧
    (s.mark_range_used pb sz).tracked_physical_base = s.tracked_physical_base ∧
    (s.mark_range_used pb sz).tracked_physical_limit = s.tracked_physical_limit ∧
    (s.mark_range_used pb sz).page_count = s.page_count ∧
    (s.mark_range_used pb sz).bitmap.length = s.bitmap.length := by
  cases h : s.physical_range_to_page_indices pb sz with
  | none =>
    have he : s.mark_range_used pb sz = s := by
      unfold PmmState.mark_range_used
      rw [h]
    rw [he]
    exact ⟨rfl, rfl, rfl, rfl, rfl, rfl⟩
  | some p =>
    obtain ⟨ib, ie⟩ := p
    have he : s.mark_range_used pb sz = s.set_range_used_loop ib (ie - ib) := by
      unfold PmmState.mark_range_used
      rw [h]
    rw [he]
    exact set_range_used_loop_fields (ie - ib) s ib

theorem mark_range_free_fields (s : PmmState) (pb sz : Nat) :
    (s.mark_range_free pb sz).bitmap_physical_base = s.bitmap_physical_base ∧
    (s.mark_range_free pb sz).bitmap_size_bytes = s.bitmap_size_bytes ∧
    (s.mark_range_free pb sz).tracked_physical_base = s.tracked_physical_base ∧
    (s.mark_range_free pb sz).tracked_physical_limit = s.tracked_physical_limit ∧
    (s.mark_range_free pb sz).page_count = s.page_count ∧
    (s.mark_range_free pb sz).bitmap.length = s.bitmap.length := by
  cases h : s.physical_range_to_page_indices pb sz with
  | none =>
    have he : s.mark_range_free pb sz = s := by
      unfold PmmState.mark_range_free
      rw [h]
    rw [he]
    exact ⟨rfl, rfl, rfl, rfl, rfl, rfl⟩
  | some p =>
    obtain ⟨ib, ie⟩ := p
    have he : s.mark_range_free pb sz = s.set_range_free_loop ib (ie - ib) := by
      unfold PmmState.mark_range_free
      rw [h]
    rw [he]
    exact set_range_free_loop_fields (ie - ib) s ib

theorem free_of_mark_used_free (s : PmmState) (pb sz j : Nat)
    (h : (s.mark_range_used pb sz).is_page_used j = false) : s.is_page_used j = false := by
  cases hp : s.physical_range_to_page_indices pb sz with
  | none =>
    have he : s.mark_range_used pb sz = s := by
      unfold PmmState.mark_range_used
      rw [hp]
    rw [he] at h
    exact h
  | some p =>
    obtain ⟨ib, ie⟩ := p
    have he : s.mark_range_used pb sz = s.set_range_used_loop ib (ie - ib) := by
      unfold PmmState.mark_range_used
      rw [hp]
    rw [he] at h
    exact loop_free_mono (ie - ib) s ib j h

end Rocinante

namespace Rocinante

/-- A page-aligned address inside both the requested range and the tracked span
has its page bit set by `_mark_range_used`. -/
theorem mark_range_used_covers (s : PmmState) (pb sz a : Nat)
    (htb : s.tracked_physical_base % 4096 = 0)
    (hcoh : s.tracked_physical_limit = s.tracked_physical_base + s.page_count * 4096)
    (htl64 : s.tracked_physical_limit ≤ 2 ^ 64 - 4096)
    (hlen : s.page_count ≤ 8 * s.bitmap.length)
    (hov : AddOverflows pb sz = false)
    (ha : a % 4096 = 0)
    (h1 : pb ≤ a) (h2 : a < pb + sz)
    (h3 : s.tracked_physical_base ≤ a) (h4 : a < s.tracked_physical_limit) :
    (s.mark_range_used pb sz).is_page_used ((a - s.tracked_physical_base) / 4096) = true := by
  have hcb1 : s.tracked_physical_base ≤ s.clampBegin pb := by
    unfold PmmState.clampBegin
    split <;> omega
  have hcb2 : s.clampBegin pb ≤ a := by
    unfold PmmState.clampBegin
    split <;> omega
  have hce1 : a < s.clampEnd (pb + sz) := by
    unfold PmmState.clampEnd
    split <;> omega
  have hce2 : s.clampEnd (pb + sz) ≤ s.tracked_physical_limit := by
    unfold PmmState.clampEnd
    split <;> omega
  have hk : kPageSizeBytes = 4096 := rfl
  have hab : s.alignedBegin pb = s.clampBegin pb / 4096 * 4096 := by
    unfold PmmState.alignedBegin
    rw [hk, alignDown_4096_eq, Nat.mod_eq_of_lt (by omega)]
  have hae : s.alignedEnd (pb + sz) = (s.clampEnd (pb + sz) + 4095) / 4096 * 4096 := by
    unfold PmmState.alignedEnd
    rw [hk, alignUp_4096_eq, Nat.mod_eq_of_lt (by omega)]
  have hptiB : s.physical_to_page_index (s.alignedBegin pb) =
      (s.alignedBegin pb - s.tracked_physical_base) / 4096 := rfl
  have hptiE : s.physical_to_page_index (s.alignedEnd (pb + sz)) =
      (s.alignedEnd (pb + sz) - s.tracked_physical_base) / 4096 := rfl
  have hsome : s.physical_range_to_page_indices pb sz =
      some (s.physical_to_page_index (s.alignedBegin pb),
        s.physical_to_page_index (s.alignedEnd (pb + sz))) := by
    unfold PmmState.physical_range_to_page_indices
    rw [if_neg (by omega), if_neg (by simp [hov]), if_neg (by omega), if_neg (by omega),
      if_neg (by omega), if_neg (by omega), if_neg (by omega), if_neg (by omega)]
  have hm : s.mark_range_used pb sz =
      s.set_range_used_loop (s.physical_to_page_index (s.alignedBegin pb))
        (s.physical_to_page_index (s.alignedEnd (pb + sz)) -
          s.physical_to_page_index (s.alignedBegin pb)) := by
    unfold PmmState.mark_range_used
    rw [hsome]
  rw [hm]
  exact loop_sets _ s _ _ (by omega) (by omega) (by omega)

end Rocinante

namespace Rocinante

theorem initFreePhase_fields (boot_map : BootMemoryMap) :
    ∀ (l : List BootMemoryRegion) (s : PmmState),
      ((l.foldl (fun s r => if r.type ≠ RegionType.UsableRAM then s
          else s.mark_range_free r.physical_base r.size_bytes) s)).bitmap_physical_base = s.bitmap_physical_base ∧
      ((l.foldl (fun s r => if r.type ≠ RegionType.UsableRAM then s
          else s.mark_range_free r.physical_base r.size_bytes) s)).bitmap_size_bytes = s.bitmap_size_bytes ∧
      ((l.foldl (fun s r => if r.type ≠ RegionType.UsableRAM then s
          else s.mark_range_free r.physical_base r.size_bytes) s)).tracked_physical_base = s.tracked_physical_base ∧
      ((l.foldl (fun s r => if r.type ≠ RegionType.UsableRAM then s
          else s.mark_range_free r.physical_base r.size_bytes) s)).tracked_physical_limit = s.tracked_physical_limit ∧
      ((l.foldl (fun s r => if r.type ≠ RegionType.UsableRAM then s
          else s.mark_range_free r.physical_base r.size_bytes) s)).page_count = s.page_count ∧
      ((l.foldl (fun s r => if r.type ≠ RegionType.UsableRAM then s
          else s.mark_range_free r.physical_base r.size_bytes) s)).bitmap.length = s.bitmap.length := by
  intro l
  induction l with
  | nil => intro s; exact ⟨rfl, rfl, rfl, rfl, rfl, rfl⟩
  | cons r rest ih =>
    intro s
    have hstep :
        (if r.type ≠ RegionType.UsableRAM then s
          else s.mark_range_free r.physical_base r.size_bytes).bitmap_physical_base = s.bitmap_physical_base ∧
        (if r.type ≠ RegionType.UsableRAM then s
          else s.mark_range_free r.physical_base r.size_bytes).bitmap_size_bytes = s.bitmap_size_bytes ∧
        (if r.type ≠ RegionType.UsableRAM then s
          else s.mark_range_free r.physical_base r.size_bytes).tracked_physical_base = s.tracked_physical_base ∧
        (if r.type ≠ RegionType.UsableRAM then s
          else s.mark_range_free r.physical_base r.size_bytes).tracked_physical_limit = s.tracked_physical_limit ∧
        (if r.type ≠ RegionType.UsableRAM then s
          else s.mark_range_free r.physical_base r.size_bytes).page_count = s.page_count ∧
        (if r.type ≠ RegionType.UsableRAM then s
          else s.mark_range_free r.physical_base r.size_bytes).bitmap.length = s.bitmap.length := by
      split
      · exact ⟨rfl, rfl, rfl, rfl, rfl, rfl⟩
      · exact mark_range_free_fields s _ _
    obtain ⟨h1, h2, h3, h4, h5, h6⟩ := hstep
    obtain ⟨g1, g2, g3, g4, g5, g6⟩ := ih (if r.type ≠ RegionType.UsableRAM then s
      else s.mark_range_free r.physical_base r.size_bytes)
    exact ⟨g1.trans h1, g2.trans h2, g3.trans h3, g4.trans h4, g5.trans h5, g6.trans h6⟩

theorem initReservedPhase_fields (boot_map : BootMemoryMap) :
    ∀ (l : List BootMemoryRegion) (s : PmmState),
      ((l.foldl (fun s r => if r.type ≠ RegionType.Reserved then s
          else s.mark_range_used r.physical_base r.size_bytes) s)).bitmap_physical_base = s.bitmap_physical_base ∧
      ((l.foldl (fun s r => if r.type ≠ RegionType.Reserved then s
          else s.mark_range_used r.physical_base r.size_bytes) s)).bitmap_size_bytes = s.bitmap_size_bytes ∧
      ((l.foldl (fun s r => if r.type ≠ RegionType.Reserved then s
          else s.mark_range_used r.physical_base r.size_bytes) s)).tracked_physical_base = s.tracked_physical_base ∧
      ((l.foldl (fun s r => if r.type ≠ RegionType.Reserved then s
          else s.mark_range_used r.physical_base r.size_bytes) s)).tracked_physical_limit = s.tracked_physical_limit ∧
      ((l.foldl (fun s r => if r.type ≠ RegionType.Reserved then s
          else s.mark_range_used r.physical_base r.size_bytes) s)).page_count = s.page_count ∧
      ((l.foldl (fun s r => if r.type ≠ RegionType.Reserved then s
          else s.mark_range_used r.physical_base r.size_bytes) s)).bitmap.length = s.bitmap.length := by
  intro l
  induction l with
  | nil => intro s; exact ⟨rfl, rfl, rfl, rfl, rfl, rfl⟩
  | cons r rest ih =>
    intro s
    have hstep :
        (if r.type ≠ RegionType.Reserved then s
          else s.mark_range_used r.physical_base r.size_bytes).bitmap_physical_base = s.bitmap_physical_base ∧
        (if r.type ≠ RegionType.Reserved then s
          else s.mark_range_used r.physical_base r.size_bytes).bitmap_size_bytes = s.bitmap_size_bytes ∧
        (if r.type ≠ RegionType.Reserved then s
          else s.mark_range_used r.physical_base r.size_bytes).tracked_physical_base = s.tracked_physical_base ∧
        (if r.type ≠ RegionType.Reserved then s
          else s.mark_range_used r.physical_base r.size_bytes).tracked_physical_limit = s.tracked_physical_limit ∧
        (if r.type ≠ RegionType.Reserved then s
          else s.mark_range_used r.physical_base r.size_bytes).page_count = s.page_count ∧
        (if r.type ≠ RegionType.Reserved then s
          else s.mark_range_used r.physical_base r.size_bytes).bitmap.length = s.bitmap.length := by
      split
      · exact ⟨rfl, rfl, rfl, rfl, rfl, rfl⟩
      · exact mark_range_used_fields s _ _
    obtain ⟨h1, h2, h3, h4, h5, h6⟩ := hstep
    obtain ⟨g1, g2, g3, g4, g5, g6⟩ := ih (if r.type ≠ RegionType.Reserved then s
      else s.mark_range_used r.physical_base r.size_bytes)
    exact ⟨g1.trans h1, g2.trans h2, g3.trans h3, g4.trans h4, g5.trans h5, g6.trans h6⟩

theorem initReservedPhase_free_mono :
    ∀ (l : List BootMemoryRegion) (s : PmmState) (j : Nat),
      ((l.foldl (fun s r => if r.type ≠ RegionType.Reserved then s
          else s.mark_range_used r.physical_base r.size_bytes) s)).is_page_used j = false →
      s.is_page_used j = false := by
  intro l
  induction l with
  | nil => intro s j h; exact h
  | cons r rest ih =>
    intro s j h
    have hrest := ih (if r.type ≠ RegionType.Reserved then s
      else s.mark_range_used r.physical_base r.size_bytes) j h
    revert hrest
    split
    · exact id
    · exact free_of_mark_used_free s _ _ j

/-- A Reserved region of the processed list covering a page-aligned tracked
address forces that page USED at the end of the Reserved marking pass. -/
theorem initReservedPhase_covers (a : Nat) :
    ∀ (l : List BootMemoryRegion) (s : PmmState),
      s.tracked_physical_base % 4096 = 0 →
      s.tracked_physical_limit = s.tracked_physical_base + s.page_count * 4096 →
      s.tracked_physical_limit ≤ 2 ^ 64 - 4096 →
      s.page_count ≤ 8 * s.bitmap.length →
      a % 4096 = 0 → s.tracked_physical_base ≤ a → a < s.tracked_physical_limit →
      ∀ r ∈ l, r.type = RegionType.Reserved →
      AddOverflows r.physical_base r.size_bytes = false →
      r.physical_base ≤ a → a < r.physical_base + r.size_bytes →
      ((l.foldl (fun s r => if r.type ≠ RegionType.Reserved then s
          else s.mark_range_used r.physical_base r.size_bytes) s)).is_page_used
        ((a - s.tracked_physical_base) / 4096) = false →
      False := by
  intro l
  induction l with
  | nil =>
    intro s _ _ _ _ _ _ _ r hr
    exact absurd hr (List.not_mem_nil r)
  | cons x rest ih =>
    intro s f1 f2 f3 f4 f5 f6 f7 r hr hres hov hra1 hra2 hfree
    rcases List.mem_cons.mp hr with he | hm
    · subst he
      have hused := mark_range_used_covers s r.physical_base r.size_bytes a
        f1 f2 f3 f4 hov f5 hra1 hra2 f6 f7
      have hstep : (if r.type ≠ RegionType.Reserved then s
          else s.mark_range_used r.physical_base r.size_bytes) =
          s.mark_range_used r.physical_base r.size_bytes := by
        rw [if_neg (by simp [hres])]
      have hafter := initReservedPhase_free_mono rest
        (if r.type ≠ RegionType.Reserved then s
          else s.mark_range_used r.physical_base r.size_bytes)
        ((a - s.tracked_physical_base) / 4096) hfree
      rw [hstep] at hafter
      rw [hafter] at hused
      exact Bool.noConfusion hused
    · obtain ⟨p1, p2, p3, p4, p5, p6⟩ :
          (if x.type ≠ RegionType.Reserved then s
            else s.mark_range_used x.physical_base x.size_bytes).bitmap_physical_base = s.bitmap_physical_base ∧
          (if x.type ≠ RegionType.Reserved then s
            else s.mark_range_used x.physical_base x.size_bytes).bitmap_size_bytes = s.bitmap_size_bytes ∧
          (if x.type ≠ RegionType.Reserved then s
            else s.mark_range_used x.physical_base x.size_bytes).tracked_physical_base = s.tracked_physical_base ∧
          (if x.type ≠ RegionType.Reserved then s
            else s.mark_range_used x.physical_base x.size_bytes).tracked_physical_limit = s.tracked_physical_limit ∧
          (if x.type ≠ RegionType.Reserved then s
            else s.mark_range_used x.physical_base x.size_bytes).page_count = s.page_count ∧
          (if x.type ≠ RegionType.Reserved then s
            else s.mark_range_used x.physical_base x.size_bytes).bitmap.length = s.bitmap.length := by
        split
        · exact ⟨rfl, rfl, rfl, rfl, rfl, rfl⟩
        · exact mark_range_used_fields s _ _
      refine ih (if x.type ≠ RegionType.Reserved then s
          else s.mark_range_used x.physical_base x.size_bytes)
        (by omega) (by omega) (by omega) (by omega) f5 (by omega) (by omega)
        r hm hres hov hra1 hra2 ?_
      rw [p3]
      exact hfree

end Rocinante

namespace Rocinante

theorem initKernelPhase_fields (kb ke : Nat) (s : PmmState) :
    (initKernelPhase kb ke s).bitmap_physical_base = s.bitmap_physical_base ∧
    (initKernelPhase kb ke s).bitmap_size_bytes = s.bitmap_size_bytes ∧
    (initKernelPhase kb ke s).tracked_physical_base = s.tracked_physical_base ∧
    (initKernelPhase kb ke s).tracked_physical_limit = s.tracked_physical_limit ∧
    (initKernelPhase kb ke s).page_count = s.page_count ∧
    (initKernelPhase kb ke s).bitmap.length = s.bitmap.length := by
  unfold initKernelPhase
  split
  · exact mark_range_used_fields s _ _
  · exact ⟨rfl, rfl, rfl, rfl, rfl, rfl⟩

theorem initKernelPhase_free_mono (kb ke : Nat) (s : PmmState) (j : Nat)
    (h : (initKernelPhase kb ke s).is_page_used j = false) : s.is_page_used j = false := by
  revert h
  unfold initKernelPhase
  split
  · exact free_of_mark_used_free s _ _ j
  · exact id

theorem initDtbPhase_fields (db dsz : Nat) (s : PmmState) :
    (initDtbPhase db dsz s).bitmap_physical_base = s.bitmap_physical_base ∧
    (initDtbPhase db dsz s).bitmap_size_bytes = s.bitmap_size_bytes ∧
    (initDtbPhase db dsz s).tracked_physical_base = s.tracked_physical_base ∧
    (initDtbPhase db dsz s).tracked_physical_limit = s.tracked_physical_limit ∧
    (initDtbPhase db dsz s).page_count = s.page_count ∧
    (initDtbPhase db dsz s).bitmap.length = s.bitmap.length := by
  unfold initDtbPhase
  split
  · exact mark_range_used_fields s _ _
  · exact ⟨rfl, rfl, rfl, rfl, rfl, rfl⟩

theorem initDtbPhase_free_mono (db dsz : Nat) (s : PmmState) (j : Nat)
    (h : (initDtbPhase db dsz s).is_page_used j = false) : s.is_page_used j = false := by
  revert h
  unfold initDtbPhase
  split
  · exact free_of_mark_used_free s _ _ j
  · exact id

theorem initBitmapPhase_fields (s : PmmState) :
    (initBitmapPhase s).bitmap_physical_base = s.bitmap_physical_base ∧
    (initBitmapPhase s).bitmap_size_bytes = s.bitmap_size_bytes ∧
    (initBitmapPhase s).tracked_physical_base = s.tracked_physical_base ∧
    (initBitmapPhase s).tracked_physical_limit = s.tracked_physical_limit ∧
    (initBitmapPhase s).page_count = s.page_count ∧
    (initBitmapPhase s).bitmap.length = s.bitmap.length := by
  unfold initBitmapPhase
  split
  · exact mark_range_used_fields s _ _
  · exact ⟨rfl, rfl, rfl, rfl, rfl, rfl⟩

theorem initBitmapPhase_free_mono (s : PmmState) (j : Nat)
    (h : (initBitmapPhase s).is_page_used j = false) : s.is_page_used j = false := by
  revert h
  unfold initBitmapPhase
  split
  · exact free_of_mark_used_free s _ _ j
  · exact id

theorem allocatePage_free_mono (s : PmmState) (j : Nat)
    (h : (AllocatePage s).2.is_page_used j = false) : s.is_page_used j = false := by
  cases hA : AllocatePage s with
  | mk o s2 =>
    rw [hA] at h
    cases o with
    | none =>
      rw [allocatePage_none s s2 hA] at h
      exact h
    | some a =>
      obtain ⟨-, -, -, -, -, -, -, -, idx, hlt, hfree, -, hother, -⟩ :=
        allocatePage_some s a s2 hA
      by_cases hj : j = idx
      · subst hj
        exact hfree
      · rw [hother j hj] at h
        exact h

theorem allocatePage_snd_base_count (s : PmmState) :
    (AllocatePage s).2.tracked_physical_base = s.tracked_physical_base ∧
    (AllocatePage s).2.tracked_physical_limit = s.tracked_physical_limit ∧
    (AllocatePage s).2.page_count = s.page_count := by
  cases hA : AllocatePage s with
  | mk o s2 =>
    cases o with
    | none =>
      rw [allocatePage_none s s2 hA]
      exact ⟨rfl, rfl, rfl⟩
    | some a =>
      obtain ⟨-, -, -, htb, htl, hpc, -, -, -⟩ := allocatePage_some s a s2 hA
      exact ⟨htb, htl, hpc⟩

theorem allocIter_free_mono :
    ∀ (n : Nat) (s : PmmState) (j : Nat),
      (allocIter s n).is_page_used j = false → s.is_page_used j = false := by
  intro n
  induction n with
  | zero => intro s j h; exact h
  | succ m ih =>
    intro s j h
    exact allocatePage_free_mono s j (ih (AllocatePage s).2 j h)

theorem allocIter_base_count :
    ∀ (n : Nat) (s : PmmState),
      (allocIter s n).tracked_physical_base = s.tracked_physical_base ∧
      (allocIter s n).tracked_physical_limit = s.tracked_physical_limit ∧
      (allocIter s n).page_count = s.page_count := by
  intro n
  induction n with
  | zero => intro s; exact ⟨rfl, rfl, rfl⟩
  | succ m ih =>
    intro s
    obtain ⟨h1, h2, h3⟩ := allocatePage_snd_base_count s
    obtain ⟨g1, g2, g3⟩ := ih (AllocatePage s).2
    exact ⟨g1.trans h1, g2.trans h2, g3.trans h3⟩

end Rocinante

namespace Rocinante

theorem initFreePhaseW_fields (bm : BootMemoryMap) (s : PmmState) :
    (initFreePhase bm s).bitmap_physical_base = s.bitmap_physical_base ∧
    (initFreePhase bm s).bitmap_size_bytes = s.bitmap_size_bytes ∧
    (initFreePhase bm s).tracked_physical_base = s.tracked_physical_base ∧
    (initFreePhase bm s).tracked_physical_limit = s.tracked_physical_limit ∧
    (initFreePhase bm s).page_count = s.page_count ∧
    (initFreePhase bm s).bitmap.length = s.bitmap.length :=
  initFreePhase_fields bm bm.regions s

theorem initReservedPhaseW_fields (bm : BootMemoryMap) (s : PmmState) :
    (initReservedPhase bm s).bitmap_physical_base = s.bitmap_physical_base ∧
    (initReservedPhase bm s).bitmap_size_bytes = s.bitmap_size_bytes ∧
    (initReservedPhase bm s).tracked_physical_base = s.tracked_physical_base ∧
    (initReservedPhase bm s).tracked_physical_limit = s.tracked_physical_limit ∧
    (initReservedPhase bm s).page_count = s.page_count ∧
    (initReservedPhase bm s).bitmap.length = s.bitmap.length :=
  initReservedPhase_fields bm bm.regions s

theorem initReservedPhaseW_free_mono (bm : BootMemoryMap) (s : PmmState) (j : Nat)
    (h : (initReservedPhase bm s).is_page_used j = false) : s.is_page_used j = false :=
  initReservedPhase_free_mono bm.regions s j h

theorem initReservedPhaseW_covers (a : Nat) (bm : BootMemoryMap) (s : PmmState)
    (f1 : s.tracked_physical_base % 4096 = 0)
    (f2 : s.tracked_physical_limit = s.tracked_physical_base + s.page_count * 4096)
    (f3 : s.tracked_physical_limit ≤ 2 ^ 64 - 4096)
    (f4 : s.page_count ≤ 8 * s.bitmap.length)
    (f5 : a % 4096 = 0) (f6 : s.tracked_physical_base ≤ a)
    (f7 : a < s.tracked_physical_limit)
    (r : BootMemoryRegion) (hr : r ∈ bm.regions) (hres : r.type = RegionType.Reserved)
    (hov : AddOverflows r.physical_base r.size_bytes = false)
    (hra1 : r.physical_base ≤ a) (hra2 : a < r.physical_base + r.size_bytes)
    (hfree : (initReservedPhase bm s).is_page_used ((a - s.tracked_physical_base) / 4096) = false) :
    False :=
  initReservedPhase_covers a bm.regions s f1 f2 f3 f4 f5 f6 f7 r hr hres hov hra1 hra2 hfree

end Rocinante

namespace Rocinante

/-- C3: for every boot map with which PMM initialization succeeds (and whose
region sizes, kernel range and DTB range do not wrap 64-bit arithmetic), every
physical address returned by a successful `AllocatePage` — after any number of
earlier allocations — is a multiple of 4096, lies in the tracked span, and lies
in no Reserved region, nor in the kernel image, the DTB blob, the bitmap
storage, or physical page `[0, 4096)`. -/
theorem allocations_respect_reservations (boot_map : BootMemoryMap)
    (kb ke db dsz : Nat) (s₀ : PmmState) (n a : Nat)
    (hrov : ∀ r ∈ boot_map.regions, AddOverflows r.physical_base r.size_bytes = false)
    (hkov : AddOverflows kb (ke - kb) = false)
    (hdov : AddOverflows db dsz = false)
    (hdnz : db = 0 → dsz = 0)
    (hinit : InitializeFromBootMemoryMap boot_map kb ke db dsz = some s₀)
    (halloc : (AllocatePage (allocIter s₀ n)).1 = some a) :
    a % 4096 = 0 ∧
    (s₀.tracked_physical_base ≤ a ∧ a < s₀.tracked_physical_limit) ∧
    (∀ r ∈ boot_map.regions, r.type = RegionType.Reserved →
      ¬ (r.physical_base ≤ a ∧ a < r.physical_base + r.size_bytes)) ∧
    (¬ (kb ≤ a ∧ a < ke)) ∧
    (¬ (db ≤ a ∧ a < db + dsz)) ∧
    (¬ (s₀.bitmap_physical_base ≤ a ∧
        a < s₀.bitmap_physical_base + s₀.bitmap_size_bytes)) ∧
    4096 ≤ a := by
  have hk : kPageSizeBytes = 4096 := rfl
  unfold InitializeFromBootMemoryMap at hinit
  cases hsp : computeUsableSpan boot_map.regions with
  | none =>
    rw [hsp] at hinit
    exact Option.noConfusion hinit
  | some p =>
  obtain ⟨umin, umax⟩ := p
  rw [hsp] at hinit
  dsimp only at hinit
  split at hinit
  · exact Option.noConfusion hinit
  split at hinit
  · exact Option.noConfusion hinit
  rename_i hc1 hc2
  split at hinit
  · exact Option.noConfusion hinit
  rename_i s1 hab
  injection hinit with hs₀
  set tb := AlignDown umin kPageSizeBytes with htbdef
  set tl := AlignUp umax kPageSizeBytes with htldef
  set pc := (tl - tb) / kPageSizeBytes with hpcdef
  have htb4 : tb % 4096 = 0 := by
    rw [htbdef, hk, alignDown_4096_eq]
    omega
  have htl4 : tl % 4096 = 0 := by
    rw [htldef, hk, alignUp_4096_eq]
    omega
  have htl64 : tl ≤ 2 ^ 64 - 4096 := by
    rw [htldef, hk, alignUp_4096_eq]
    omega
  have hpc4 : pc = (tl - tb) / 4096 := by rw [hpcdef, hk]
  have hcoh : tl = tb + pc * 4096 := by omega
  unfold PmmState.allocate_bitmap at hab
  split at hab
  · exact Option.noConfusion hab
  split at hab
  · exact Option.noConfusion hab
  split at hab
  · exact Option.noConfusion hab
  rename_i chosen hsearch
  split at hab
  · exact Option.noConfusion hab
  rename_i hnn
  injection hab with hs1
  have hch0 : chosen ≠ 0 ∧ bitmapByteCountAligned pc ≠ 0 := by
    constructor
    · intro h0
      apply hnn
      unfold PmmState.bitmap_is_null
      simp [h0]
    · intro h0
      apply hnn
      unfold PmmState.bitmap_is_null
      simp [h0]
  have hbca : bitmapByteCountAligned pc = ((pc + 7) / 8 + 15) % 2 ^ 64 / 16 * 16 := by
    unfold bitmapByteCountAligned
    exact align16_eq ((pc + 7) / 8)
  have hlen1 : pc ≤ 8 * bitmapByteCountAligned pc := by omega
  have hbov : AddOverflows chosen (bitmapByteCountAligned pc) = false :=
    bitmapSearchRegions_no_overflow (bitmapByteCountAligned pc) kb ke db dsz
      boot_map.regions chosen hsearch
  have e1 : s1.tracked_physical_base = tb := by rw [← hs1]
  have e2 : s1.tracked_physical_limit = tl := by rw [← hs1]
  have e3 : s1.page_count = pc := by rw [← hs1]
  have e4 : s1.bitmap_physical_base = chosen := by rw [← hs1]
  have e5 : s1.bitmap_size_bytes = bitmapByteCountAligned pc := by rw [← hs1]
  have e6 : s1.bitmap.length = bitmapByteCountAligned pc := by
    rw [← hs1]
    simp
  set sF := initFreePhase boot_map s1 with hsF
  set sR := initReservedPhase boot_map sF with hsR
  set sK := initKernelPhase kb ke sR with hsK
  set sD := initDtbPhase db dsz sK with hsD
  set sB := initBitmapPhase sD with hsB
  set sM := initMarkings boot_map kb ke db dsz s1 with hsM
  have hM : sM = sB.mark_range_used 0 4096 := by
    rw [hsM, hsB, hsD, hsK, hsR, hsF]
    rfl
  obtain ⟨q1, q2, q3, q4, q5, q6⟩ := initFreePhaseW_fields boot_map s1
  rw [← hsF] at q1 q2 q3 q4 q5 q6
  obtain ⟨r1, r2, r3, r4, r5, r6⟩ := initReservedPhaseW_fields boot_map sF
  rw [← hsR] at r1 r2 r3 r4 r5 r6
  obtain ⟨k1, k2, k3, k4, k5, k6⟩ := initKernelPhase_fields kb ke sR
  rw [← hsK] at k1 k2 k3 k4 k5 k6
  obtain ⟨d1, d2, d3, d4, d5, d6⟩ := initDtbPhase_fields db dsz sK
  rw [← hsD] at d1 d2 d3 d4 d5 d6
  obtain ⟨b1, b2, b3, b4, b5, b6⟩ := initBitmapPhase_fields sD
  rw [← hsB] at b1 b2 b3 b4 b5 b6
  obtain ⟨m1, m2, m3, m4, m5, m6⟩ := mark_range_used_fields sB 0 4096
  rw [← hM] at m1 m2 m3 m4 m5 m6
  have u1 : s₀.tracked_physical_base = tb := by
    rw [← hs₀]
    show sM.tracked_physical_base = tb
    omega
  have u2 : s₀.tracked_physical_limit = tl := by
    rw [← hs₀]
    show sM.tracked_physical_limit = tl
    omega
  have u3 : s₀.page_count = pc := by
    rw [← hs₀]
    show sM.page_count = pc
    omega
  have u4 : s₀.bitmap_physical_base = chosen := by
    rw [← hs₀]
    show sM.bitmap_physical_base = chosen
    omega
  have u5 : s₀.bitmap_size_bytes = bitmapByteCountAligned pc := by
    rw [← hs₀]
    show sM.bitmap_size_bytes = bitmapByteCountAligned pc
    omega
  have ub : s₀.bitmap = sM.bitmap := by rw [← hs₀]
  have uip : ∀ j, s₀.is_page_used j = sM.is_page_used j := fun j =>
    is_page_used_congr s₀ sM j (by omega) (by omega) ub
  cases hA : AllocatePage (allocIter s₀ n) with
  | mk o s2 =>
  rw [hA] at halloc
  have ho : o = some a := halloc
  subst ho
  obtain ⟨-, -, -, -, -, -, -, -, idx, hidx, hfreest, haddr, -, -⟩ :=
    allocatePage_some (allocIter s₀ n) a s2 hA
  obtain ⟨v1, v2, v3⟩ := allocIter_base_count n s₀
  have hfree0 : s₀.is_page_used idx = false := allocIter_free_mono n s₀ idx hfreest
  have hfreeM : sM.is_page_used idx = false := by
    rw [← uip idx]
    exact hfree0
  rw [hk, v1, u1] at haddr
  rw [v3, u3] at hidx
  have hfreeB : sB.is_page_used idx = false := by
    apply free_of_mark_used_free sB 0 4096 idx
    rw [← hM]
    exact hfreeM
  have hfreeD : sD.is_page_used idx = false := by
    apply initBitmapPhase_free_mono sD idx
    rw [← hsB]
    exact hfreeB
  have hfreeK : sK.is_page_used idx = false := by
    apply initDtbPhase_free_mono db dsz sK idx
    rw [← hsD]
    exact hfreeD
  have hfreeR : sR.is_page_used idx = false := by
    apply initKernelPhase_free_mono kb ke sR idx
    rw [← hsK]
    exact hfreeK
  have hidxa : idx = (a - tb) / 4096 := by omega
  have hcommon : ∀ (X : PmmState), X.tracked_physical_base = tb →
      X.tracked_physical_limit = tl → X.page_count = pc →
      X.bitmap.length = bitmapByteCountAligned pc →
      ∀ pb sz, AddOverflows pb sz = false → pb ≤ a → a < pb + sz →
      (X.mark_range_used pb sz).is_page_used idx = true := by
    intro X x1 x2 x3 x4 pb sz hovX hpa1 hpa2
    have hidx2 : idx = (a - X.tracked_physical_base) / 4096 := by omega
    rw [hidx2]
    exact mark_range_used_covers X pb sz a (by omega) (by omega) (by omega) (by omega)
      hovX (by omega) hpa1 hpa2 (by omega) (by omega)
  have hal : a % 4096 = 0 := by omega
  refine ⟨hal, ⟨by omega, by omega⟩, ?_, ?_, ?_, ?_, ?_⟩
  · intro r hr hres hcon
    obtain ⟨hr1, hr2⟩ := hcon
    refine initReservedPhaseW_covers a boot_map sF (by omega) (by omega) (by omega)
      (by omega) hal (by omega) (by omega) r hr hres (hrov r hr) hr1 hr2 ?_
    have hidx3 : (a - sF.tracked_physical_base) / 4096 = idx := by omega
    rw [hidx3, ← hsR]
    exact hfreeR
  · intro hcon
    obtain ⟨hk1, hk2⟩ := hcon
    have hkk : ke > kb := by omega
    have hKeq : sK = sR.mark_range_used kb (ke - kb) := by
      rw [hsK]
      unfold initKernelPhase
      rw [if_pos hkk]
    have hused := hcommon sR (by omega) (by omega) (by omega) (by omega)
      kb (ke - kb) hkov hk1 (by omega)
    rw [← hKeq] at hused
    rw [hfreeK] at hused
    exact Bool.noConfusion hused
  · intro hcon
    obtain ⟨hd1h, hd2h⟩ := hcon
    have hdsznz : dsz ≠ 0 := by omega
    have hdbnz : db ≠ 0 := fun h0 => hdsznz (hdnz h0)
    have hDeq : sD = sK.mark_range_used db dsz := by
      rw [hsD]
      unfold initDtbPhase
      rw [if_pos ⟨hdbnz, hdsznz⟩]
    have hused := hcommon sK (by omega) (by omega) (by omega) (by omega)
      db dsz hdov hd1h hd2h
    rw [← hDeq] at hused
    rw [hfreeD] at hused
    exact Bool.noConfusion hused
  · intro hcon
    obtain ⟨hb1h, hb2h⟩ := hcon
    rw [u4] at hb1h
    rw [u4, u5] at hb2h
    have hd4 : sD.bitmap_physical_base = chosen := by omega
    have hd5 : sD.bitmap_size_bytes = bitmapByteCountAligned pc := by omega
    have hBeq : sB = sD.mark_range_used chosen (bitmapByteCountAligned pc) := by
      rw [hsB]
      unfold initBitmapPhase
      rw [if_pos (show sD.bitmap_physical_base ≠ 0 ∧ sD.bitmap_size_bytes ≠ 0 by
        constructor <;> omega), hd4, hd5]
    have hused := hcommon sD (by omega) (by omega) (by omega) (by omega)
      chosen (bitmapByteCountAligned pc) hbov hb1h hb2h
    rw [← hBeq] at hused
    rw [hfreeB] at hused
    exact Bool.noConfusion hused
  · by_contra hlt
    push_neg at hlt
    have hused := hcommon sB (by omega) (by omega) (by omega) (by omega)
      0 4096 (by decide) (by omega) (by omega)
    rw [← hM] at hused
    rw [hfreeM] at hused
    exact Bool.noConfusion hused

end Rocinante

namespace Rocinante

/-- Witness for C3: in the concrete reservation scenario the first allocation
returns 0x105000, which is page-aligned, inside the tracked span, and outside
the Reserved region, the kernel, the DTB, the bitmap storage, and page 0. -/
theorem allocations_respect_reservations_witness :
    0x105000 % 4096 = 0 ∧
    (scenarioS0.tracked_physical_base ≤ 0x105000 ∧
      0x105000 < scenarioS0.tracked_physical_limit) ∧
    (∀ r ∈ scenarioBootMap.regions, r.type = RegionType.Reserved →
      ¬ (r.physical_base ≤ 0x105000 ∧ 0x105000 < r.physical_base + r.size_bytes)) ∧
    (¬ (0x00100000 ≤ 0x105000 ∧ 0x105000 < 0x00104000)) ∧
    (¬ (0x0010C000 ≤ 0x105000 ∧ 0x105000 < 0x0010C000 + 0x1000)) ∧
    (¬ (scenarioS0.bitmap_physical_base ≤ 0x105000 ∧
        0x105000 < scenarioS0.bitmap_physical_base + scenarioS0.bitmap_size_bytes)) ∧
    4096 ≤ 0x105000 :=
  allocations_respect_reservations scenarioBootMap 0x00100000 0x00104000 0x0010C000 0x1000
    scenarioS0 0 0x105000 (by decide) (by decide) (by decide) (by decide) (by decide) (by decide)

end Rocinante

namespace Rocinante

/-! ## C1: map / translate / unmap round trip -/

theorem readEntry_writeEntry (m : Mem) (u j v t i : Nat) :
    readEntry (writeEntry m u j v) t i =
      if t + 8 * i = u + 8 * j then v else readEntry m t i := rfl

theorem readEntry_zeroPage (m : Mem) (base t i : Nat) :
    readEntry (zeroPage m base) t i =
      if base ≤ t + 8 * i ∧ t + 8 * i < base + kPageSizeBytes then 0
      else readEntry m t i := rfl

theorem index_lt_512 (va l : Nat) : IndexFromVirtualAddressAtLevel va l < 512 := by
  have h : IndexFromVirtualAddressAtLevel va l ≤ 511 := by
    unfold IndexFromVirtualAddressAtLevel IndexFromVirtualAddress IndexMaskForLevel
    exact Nat.and_le_right
  omega

theorem mask_testBit_ge_12 (mask k : Nat) (h : mask % 4096 = 0)
    (hk : mask.testBit k = true) : 12 ≤ k := by
  by_contra hlt
  have h4 : mask &&& 4095 = 0 := by
    have : (4095 : Nat) = 2 ^ 12 - 1 := rfl
    rw [this, Nat.and_pow_two_sub_one_eq_mod]
    omega
  have hbit := (eq_zero_iff_testBit _).mp h4 k
  rw [Nat.testBit_and, hk] at hbit
  have h4095 : (4095 : Nat) = 2 ^ 12 - 1 := rfl
  rw [h4095, Nat.testBit_two_pow_sub_one] at hbit
  simp at hbit
  omega

theorem clean_mod_4096 (u mask : Nat) (hmask : mask % 4096 = 0)
    (hu : u &&& mask = u) : u % 4096 = 0 := by
  have h : u &&& 4095 = 0 := by
    apply (eq_zero_iff_testBit _).mpr
    intro k
    rw [Nat.testBit_and]
    by_cases hk : u.testBit k = true
    · rw [← hu, Nat.testBit_and] at hk
      have hmk : mask.testBit k = true := by
        revert hk
        cases mask.testBit k <;> simp
      have h12 := mask_testBit_ge_12 mask k hmask hmk
      have h4095 : (4095 : Nat) = 2 ^ 12 - 1 := rfl
      rw [h4095, Nat.testBit_two_pow_sub_one]
      simp
      omega
    · rw [Bool.not_eq_true] at hk
      rw [hk]
      simp
  have h4095 : (4095 : Nat) = 2 ^ 12 - 1 := rfl
  rw [h4095, Nat.and_pow_two_sub_one_eq_mod] at h
  omega

theorem or_and_mask_eq (base flags mask : Nat) (hb : base &&& mask = base)
    (hf : flags &&& mask = 0) : (base ||| flags) &&& mask = base := by
  apply Nat.eq_of_testBit_eq
  intro k
  have hbk := congrArg (fun x => x.testBit k) hb
  have hfk := congrArg (fun x => x.testBit k) hf
  simp only [Nat.testBit_and, Nat.testBit_or, Nat.zero_testBit] at hbk hfk ⊢
  cases hbase : base.testBit k <;> cases hflag : flags.testBit k <;>
    cases hmask : mask.testBit k <;> simp_all

theorem encodeTablePointer_present (new mask : Nat) :
    EntryIsPresent (EncodeTablePointer new mask) = true := by
  unfold EntryIsPresent EncodeTablePointer
  have h : ((new &&& mask ||| PteBits.kPresent ||| PteBits.kValid) &&&
      PteBits.kPresent).testBit 7 = true := by
    have h7 : PteBits.kPresent = 2 ^ 7 := rfl
    simp [Nat.testBit_and, Nat.testBit_or, h7, Nat.testBit_two_pow]
    exact ⟨Or.inl (Or.inr (by decide)), by decide⟩
  simp only [ne_eq, decide_not]
  have : (new &&& mask ||| PteBits.kPresent ||| PteBits.kValid) &&& PteBits.kPresent ≠ 0 := by
    intro h0
    rw [h0] at h
    simp [Nat.zero_testBit] at h
  simp [this]

theorem entryIsPresent_zero : EntryIsPresent 0 = false := by decide

theorem encodeTablePointer_base (new mask : Nat) (hmask : mask % 4096 = 0)
    (hclean : new &&& mask = new) :
    EntryPhysicalPageBase (EncodeTablePointer new mask) mask = new := by
  unfold EntryPhysicalPageBase EncodeTablePointer
  have hflags : (PteBits.kPresent ||| PteBits.kValid) &&& mask = 0 := by
    apply (eq_zero_iff_testBit _).mpr
    intro k
    rw [Nat.testBit_and]
    by_cases hk : mask.testBit k = true
    · have h12 := mask_testBit_ge_12 mask k hmask hk
      have hpv : (PteBits.kPresent ||| PteBits.kValid : Nat) = 129 := rfl
      rw [hpv]
      have : (129 : Nat) < 2 ^ k :=
        lt_of_lt_of_le (by norm_num) (Nat.pow_le_pow_right (by omega) h12)
      rw [Nat.testBit_lt_two_pow this]
      simp
    · rw [Bool.not_eq_true] at hk
      rw [hk]
      simp
  have hassoc : new &&& mask ||| PteBits.kPresent ||| PteBits.kValid =
      (new &&& mask) ||| (PteBits.kPresent ||| PteBits.kValid) := by
    rw [Nat.or_assoc]
  rw [hassoc]
  rw [or_and_mask_eq (new &&& mask) _ mask (by rw [Nat.and_assoc, Nat.and_self]) hflags]
  exact hclean

end Rocinante

namespace Rocinante

theorem contains_mem {l : List Nat} {a : Nat} (h : l.contains a = true) : a ∈ l := by
  simpa using h

theorem mem_contains {l : List Nat} {a : Nat} (h : a ∈ l) : l.contains a = true := by
  simpa using h

theorem leafFlags_eq (perms : PagePermissions) :
    LeafFlagsForPermissions perms =
      (if perms.execute = ExecutePermissions.NoExecute then
        (if perms.access = AccessPermissions.ReadWrite then
          (if perms.global then
            0 ||| PteBits.kPresent ||| PteBits.kValid ||| PrivilegeLevelKernelBits |||
              CacheBitsForMode perms.cache ||| PteBits.kGlobal
           else
            0 ||| PteBits.kPresent ||| PteBits.kValid ||| PrivilegeLevelKernelBits |||
              CacheBitsForMode perms.cache) |||
            PteBits.kWrite ||| PteBits.kDirty ||| PteBits.kModified
         else
          (if perms.global then
            0 ||| PteBits.kPresent ||| PteBits.kValid ||| PrivilegeLevelKernelBits |||
              CacheBitsForMode perms.cache ||| PteBits.kGlobal
           else
            0 ||| PteBits.kPresent ||| PteBits.kValid ||| PrivilegeLevelKernelBits |||
              CacheBitsForMode perms.cache)) ||| PteBits.kNoExecute
       else
        (if perms.access = AccessPermissions.ReadWrite then
          (if perms.global then
            0 ||| PteBits.kPresent ||| PteBits.kValid ||| PrivilegeLevelKernelBits |||
              CacheBitsForMode perms.cache ||| PteBits.kGlobal
           else
            0 ||| PteBits.kPresent ||| PteBits.kValid ||| PrivilegeLevelKernelBits |||
              CacheBitsForMode perms.cache) |||
            PteBits.kWrite ||| PteBits.kDirty ||| PteBits.kModified
         else
          (if perms.global then
            0 ||| PteBits.kPresent ||| PteBits.kValid ||| PrivilegeLevelKernelBits |||
              CacheBitsForMode perms.cache ||| PteBits.kGlobal
           else
            0 ||| PteBits.kPresent ||| PteBits.kValid ||| PrivilegeLevelKernelBits |||
              CacheBitsForMode perms.cache))) := rfl

theorem one_shiftLeft_testBit (n k : Nat) (h : ¬ n = k) : (1 <<< n).testBit k = false := by
  rw [one_shiftLeft_eq, Nat.testBit_two_pow]
  simpa using h

theorem priv_testBit (k : Nat) : PrivilegeLevelKernelBits.testBit k = false := by
  rw [show PrivilegeLevelKernelBits = 0 from rfl]
  exact Nat.zero_testBit k

theorem leafFlags_testBit_mid (perms : PagePermissions) (k : Nat) (h10 : 10 ≤ k)
    (h62 : k ≠ 62) : (LeafFlagsForPermissions perms).testBit k = false := by
  have h1 : CacheBitsForMode perms.cache ≤ PteBits.kCacheMask := by
    unfold CacheBitsForMode
    exact Nat.and_le_right
  have h2 : PteBits.kCacheMask = 48 := rfl
  have h3 : (1024 : Nat) ≤ 2 ^ k :=
    le_trans (by norm_num) (Nat.pow_le_pow_right (by omega) h10)
  have hcache : CacheBitsForMode perms.cache < 2 ^ k := by omega
  rw [leafFlags_eq]
  split <;> split <;> split <;>
    (simp only [Nat.testBit_or, Bool.or_eq_false_iff]
     repeat' apply And.intro) <;>
    first
      | exact Nat.zero_testBit k
      | exact one_shiftLeft_testBit 0 k (by omega)
      | exact one_shiftLeft_testBit 1 k (by omega)
      | exact one_shiftLeft_testBit 6 k (by omega)
      | exact one_shiftLeft_testBit 7 k (by omega)
      | exact one_shiftLeft_testBit 8 k (by omega)
      | exact one_shiftLeft_testBit 9 k (by omega)
      | exact one_shiftLeft_testBit 62 k (by omega)
      | exact priv_testBit k
      | exact Nat.testBit_lt_two_pow hcache

theorem kPresent_testBit7 : PteBits.kPresent.testBit 7 = true := by decide

theorem leafFlags_testBit7 (perms : PagePermissions) :
    (LeafFlagsForPermissions perms).testBit 7 = true := by
  rw [leafFlags_eq]
  split <;> split <;> split <;>
    simp [Nat.testBit_or, kPresent_testBit7]

theorem entryIsPresent_of_testBit (e : Nat) (h : e.testBit 7 = true) :
    EntryIsPresent e = true := by
  unfold EntryIsPresent
  have h1 : (e &&& PteBits.kPresent).testBit 7 = true := by
    have h7 : PteBits.kPresent.testBit 7 = true := by decide
    simp [Nat.testBit_and, h7, h]
  have h2 : e &&& PteBits.kPresent ≠ 0 := by
    intro h0
    rw [h0] at h1
    simp [Nat.zero_testBit] at h1
  simp [h2]

theorem encodeLeafEntry_present (pa mask : Nat) (perms : PagePermissions) :
    EntryIsPresent (EncodeLeafEntry pa mask perms) = true := by
  apply entryIsPresent_of_testBit
  unfold EncodeLeafEntry
  simp [Nat.testBit_or, leafFlags_testBit7]

theorem ppbmask_testBit (p k : Nat) (h13 : 13 ≤ p) (h61 : p ≤ 61) :
    (PhysicalPageBaseMaskFromBits p).testBit k = (decide (12 ≤ k) && decide (k < p)) := by
  unfold PhysicalPageBaseMaskFromBits
  rw [if_neg (by simp only [show kMaxEncodablePhysicalAddressBits = 61 from by decide]; omega),
    if_neg (by simp only [show kPageShiftBits = 12 from rfl]; omega),
    Nat.testBit_and, maskFromBits_testBit p k (by omega), kPageBaseMask_testBit]
  by_cases h1 : 12 ≤ k <;> by_cases h2 : k < p <;> by_cases h3 : k < 64 <;>
    simp [h1, h2, h3] <;> omega

theorem and_pageBaseMask_mod (x : Nat) : (x &&& kPageBaseMask) % 4096 = 0 := by
  have h : kPageBaseMask = (2 ^ 64 - 1) ^^^ (2 ^ 12 - 1) := by
    unfold kPageBaseMask kPageOffsetMask kPageShiftBits
    norm_num [Nat.shiftLeft_eq]
  rw [h, and_notMask_eq x 12 (by omega)]
  omega

theorem ppbmask_mod_4096 (p : Nat) : PhysicalPageBaseMaskFromBits p % 4096 = 0 := by
  unfold PhysicalPageBaseMaskFromBits
  split
  · rfl
  split
  · rfl
  exact and_pageBaseMask_mod _

theorem encodeLeafEntry_base (pa mask : Nat) (perms : PagePermissions) (palen : Nat)
    (hm : mask = PhysicalPageBaseMaskFromBits palen) (h13 : 13 ≤ palen) (h61 : palen ≤ 61)
    (hpa_clean : pa &&& mask = pa) :
    EntryPhysicalPageBase (EncodeLeafEntry pa mask perms) mask = pa := by
  unfold EntryPhysicalPageBase EncodeLeafEntry
  have hflags : LeafFlagsForPermissions perms &&& mask = 0 := by
    apply (eq_zero_iff_testBit _).mpr
    intro k
    rw [Nat.testBit_and]
    by_cases hk : mask.testBit k = true
    · have hk' := hk
      rw [hm, ppbmask_testBit palen k h13 h61] at hk'
      simp at hk'
      rw [leafFlags_testBit_mid perms k (by omega) (by omega)]
      simp
    · rw [Bool.not_eq_true] at hk
      rw [hk]
      simp
  rw [or_and_mask_eq (pa &&& mask) _ mask (by rw [Nat.and_assoc, Nat.and_self]) hflags]
  exact hpa_clean

theorem subTree_zero (m : Mem) (mask t : Nat) (S : List Nat) :
    subTree m mask t 0 S = S.contains t := rfl

theorem subTree_succ (m : Mem) (mask t l : Nat) (S : List Nat)
    (h : subTree m mask t (l + 1) S = true) :
    S.contains t = true ∧ ∀ i, i < 512 →
      EntryIsPresent (readEntry m t i) = true →
      (EntryPhysicalPageBase (readEntry m t i) mask = 0 ∨
        subTree m mask (EntryPhysicalPageBase (readEntry m t i) mask) l S = true) := by
  have h' : (S.contains t && (List.range kEntriesPerTable).all fun i =>
      !EntryIsPresent (readEntry m t i) ||
        (EntryPhysicalPageBase (readEntry m t i) mask == 0 ||
         subTree m mask (EntryPhysicalPageBase (readEntry m t i) mask) l S)) = true := h
  rw [Bool.and_eq_true] at h'
  obtain ⟨h1, h2⟩ := h'
  refine ⟨h1, fun i hi hp => ?_⟩
  rw [List.all_eq_true] at h2
  have h3 := h2 i (by
    simp only [List.mem_range, show kEntriesPerTable = 512 from rfl]
    exact hi)
  rw [hp] at h3
  simp only [Bool.not_true, Bool.false_or, Bool.or_eq_true, beq_iff_eq] at h3
  exact h3

theorem subTree_of_no_present (m : Mem) (mask t l : Nat) (S : List Nat)
    (hc : S.contains t = true)
    (h : ∀ i, i < 512 → EntryIsPresent (readEntry m t i) = false) :
    subTree m mask t l S = true := by
  cases l with
  | zero => exact hc
  | succ l =>
    show (S.contains t && (List.range kEntriesPerTable).all fun i =>
      !EntryIsPresent (readEntry m t i) ||
        (EntryPhysicalPageBase (readEntry m t i) mask == 0 ||
         subTree m mask (EntryPhysicalPageBase (readEntry m t i) mask) l S)) = true
    rw [Bool.and_eq_true]
    refine ⟨hc, ?_⟩
    rw [List.all_eq_true]
    intro i hi
    have hi' : i < 512 := by
      simpa [List.mem_range, show kEntriesPerTable = 512 from rfl] using hi
    rw [h i hi']
    simp

theorem freshOK_spec (s : PmmState) (mask : Nat) (S : List Nat) (i : Nat)
    (h : freshOK s mask S = true) (hi : i < s.page_count)
    (hfree : s.is_page_used i = false) :
    S.contains (s.page_index_to_physical i) = false ∧
    s.page_index_to_physical i ≠ 0 ∧
    s.page_index_to_physical i &&& mask = s.page_index_to_physical i := by
  unfold freshOK at h
  rw [List.all_eq_true] at h
  have h2 := h i (by simpa [List.mem_range] using hi)
  rw [hfree] at h2
  simp only [Bool.false_or, Bool.and_eq_true, Bool.not_eq_true', bne_iff_ne, ne_eq,
    beq_iff_eq] at h2
  exact ⟨h2.1.1, h2.1.2, h2.2⟩

end Rocinante

namespace Rocinante

theorem walkToLeafTable_succ (m : Mem) (t va mask l : Nat) :
    walkToLeafTable m t va mask (l + 1) =
      (if ¬ EntryIsPresent (readEntry m t (IndexFromVirtualAddressAtLevel va (l + 1))) then
        none
      else if EntryPhysicalPageBase (readEntry m t (IndexFromVirtualAddressAtLevel va (l + 1)))
          mask = 0 then none
      else walkToLeafTable m
        (EntryPhysicalPageBase (readEntry m t (IndexFromVirtualAddressAtLevel va (l + 1))) mask)
        va mask l) := rfl

theorem walkToLeafTable_zero (m : Mem) (t va mask : Nat) :
    walkToLeafTable m t va mask 0 = some t := rfl

theorem enlt_present (pmm : PmmState) (m : Mem) (t idx mask : Nat)
    (h : EntryIsPresent (readEntry m t idx) = true) :
    EnsureNextLevelTable pmm m t idx mask =
      (some (EntryPhysicalPageBase (readEntry m t idx) mask), pmm, m) := by
  unfold EnsureNextLevelTable
  rw [if_pos h]

theorem enlt_absent_alloc (pmm pmm2 : PmmState) (m : Mem) (t idx mask new : Nat)
    (hp : EntryIsPresent (readEntry m t idx) = false)
    (hA : AllocatePage pmm = (some new, pmm2))
    (hal : IsPageAligned new = true) :
    EnsureNextLevelTable pmm m t idx mask =
      (some new, pmm2,
        writeEntry (zeroPage m new) t idx (EncodeTablePointer new mask)) := by
  unfold EnsureNextLevelTable
  rw [if_neg (by simp [hp]), hA]
  dsimp only
  rw [if_neg (by simp [hal])]

theorem enlt_absent_fail (pmm pmm2 : PmmState) (m : Mem) (t idx mask : Nat)
    (hp : EntryIsPresent (readEntry m t idx) = false)
    (hA : AllocatePage pmm = (none, pmm2)) :
    EnsureNextLevelTable pmm m t idx mask = (none, pmm2, m) := by
  unfold EnsureNextLevelTable
  rw [if_neg (by simp [hp]), hA]

theorem enlt_absent_misaligned (pmm pmm2 : PmmState) (m : Mem) (t idx mask new : Nat)
    (hp : EntryIsPresent (readEntry m t idx) = false)
    (hA : AllocatePage pmm = (some new, pmm2))
    (hal : IsPageAligned new = false) :
    EnsureNextLevelTable pmm m t idx mask = (none, pmm2, m) := by
  unfold EnsureNextLevelTable
  rw [if_neg (by simp [hp]), hA]
  dsimp only
  rw [if_pos (by simp [hal])]

theorem mapWalk_succ (pmm : PmmState) (m : Mem) (t va mask l : Nat) :
    mapWalk pmm m t va mask (l + 1) =
      (match EnsureNextLevelTable pmm m t (IndexFromVirtualAddressAtLevel va (l + 1)) mask with
       | (none, pmm', m') => (none, pmm', m')
       | (some next_table, pmm', m') =>
         if next_table = 0 then (none, pmm', m')
         else mapWalk pmm' m' next_table va mask l) := rfl

theorem mapWalk_zero (pmm : PmmState) (m : Mem) (t va mask : Nat) :
    mapWalk pmm m t va mask 0 = (some t, pmm, m) := rfl

/-- Writing any value into a slot that was not present cannot disturb a
successful read-only walk. -/
theorem walk_preserved_write_nonpresent (va mask : Nat) :
    ∀ (l : Nat) (m' : Mem) (t T i0 v : Nat),
      walkToLeafTable m' t va mask l = some T →
      EntryIsPresent (readEntry m' T i0) = false →
      walkToLeafTable (writeEntry m' T i0 v) t va mask l = some T := by
  intro l
  induction l with
  | zero =>
    intro m' t T i0 v hw _
    have ht : t = T := by
      have := hw
      rw [walkToLeafTable_zero] at this
      injection this
    subst ht
    exact walkToLeafTable_zero _ _ _ _
  | succ l ih =>
    intro m' t T i0 v hw hnp
    rw [walkToLeafTable_succ] at hw
    by_cases hp : EntryIsPresent (readEntry m' t (IndexFromVirtualAddressAtLevel va (l + 1))) = true
    swap
    · rw [if_pos (by simp_all)] at hw
      exact Option.noConfusion hw
    rw [if_neg (by simp [hp])] at hw
    by_cases hz : EntryPhysicalPageBase
        (readEntry m' t (IndexFromVirtualAddressAtLevel va (l + 1))) mask = 0
    · rw [if_pos hz] at hw
      exact Option.noConfusion hw
    rw [if_neg hz] at hw
    have haddr : t + 8 * IndexFromVirtualAddressAtLevel va (l + 1) ≠ T + 8 * i0 := by
      intro he
      have : readEntry m' t (IndexFromVirtualAddressAtLevel va (l + 1)) =
          readEntry m' T i0 := by
        unfold readEntry
        rw [he]
      rw [this, hnp] at hp
      exact Bool.noConfusion hp
    have hsame : readEntry (writeEntry m' T i0 v) t
        (IndexFromVirtualAddressAtLevel va (l + 1)) =
        readEntry m' t (IndexFromVirtualAddressAtLevel va (l + 1)) := by
      rw [readEntry_writeEntry, if_neg haddr]
    rw [walkToLeafTable_succ, hsame, if_neg (by simp [hp]), if_neg hz]
    exact ih m' _ T i0 v hw hnp

/-- Zeroing the leaf slot found by a successful walk makes every subsequent
walk along the same virtual address fail or land on the same table. -/
theorem walk_after_write_zero (va mask : Nat) :
    ∀ (l : Nat) (m2 : Mem) (t T i0 : Nat),
      walkToLeafTable m2 t va mask l = some T →
      walkToLeafTable (writeEntry m2 T i0 0) t va mask l = none ∨
      walkToLeafTable (writeEntry m2 T i0 0) t va mask l = some T := by
  intro l
  induction l with
  | zero =>
    intro m2 t T i0 hw
    have ht : t = T := by
      have := hw
      rw [walkToLeafTable_zero] at this
      injection this
    subst ht
    right
    exact walkToLeafTable_zero _ _ _ _
  | succ l ih =>
    intro m2 t T i0 hw
    rw [walkToLeafTable_succ] at hw
    by_cases hp : EntryIsPresent (readEntry m2 t (IndexFromVirtualAddressAtLevel va (l + 1))) = true
    swap
    · rw [if_pos (by simp_all)] at hw
      exact Option.noConfusion hw
    rw [if_neg (by simp [hp])] at hw
    by_cases hz : EntryPhysicalPageBase
        (readEntry m2 t (IndexFromVirtualAddressAtLevel va (l + 1))) mask = 0
    · rw [if_pos hz] at hw
      exact Option.noConfusion hw
    rw [if_neg hz] at hw
    by_cases haddr : t + 8 * IndexFromVirtualAddressAtLevel va (l + 1) = T + 8 * i0
    · left
      have hread : readEntry (writeEntry m2 T i0 0) t
          (IndexFromVirtualAddressAtLevel va (l + 1)) = 0 := by
        rw [readEntry_writeEntry, if_pos haddr]
      rw [walkToLeafTable_succ, hread, if_pos (by simp [entryIsPresent_zero])]
    · have hsame : readEntry (writeEntry m2 T i0 0) t
          (IndexFromVirtualAddressAtLevel va (l + 1)) =
          readEntry m2 t (IndexFromVirtualAddressAtLevel va (l + 1)) := by
        rw [readEntry_writeEntry, if_neg haddr]
      rw [walkToLeafTable_succ, hsame, if_neg (by simp [hp]), if_neg hz]
      exact ih m2 _ T i0 hw

/-- Allocation maintains freshness: the handed-out page joins the table set
and every still-free page avoids the enlarged set. -/
theorem freshOK_after_alloc (pmm pmm2 : PmmState) (mask new : Nat) (S : List Nat)
    (hA : AllocatePage pmm = (some new, pmm2))
    (hf : freshOK pmm mask S = true)
    (hlen : pmm.page_count ≤ 8 * pmm.bitmap.length) :
    freshOK pmm2 mask (new :: S) = true := by
  obtain ⟨-, -, -, htb, -, hpc, -, -, idxn, hidxn, hfreen, hnew, hother, hset⟩ :=
    allocatePage_some pmm new pmm2 hA
  unfold freshOK
  rw [List.all_eq_true]
  intro i hi
  rw [List.mem_range] at hi
  rw [hpc] at hi
  cases hu : pmm2.is_page_used i with
  | true => simp
  | false =>
    have hine : i ≠ idxn := by
      intro he
      subst he
      rw [hset (by omega)] at hu
      exact Bool.noConfusion hu
    have hfi : pmm.is_page_used i = false := by
      rw [← hother i hine]
      exact hu
    obtain ⟨hc, hnz, hcl⟩ := freshOK_spec pmm mask S i hf hi hfi
    have hphys : pmm2.page_index_to_physical i = pmm.page_index_to_physical i := by
      unfold PmmState.page_index_to_physical
      rw [htb]
    have hne_new : pmm.page_index_to_physical i ≠ new := by
      rw [hnew]
      unfold PmmState.page_index_to_physical
      have hps : kPageSizeBytes = 4096 := rfl
      rw [hps]
      omega
    simp only [hphys, hu, Bool.false_or, Bool.and_eq_true, Bool.not_eq_true',
      bne_iff_ne, ne_eq, beq_iff_eq]
    refine ⟨⟨?_, hnz⟩, hcl⟩
    rw [List.contains_cons]
    simp only [Bool.or_eq_false_iff]
    constructor
    · simp [hne_new]
    · exact hc

end Rocinante

namespace Rocinante

/-- Soundness of the mutating map walk: when it reaches a leaf table, the
read-only walk over the resulting memory reaches the same leaf table, and no
present entry of a pre-existing table page changes. -/
theorem mapWalk_sound (va mask : Nat) (hmask0 : mask % 4096 = 0) :
    ∀ (l : Nat) (pmm : PmmState) (m : Mem) (t : Nat) (S : List Nat)
      (T : Nat) (pmm' : PmmState) (m' : Mem),
      (∀ u ∈ S, u ≠ 0 ∧ u &&& mask = u) →
      subTree m mask t l S = true →
      freshOK pmm mask S = true →
      pmm.page_count ≤ 8 * pmm.bitmap.length →
      mapWalk pmm m t va mask l = (some T, pmm', m') →
      walkToLeafTable m' t va mask l = some T ∧
      (∀ u ∈ S, ∀ i, i < 512 → EntryIsPresent (readEntry m u i) = true →
        readEntry m' u i = readEntry m u i) := by
  intro l
  induction l with
  | zero =>
    intro pmm m t S T pmm' m' hS hsub hf hlen hw
    rw [mapWalk_zero] at hw
    injection hw with h1 h2
    injection h2 with h2 h3
    injection h1 with h1
    subst h1
    subst h3
    exact ⟨walkToLeafTable_zero _ _ _ _, fun u _ i _ _ => rfl⟩
  | succ l ih =>
    intro pmm m t S T pmm' m' hS hsub hf hlen hw
    rw [mapWalk_succ] at hw
    obtain ⟨hcont, hinner⟩ := subTree_succ m mask t l S hsub
    have htmem : t ∈ S := contains_mem hcont
    have htfacts := hS t htmem
    have htal : t % 4096 = 0 := clean_mod_4096 t mask hmask0 htfacts.2
    have hidx := index_lt_512 va (l + 1)
    by_cases hp : EntryIsPresent (readEntry m t (IndexFromVirtualAddressAtLevel va (l + 1))) = true
    · -- the next-level table already exists
      rw [enlt_present pmm m t _ mask hp] at hw
      dsimp only at hw
      by_cases hz : EntryPhysicalPageBase
          (readEntry m t (IndexFromVirtualAddressAtLevel va (l + 1))) mask = 0
      · rw [if_pos hz] at hw
        exact Option.noConfusion (congrArg Prod.fst hw)
      rw [if_neg hz] at hw
      have hsubnext : subTree m mask
          (EntryPhysicalPageBase (readEntry m t (IndexFromVirtualAddressAtLevel va (l + 1))) mask)
          l S = true := by
        rcases hinner _ hidx hp with h0 | hs
        · exact absurd h0 hz
        · exact hs
      obtain ⟨hwalk, hpres⟩ := ih pmm m _ S T pmm' m' hS hsubnext hf hlen hw
      refine ⟨?_, hpres⟩
      have hsame : readEntry m' t (IndexFromVirtualAddressAtLevel va (l + 1)) =
          readEntry m t (IndexFromVirtualAddressAtLevel va (l + 1)) :=
        hpres t htmem _ hidx hp
      rw [walkToLeafTable_succ, hsame, if_neg (by simp [hp]), if_neg hz]
      exact hwalk
    · -- a fresh table page is allocated
      rw [Bool.not_eq_true] at hp
      cases hA : AllocatePage pmm with
      | mk oalloc pmm2 =>
      cases oalloc with
      | none =>
        rw [enlt_absent_fail pmm pmm2 m t _ mask hp hA] at hw
        exact Option.noConfusion (congrArg Prod.fst hw)
      | some new =>
        obtain ⟨-, -, -, htb, -, hpc, hblen, -, idxn, hidxn, hfreen, hnew, hother, hset⟩ :=
          allocatePage_some pmm new pmm2 hA
        obtain ⟨hcontn, hnz, hclean⟩ := freshOK_spec pmm mask S idxn hf hidxn hfreen
        have hnewphys : pmm.page_index_to_physical idxn = new := hnew.symm
        rw [hnewphys] at hcontn hnz hclean
        have hal : IsPageAligned new = true := by
          rw [isPageAligned_iff]
          exact clean_mod_4096 new mask hmask0 hclean
        rw [enlt_absent_alloc pmm pmm2 m t _ mask new hp hA hal] at hw
        dsimp only at hw
        rw [if_neg hnz] at hw
        have hnewal : new % 4096 = 0 := clean_mod_4096 new mask hmask0 hclean
        have hnmem : new ∉ S := by
          intro hmem
          rw [mem_contains hmem] at hcontn
          exact Bool.noConfusion hcontn
        have htne : t ≠ new := fun he => hnmem (he ▸ htmem)
        -- the new table page is zero-filled after the pointer write
        have hm3zero : ∀ i, i < 512 →
            readEntry (writeEntry (zeroPage m new) t
              (IndexFromVirtualAddressAtLevel va (l + 1))
              (EncodeTablePointer new mask)) new i = 0 := by
          intro i hi
          rw [readEntry_writeEntry, if_neg (by omega), readEntry_zeroPage,
            if_pos ⟨by omega, by simp only [show kPageSizeBytes = 4096 from rfl]; omega⟩]
        have hS1 : ∀ u ∈ new :: S, u ≠ 0 ∧ u &&& mask = u := by
          intro u hu
          rcases List.mem_cons.mp hu with he | hm
          · subst he
            exact ⟨hnz, hclean⟩
          · exact hS u hm
        have hsub1 : subTree (writeEntry (zeroPage m new) t
            (IndexFromVirtualAddressAtLevel va (l + 1))
            (EncodeTablePointer new mask)) mask new l (new :: S) = true := by
          apply subTree_of_no_present
          · rw [List.contains_cons]
            simp
          · intro i hi
            rw [hm3zero i hi]
            exact entryIsPresent_zero
        have hf1 : freshOK pmm2 mask (new :: S) = true :=
          freshOK_after_alloc pmm pmm2 mask new S hA hf hlen
        have hlen1 : pmm2.page_count ≤ 8 * pmm2.bitmap.length := by omega
        obtain ⟨hwalk, hpres⟩ := ih pmm2 _ new (new :: S) T pmm' m' hS1 hsub1 hf1 hlen1 hw
        have hm3t : readEntry (writeEntry (zeroPage m new) t
            (IndexFromVirtualAddressAtLevel va (l + 1))
            (EncodeTablePointer new mask)) t (IndexFromVirtualAddressAtLevel va (l + 1)) =
            EncodeTablePointer new mask := by
          rw [readEntry_writeEntry, if_pos rfl]
        have hm3t_present : EntryIsPresent (readEntry (writeEntry (zeroPage m new) t
            (IndexFromVirtualAddressAtLevel va (l + 1))
            (EncodeTablePointer new mask)) t (IndexFromVirtualAddressAtLevel va (l + 1))) = true := by
          rw [hm3t]
          exact encodeTablePointer_present new mask
        have hm't : readEntry m' t (IndexFromVirtualAddressAtLevel va (l + 1)) =
            EncodeTablePointer new mask := by
          rw [hpres t (List.mem_cons_of_mem new htmem) _ hidx hm3t_present]
          exact hm3t
        constructor
        · rw [walkToLeafTable_succ, hm't,
            if_neg (by simp [encodeTablePointer_present new mask]),
            encodeTablePointer_base new mask hmask0 hclean, if_neg hnz]
          exact hwalk
        · -- present entries of the original tables are untouched
          intro u hu i hi hpres_u
          have hufacts := hS u hu
          have hual : u % 4096 = 0 := clean_mod_4096 u mask hmask0 hufacts.2
          have hune : u ≠ new := fun he => hnmem (he ▸ hu)
          have hstep1 : readEntry (zeroPage m new) u i = readEntry m u i := by
            rw [readEntry_zeroPage, if_neg ?_]
            intro hcon
            obtain ⟨ha1, ha2⟩ := hcon
            rw [show kPageSizeBytes = 4096 from rfl] at ha2
            omega
          have hstep2 : readEntry (writeEntry (zeroPage m new) t
              (IndexFromVirtualAddressAtLevel va (l + 1))
              (EncodeTablePointer new mask)) u i = readEntry m u i := by
            rw [readEntry_writeEntry, if_neg ?_, hstep1]
            intro he
            have : u = t ∧ i = IndexFromVirtualAddressAtLevel va (l + 1) := by
              constructor <;> omega
            obtain ⟨he1, he2⟩ := this
            subst he1
            subst he2
            rw [hpres_u] at hp
            exact Bool.noConfusion hp
          have hstep3 := hpres u (List.mem_cons_of_mem new hu) i hi
            (by rw [hstep2]; exact hpres_u)
          rw [hstep3, hstep2]

end Rocinante

namespace Rocinante

theorem buildLayout_bounds (ab : AddressSpaceBits) (L : Layout)
    (h : BuildLayout ab = some L) :
    13 ≤ ab.physical_address_bits ∧ ab.physical_address_bits ≤ 61 := by
  unfold BuildLayout at h
  split at h
  · exact Option.noConfusion h
  split at h
  · exact Option.noConfusion h
  split at h
  · exact Option.noConfusion h
  split at h
  · exact Option.noConfusion h
  split at h
  · exact Option.noConfusion h
  split at h
  · exact Option.noConfusion h
  rename_i h6
  have h7 : ¬ (ab.physical_address_bits < 13 ∨ 61 < ab.physical_address_bits) :=
    fun hc => h6 ((physMask_eq_zero_iff _).mpr hc)
  push_neg at h7
  omega

theorem validatePA_clean (pa : Nat) (layout : Layout) (palen : Nat)
    (hpm : layout.physical_address_mask = MaskFromBits palen)
    (h13 : 13 ≤ palen) (h61 : palen ≤ 61)
    (hpa64 : pa < 2 ^ 64)
    (hv : ValidatePhysicalAddress pa layout = true)
    (hal : pa &&& kPageOffsetMask = 0) :
    pa &&& PhysicalPageBaseMaskFromBits palen = pa := by
  unfold ValidatePhysicalAddress at hv
  rw [hpm] at hv
  simp only [decide_eq_true_eq] at hv
  apply Nat.eq_of_testBit_eq
  intro k
  rw [Nat.testBit_and, ppbmask_testBit palen k h13 h61]
  by_cases hpk : pa.testBit k = true
  · have hk64 : k < 64 := by
      by_contra hk
      rw [Nat.testBit_lt_two_pow
        (lt_of_lt_of_le hpa64 (Nat.pow_le_pow_right (by omega) (by omega)))] at hpk
      exact Bool.noConfusion hpk
    have hup := (eq_zero_iff_testBit _).mp hv k
    rw [Nat.testBit_and, upperMask_testBit palen k (by omega) (by omega), hpk] at hup
    simp only [Bool.true_and, Bool.and_eq_false_iff, decide_eq_false_iff_not] at hup
    have hklt : k < palen := by
      rcases hup with h | h
      · omega
      · omega
    have h12 : 12 ≤ k := by
      have hoff := (eq_zero_iff_testBit _).mp hal k
      rw [Nat.testBit_and, hpk] at hoff
      have hoffm : kPageOffsetMask = 2 ^ 12 - 1 := by decide
      rw [hoffm, Nat.testBit_two_pow_sub_one] at hoff
      simp at hoff
      omega
    rw [hpk]
    simp [h12, hklt]
  · rw [Bool.not_eq_true] at hpk
    rw [hpk]
    simp

end Rocinante

namespace Rocinante

/-- C1: over a well-formed paging state (tables non-null, mask-clean and closed
under the table set, allocatable pages fresh), a successful
`MapPage4KiB(pmm, root, va, pa, perms, bits)` makes `Translate(root, va, bits)`
return `some pa`; `UnmapPage4KiB(root, va, bits)` on the mapped state then
succeeds, after which `Translate(root, va, bits)` returns `none`. -/
theorem mapPage_roundtrip (pmm : PmmState) (m : Mem) (root : PageTableRoot)
    (va pa : Nat) (perms : PagePermissions) (ab : AddressSpaceBits)
    (layout : Layout) (S : List Nat)
    (hL : BuildLayout ab = some layout)
    (hinv : MapInv pmm m layout.physical_page_base_mask root.root_physical_address
      (layout.level_count - 1) S)
    (hpa64 : pa < 2 ^ 64)
    (hres : (MapPage4KiB pmm m root va pa perms ab).1 = true) :
    Translate (MapPage4KiB pmm m root va pa perms ab).2.2 root va ab = some pa ∧
    (UnmapPage4KiB (MapPage4KiB pmm m root va pa perms ab).2.2 root va ab).1 = true ∧
    Translate (UnmapPage4KiB (MapPage4KiB pmm m root va pa perms ab).2.2 root va ab).2
      root va ab = none := by
  obtain ⟨hS, hsub, hf, hlen⟩ := hinv
  obtain ⟨hfl1, hfl2, hfl3, hfl4, hfl5, hfl6⟩ := buildLayout_fields ab layout hL
  obtain ⟨h13, h61⟩ := buildLayout_bounds ab layout hL
  have hmask0 : layout.physical_page_base_mask % 4096 = 0 := by
    rw [hfl6]
    exact ppbmask_mod_4096 _
  cases hMp : MapPage4KiB pmm m root va pa perms ab with
  | mk b rest =>
  rw [hMp] at hres
  have hb : b = true := hres
  subst hb
  unfold MapPage4KiB at hMp
  rw [hL] at hMp
  dsimp only at hMp
  split at hMp
  · exact Bool.noConfusion (congrArg Prod.fst hMp)
  rename_i hroot
  split at hMp
  · exact Bool.noConfusion (congrArg Prod.fst hMp)
  rename_i hva
  split at hMp
  · exact Bool.noConfusion (congrArg Prod.fst hMp)
  rename_i hpav
  split at hMp
  · exact Bool.noConfusion (congrArg Prod.fst hMp)
  rename_i hvaal
  split at hMp
  · exact Bool.noConfusion (congrArg Prod.fst hMp)
  rename_i hpaal
  split at hMp
  · exact Bool.noConfusion (congrArg Prod.fst hMp)
  rename_i table pmmW mW heqW
  split at hMp
  · exact Bool.noConfusion (congrArg Prod.fst hMp)
  rename_i hnp
  injection hMp with h1 h2
  subst h2
  have hva' : ValidateVirtualAddress va layout = true := not_not.mp hva
  have hpav' : ValidatePhysicalAddress pa layout = true := not_not.mp hpav
  have hvaal' : IsPageAligned va = true := not_not.mp hvaal
  have hpaal' : IsPageAligned pa = true := not_not.mp hpaal
  have hnp' : EntryIsPresent (readEntry mW table (IndexFromVirtualAddressAtLevel va 0)) =
      false := by simpa using hnp
  obtain ⟨hwalkW, -⟩ := mapWalk_sound va layout.physical_page_base_mask hmask0
    (layout.level_count - 1) pmm m root.root_physical_address S table pmmW mW
    hS hsub hf hlen heqW
  set enc := EncodeLeafEntry pa layout.physical_page_base_mask perms with hencdef
  set m2 := writeEntry mW table (IndexFromVirtualAddressAtLevel va 0) enc with hm2def
  have hwalk2 : walkToLeafTable m2 root.root_physical_address va
      layout.physical_page_base_mask (layout.level_count - 1) = some table := by
    rw [hm2def]
    exact walk_preserved_write_nonpresent va layout.physical_page_base_mask
      (layout.level_count - 1) mW root.root_physical_address table
      (IndexFromVirtualAddressAtLevel va 0) enc hwalkW hnp'
  have hleaf : readEntry m2 table (IndexFromVirtualAddressAtLevel va 0) = enc := by
    rw [hm2def, readEntry_writeEntry, if_pos rfl]
  have hoffva : va &&& kPageOffsetMask = 0 := by
    have := hvaal'
    unfold IsPageAligned at this
    simpa using this
  have hoffpa : pa &&& kPageOffsetMask = 0 := by
    have := hpaal'
    unfold IsPageAligned at this
    simpa using this
  have hclean : pa &&& PhysicalPageBaseMaskFromBits ab.physical_address_bits = pa :=
    validatePA_clean pa layout ab.physical_address_bits hfl5 h13 h61 hpa64 hpav' hoffpa
  have hbase : EntryPhysicalPageBase enc layout.physical_page_base_mask = pa := by
    rw [hencdef]
    exact encodeLeafEntry_base pa layout.physical_page_base_mask perms
      ab.physical_address_bits hfl6 h13 h61 (by rw [hfl6]; exact hclean)
  have hpresent : EntryIsPresent enc = true := by
    rw [hencdef]
    exact encodeLeafEntry_present pa layout.physical_page_base_mask perms
  have hT : Translate m2 root va ab = some pa := by
    unfold Translate
    rw [hL]
    dsimp only
    rw [if_neg hroot, if_neg (not_not_intro hva'), hwalk2]
    dsimp only
    rw [hleaf, if_neg (not_not_intro hpresent), hbase, hoffva, Nat.add_zero]
  have hU : UnmapPage4KiB m2 root va ab =
      (true, writeEntry m2 table (IndexFromVirtualAddressAtLevel va 0) 0) := by
    unfold UnmapPage4KiB
    rw [hL]
    dsimp only
    rw [if_neg hroot, if_neg (not_not_intro hva'), if_neg (not_not_intro hvaal'), hwalk2]
    dsimp only
    rw [hleaf, if_neg (not_not_intro hpresent)]
  have hT2 : Translate (writeEntry m2 table (IndexFromVirtualAddressAtLevel va 0) 0)
      root va ab = none := by
    have hz := walk_after_write_zero va layout.physical_page_base_mask
      (layout.level_count - 1) m2 root.root_physical_address table
      (IndexFromVirtualAddressAtLevel va 0) hwalk2
    unfold Translate
    rw [hL]
    dsimp only
    rw [if_neg hroot, if_neg (not_not_intro hva')]
    rcases hz with hz | hz
    · rw [hz]
    · rw [hz]
      dsimp only
      rw [show readEntry (writeEntry m2 table (IndexFromVirtualAddressAtLevel va 0) 0)
          table (IndexFromVirtualAddressAtLevel va 0) = 0 from by
        rw [readEntry_writeEntry, if_pos rfl]]
      rw [if_pos (by simp [entryIsPresent_zero])]
  refine ⟨hT, ?_, ?_⟩
  · have h2 : (UnmapPage4KiB m2 root va ab).1 = true := by rw [hU]
    exact h2
  · have h3 : Translate (UnmapPage4KiB m2 root va ab).2 root va ab = none := by
      rw [hU]
      exact hT2
    exact h3

end Rocinante

namespace Rocinante

/-- Witness for C1: with a one-level layout (valen 13, palen 48), an all-zero
table page at 0x1000 and an empty PMM, mapping va 0 to pa 0x2000 succeeds;
translation returns 0x2000, the unmap succeeds, and translation then fails. -/
theorem mapPage_roundtrip_witness :
    Translate (MapPage4KiB PmmState.reset_state (fun _ => 0) ⟨4096⟩ 0 8192
        ⟨AccessPermissions.ReadWrite, ExecutePermissions.NoExecute,
          CacheMode.CoherentCached, false⟩ ⟨13, 48⟩).2.2 ⟨4096⟩ 0 ⟨13, 48⟩ = some 8192 ∧
    (UnmapPage4KiB (MapPage4KiB PmmState.reset_state (fun _ => 0) ⟨4096⟩ 0 8192
        ⟨AccessPermissions.ReadWrite, ExecutePermissions.NoExecute,
          CacheMode.CoherentCached, false⟩ ⟨13, 48⟩).2.2 ⟨4096⟩ 0 ⟨13, 48⟩).1 = true ∧
    Translate (UnmapPage4KiB (MapPage4KiB PmmState.reset_state (fun _ => 0) ⟨4096⟩ 0 8192
        ⟨AccessPermissions.ReadWrite, ExecutePermissions.NoExecute,
          CacheMode.CoherentCached, false⟩ ⟨13, 48⟩).2.2 ⟨4096⟩ 0 ⟨13, 48⟩).2
      ⟨4096⟩ 0 ⟨13, 48⟩ = none :=
  mapPage_roundtrip PmmState.reset_state (fun _ => 0) ⟨4096⟩ 0 8192
    ⟨AccessPermissions.ReadWrite, ExecutePermissions.NoExecute,
      CacheMode.CoherentCached, false⟩ ⟨13, 48⟩
    ⟨13, 48, 1, 8191, 281474976710655, 281474976706560⟩ [4096]
    (by decide) (by decide) (by decide) (by decide)

end Rocinante
